import Mathlib

/-!
Verification of the procedural level-generation core of the
`glass-half-full` 2D puzzle-platformer (files `src/game/level/graph.rs`,
`causality.rs`, `templates.rs`, `generator.rs`).

The Rust code is shallowly embedded: structs become structures, enums become
inductive types, `Vec` becomes `List`, `HashSet`/`HashMap` become lists and
association lists (only membership/lookup semantics are observed by the
code under verification, so iteration-order differences are immaterial and
noted where they arise), `u64`/`usize`/`i32` become `Nat`/`Int`, and a call
that can panic is modelled by an `Option` result (`none` = panic).

The seeded random generator (`rand::rngs::StdRng::seed_from_u64`) is
modelled abstractly: a seed is identified with the infinite output stream
it determines (`Seed := Nat → Nat`), and each `random_range`/`random_bool`
call consumes one stream element and produces a value in the requested
range.  All theorems quantify over every stream, hence over every 64-bit
seed; re-seeding from the same seed restarts the same stream, exactly as
`StdRng::seed_from_u64` does.
-/

namespace GHF

/-- `NodeId(pub usize)` — opaque index of a platform node (graph.rs). -/
structure NodeId where
  id : Nat
deriving DecidableEq, Repr

/-- Rust `Debug` rendering of a `NodeId`, used in error strings. -/
def NodeId.debugStr (n : NodeId) : String :=
  "NodeId(" ++ toString n.id ++ ")"

/-- `LayoutDirection` — placement hint carried by every connection (graph.rs). -/
inductive LayoutDirection where
  | Right
  | Left
  | RightUp
  | LeftUp
  | RightDown
  | LeftDown
deriving DecidableEq, Repr

/-- Bevy `Entity` references stored on `MovingPlatform` connections are opaque
to the generation core; model them as naturals. -/
abbrev Entity := Nat

/-- `ConnectionType` (graph.rs). -/
inductive ConnectionType where
  | Jump (direction : LayoutDirection)
  | Fall (direction : LayoutDirection)
  | MovingPlatform (platform_entity : Option Entity) (required : Bool)
      (direction : LayoutDirection)
deriving DecidableEq, Repr

/-- `ConnectionType::direction` (graph.rs). -/
def ConnectionType.direction : ConnectionType → LayoutDirection
  | .Jump d => d
  | .Fall d => d
  | .MovingPlatform _ _ d => d

/-- `Edge` (graph.rs).  The Rust field is named `to`, which is a reserved
token here, so it is rendered `tgt`. -/
structure Edge where
  tgt : NodeId
  connection_type : ConnectionType
deriving DecidableEq, Repr

/-- `PlatformType` (graph.rs). -/
inductive PlatformType where
  | Floating
  | Grounded
  | Start
  | Goal
deriving DecidableEq, Repr

/-- `SmartTerrain` (graph.rs), reconciled with the constructors used by
generator.rs and causality.rs, which still build `WaterSource { active }`
and `Fire { extinguished }` from an earlier revision of the enum.
`fill_count`/`target` are `u8` in Rust; only the constants 0 and 2 occur. -/
inductive SmartTerrain where
  | WaterSource (active : Bool)
  | SnowSource
  | BlockingFire (extinguished : Bool)
  | SnowMeltFire (extinguished : Bool)
  | Fire (extinguished : Bool)
  | GoalContainer (fill_count : Nat) (target : Nat)
  | SwitchContainer (filled : Bool) (activates : NodeId)
  | Switch (activated : Bool) (activates : NodeId)
  | MovingPlatform (active : Bool)
deriving DecidableEq, Repr

/-- `TILE_SIZE` (tiles.rs) — `32.0_f32`, an exactly representable integer. -/
def TILE_SIZE : Nat := 32

/-- `PlatformNode` (graph.rs): edges, terrain objects and platform role.
The `width`/`height` fields come from the earlier revision of the struct
that generator.rs's `apply_chain_to_graph` still writes to (`node.width`,
`node.height`); nothing in the current code reads them back. `width` is in
world units (f32 in Rust, but only the integers 0 and `9 * TILE_SIZE`
are ever stored). -/
structure PlatformNode where
  edges : List Edge
  terrain_objects : List SmartTerrain
  platform_type : PlatformType
  width : Nat
  height : Nat
deriving DecidableEq, Repr

/-- `PlatformNode::new` (graph.rs). -/
def PlatformNode.new : PlatformNode :=
  { edges := [], terrain_objects := [], platform_type := .Floating,
    width := 0, height := 0 }

/-- `PlatformNode::with_type` (graph.rs). -/
def PlatformNode.with_type (platform_type : PlatformType) : PlatformNode :=
  { edges := [], terrain_objects := [], platform_type := platform_type,
    width := 0, height := 0 }

/-- `PlatformNode::add_edge` (graph.rs). -/
def PlatformNode.add_edge (n : PlatformNode) (tgt : NodeId)
    (connection_type : ConnectionType) : PlatformNode :=
  { n with edges := n.edges ++ [{ tgt := tgt, connection_type := connection_type }] }

/-- `PlatformNode::add_terrain` (graph.rs). -/
def PlatformNode.add_terrain (n : PlatformNode) (terrain : SmartTerrain) :
    PlatformNode :=
  { n with terrain_objects := n.terrain_objects ++ [terrain] }

/-- Does a terrain object match Rust's `SmartTerrain::WaterSource` pattern? -/
def SmartTerrain.isWaterSource : SmartTerrain → Bool
  | .WaterSource _ => true
  | _ => false

/-- Does a terrain object match `SmartTerrain::GoalContainer { .. }`? -/
def SmartTerrain.isGoalContainer : SmartTerrain → Bool
  | .GoalContainer _ _ => true
  | _ => false

/-- `PlatformNode::calculate_width` (graph.rs), in world units
(`TILE_SIZE * 9.0` or `TILE_SIZE * 4.0`). -/
def PlatformNode.calculate_width (n : PlatformNode) : Nat :=
  if n.platform_type = .Start ∨ n.platform_type = .Goal then
    TILE_SIZE * 9
  else if n.terrain_objects.any SmartTerrain.isWaterSource then
    TILE_SIZE * 9
  else
    TILE_SIZE * 4

/-- `PlatformNode::calculate_height` (graph.rs), in tiles. -/
def PlatformNode.calculate_height (n : PlatformNode) : Nat :=
  if n.platform_type = .Start ∨ n.platform_type = .Goal then 2
  else if n.terrain_objects.any SmartTerrain.isWaterSource then 2
  else 1

/-- `PlatformLayout` (graph.rs): grid position and footprint in tiles. -/
structure PlatformLayout where
  grid_x : Int
  grid_y : Int
  width_tiles : Int
  height_tiles : Int
deriving DecidableEq, Repr

/-- `PlatformGraph` (graph.rs). -/
structure PlatformGraph where
  nodes : List PlatformNode
  start : NodeId
  goal : NodeId
deriving DecidableEq, Repr

/-- `PlatformGraph::new` (graph.rs). -/
def PlatformGraph.new (start goal : NodeId) : PlatformGraph :=
  { nodes := [], start := start, goal := goal }

/-- `PlatformGraph::add_node` (graph.rs) — returns the fresh `NodeId` and the
grown graph (the Rust method mutates in place). -/
def PlatformGraph.add_node (g : PlatformGraph) (node : PlatformNode) :
    NodeId × PlatformGraph :=
  (⟨g.nodes.length⟩, { g with nodes := g.nodes ++ [node] })

/-- `PlatformGraph::get_node` (graph.rs). -/
def PlatformGraph.get_node (g : PlatformGraph) (id : NodeId) :
    Option PlatformNode :=
  g.nodes[id.id]?

/-- In-place update through `get_node_mut(id).unwrap()` at call sites where
the id was just produced by `add_node` (templates.rs); the out-of-range
panic is unreachable there, so an out-of-range id leaves the graph
unchanged. -/
def PlatformGraph.modifyNode (g : PlatformGraph) (id : NodeId)
    (f : PlatformNode → PlatformNode) : PlatformGraph :=
  match g.nodes[id.id]? with
  | none => g
  | some node => { g with nodes := g.nodes.set id.id (f node) }

end GHF

namespace GHF

/-! ## Causality model (causality.rs) -/

/-- `BucketContent` (causality.rs). -/
inductive BucketContent where
  | Empty
  | Water
  | Snow
deriving DecidableEq, Repr

/-- `Effect` (causality.rs). -/
inductive Effect where
  | WaterBucket
  | SnowBucket
  | EmptyBucket
  | ContainerFilled (idx : Nat)
  | FireExtinguished (loc : NodeId)
  | SwitchActivated (loc : NodeId)
  | PathAccessible (loc : NodeId)
deriving DecidableEq, Repr

/-- Rust `Debug` rendering of an `Effect`, used in `validate`'s
error strings. -/
def Effect.debugStr : Effect → String
  | .WaterBucket => "WaterBucket"
  | .SnowBucket => "SnowBucket"
  | .EmptyBucket => "EmptyBucket"
  | .ContainerFilled i => "ContainerFilled(" ++ toString i ++ ")"
  | .FireExtinguished l => "FireExtinguished(" ++ l.debugStr ++ ")"
  | .SwitchActivated l => "SwitchActivated(" ++ l.debugStr ++ ")"
  | .PathAccessible l => "PathAccessible(" ++ l.debugStr ++ ")"

/-- Rust `Debug` rendering of a `Vec<Effect>`. -/
def effectListDebugStr (es : List Effect) : String :=
  "[" ++ String.intercalate ", " (es.map Effect.debugStr) ++ "]"

/-- `Cause` (causality.rs). -/
inductive Cause where
  | Player
  | BucketAt (content : BucketContent) (location : NodeId)
  | RequiresAny (effects : List Effect)
  | RequiresAll (effects : List Effect)
deriving DecidableEq, Repr

/-- `CausalityNode` (causality.rs). -/
structure CausalityNode where
  effect : Effect
  cause : Cause
  terrain : SmartTerrain
  location : NodeId
deriving DecidableEq, Repr

/-- `CausalityChain` (causality.rs): nodes stored goal-to-start. -/
structure CausalityChain where
  nodes : List CausalityNode
  goal : Effect
deriving DecidableEq, Repr

/-- `CausalityChain::new` (causality.rs). -/
def CausalityChain.new (goal : Effect) : CausalityChain :=
  { nodes := [], goal := goal }

/-- `CausalityChain::add_node` (causality.rs). -/
def CausalityChain.add_node (c : CausalityChain) (node : CausalityNode) :
    CausalityChain :=
  { c with nodes := c.nodes ++ [node] }

/-- `CausalityChain::forward_order` (causality.rs): the reversed node list. -/
def CausalityChain.forward_order (c : CausalityChain) : List CausalityNode :=
  c.nodes.reverse

/-- The loop body of `CausalityChain::validate` (causality.rs): process the
forward-order nodes, threading the achieved-effects set (a `HashSet` in
Rust; a list with the same membership semantics here), and return the final
achieved set or the first error.  Error strings reproduce the Rust
`format!` output. -/
def checkNodes : List CausalityNode → List Effect → Except String (List Effect)
  | [], achieved => .ok achieved
  | node :: rest, achieved =>
    match node.cause with
    | .Player => checkNodes rest (node.effect :: achieved)
    | .BucketAt _ _ => checkNodes rest (node.effect :: achieved)
    | .RequiresAny effects =>
      if effects.any (fun e => decide (e ∈ achieved)) then
        checkNodes rest (node.effect :: achieved)
      else
        .error ("Effect " ++ node.effect.debugStr ++ " requires one of " ++
          effectListDebugStr effects ++ ", but none are achieved")
    | .RequiresAll effects =>
      match effects.find? (fun e => !decide (e ∈ achieved)) with
      | some e =>
        .error ("Effect " ++ node.effect.debugStr ++ " requires " ++
          e.debugStr ++ ", which is not achieved")
      | none => checkNodes rest (node.effect :: achieved)

/-- `CausalityChain::validate` (causality.rs). -/
def CausalityChain.validate (c : CausalityChain) : Except String Unit :=
  match checkNodes c.forward_order [] with
  | .error msg => .error msg
  | .ok achieved =>
    if c.goal ∈ achieved then .ok ()
    else .error ("Goal " ++ c.goal.debugStr ++ " is not achieved by the chain")

/-- `CausalityChain::terrain_by_location` (causality.rs): group the chain's
terrain objects by placement node.  Rust returns a `HashMap` with
unspecified iteration order; the model fixes first-insertion order, which
the verified properties do not depend on. -/
def terrainGroupInsert (m : List (NodeId × List SmartTerrain)) (loc : NodeId)
    (t : SmartTerrain) : List (NodeId × List SmartTerrain) :=
  match m with
  | [] => [(loc, [t])]
  | (k, ts) :: rest =>
    if k = loc then (k, ts ++ [t]) :: rest
    else (k, ts) :: terrainGroupInsert rest loc t

/-- See `terrainGroupInsert`. -/
def CausalityChain.terrain_by_location (c : CausalityChain) :
    List (NodeId × List SmartTerrain) :=
  c.nodes.foldl (fun m node => terrainGroupInsert m node.location node.terrain) []

/-! ### The specification-side predicate for C1 -/

/-- Spec wording: a `Cause` is satisfied by the accumulated achieved set:
`Player` and `BucketAt` always are, `RequiresAny` needs at least one member
achieved, `RequiresAll` needs all members achieved. -/
def CauseSat (achieved : List Effect) : Cause → Prop
  | .Player => True
  | .BucketAt _ _ => True
  | .RequiresAny effects => ∃ e ∈ effects, e ∈ achieved
  | .RequiresAll effects => ∀ e ∈ effects, e ∈ achieved

/-- Spec wording: processing nodes in forward order, every node's cause is
satisfied by the effects accumulated so far. -/
def ChainSat (achieved : List Effect) : List CausalityNode → Prop
  | [] => True
  | node :: rest => CauseSat achieved node.cause ∧
      ChainSat (node.effect :: achieved) rest

/-- Spec wording for C1: every cause is satisfied in forward order and the
declared goal effect is achieved at the end (the final achieved set holds
exactly the effects of all processed nodes). -/
def SpecValidates (c : CausalityChain) : Prop :=
  ChainSat [] c.nodes.reverse ∧ c.goal ∈ c.nodes.map CausalityNode.effect

instance (a : List Effect) (c : Cause) : Decidable (CauseSat a c) := by
  cases c <;> simp only [CauseSat] <;> infer_instance

instance (a : List Effect) (l : List CausalityNode) : Decidable (ChainSat a l) := by
  induction l generalizing a with
  | nil => simpa only [ChainSat] using inferInstanceAs (Decidable True)
  | cons n rest ih =>
    simp only [ChainSat]
    exact @instDecidableAnd _ _ _ (ih _)

instance (c : CausalityChain) : Decidable (SpecValidates c) :=
  inferInstanceAs (Decidable (_ ∧ _))

theorem checkNodes_ok_iff (nodes : List CausalityNode) (achieved : List Effect) :
    (∃ fin, checkNodes nodes achieved = .ok fin) ↔ ChainSat achieved nodes := by
  induction nodes generalizing achieved with
  | nil => simp [checkNodes, ChainSat]
  | cons node rest ih =>
    cases hc : node.cause with
    | Player => simp [checkNodes, ChainSat, hc, ih, CauseSat]
    | BucketAt content loc => simp [checkNodes, ChainSat, hc, ih, CauseSat]
    | RequiresAny effects =>
      simp only [checkNodes, ChainSat, hc, CauseSat]
      by_cases hany : ∃ e ∈ effects, e ∈ achieved
      · have : effects.any (fun e => decide (e ∈ achieved)) = true := by
          rw [List.any_eq_true]
          obtain ⟨e, he, hm⟩ := hany
          exact ⟨e, he, decide_eq_true hm⟩
        simp [this, ih, hany]
      · have : effects.any (fun e => decide (e ∈ achieved)) = false := by
          rw [List.any_eq_false]
          intro e he
          simp only [decide_eq_true_eq]
          exact fun hm => hany ⟨e, he, hm⟩
        simp [this, hany]
    | RequiresAll effects =>
      simp only [checkNodes, ChainSat, hc, CauseSat]
      by_cases hall : ∀ e ∈ effects, e ∈ achieved
      · have : effects.find? (fun e => !decide (e ∈ achieved)) = none := by
          rw [List.find?_eq_none]
          intro e he
          simp [hall e he]
        simp only [this, ih]
        exact ⟨fun h => ⟨hall, h⟩, fun h => h.2⟩
      · obtain ⟨e, he, hm⟩ := not_forall₂.mp hall
        have : ∃ e', effects.find? (fun e => !decide (e ∈ achieved)) = some e' := by
          have : e ∈ effects ∧ (!decide (e ∈ achieved)) = true := ⟨he, by simp [hm]⟩
          rcases hfind : effects.find? (fun e => !decide (e ∈ achieved)) with _ | e'
          · rw [List.find?_eq_none] at hfind
            exact absurd this.2 (hfind e he)
          · exact ⟨e', rfl⟩
        obtain ⟨e', he'⟩ := this
        simp [he', hall]

theorem checkNodes_final (nodes : List CausalityNode) (achieved fin : List Effect)
    (h : checkNodes nodes achieved = .ok fin) :
    fin = (nodes.map CausalityNode.effect).reverse ++ achieved := by
  induction nodes generalizing achieved with
  | nil => simpa [checkNodes] using h.symm
  | cons node rest ih =>
    cases hc : node.cause <;> simp only [checkNodes, hc] at h
    case Player => simpa using ih _ h
    case BucketAt => simpa using ih _ h
    case RequiresAny effects =>
      split at h
      · simpa using ih _ h
      · exact absurd h (by simp)
    case RequiresAll effects =>
      split at h
      · exact absurd h (by simp)
      · simpa using ih _ h

theorem validate_ok_shape (c : CausalityChain) :
    c.validate = .ok () ↔
      ∃ fin, checkNodes c.nodes.reverse [] = .ok fin ∧ c.goal ∈ fin := by
  unfold CausalityChain.validate CausalityChain.forward_order
  rcases hck : checkNodes c.nodes.reverse [] with msg | fin
  · simp
  · by_cases hg : c.goal ∈ fin <;> simp [hg]

/-- C1. `CausalityChain::validate` returns `Ok` iff, processing the stored
nodes in forward order while accumulating achieved effects, every
`RequiresAny` cause has a member already achieved, every `RequiresAll`
cause has all members achieved, `Player` and `BucketAt` are always
satisfied, and the declared goal effect is achieved at the end. -/
theorem c1_validate_ok_iff (c : CausalityChain) :
    c.validate = .ok () ↔ SpecValidates c := by
  rw [validate_ok_shape]
  unfold SpecValidates
  constructor
  · rintro ⟨fin, hck, hmem⟩
    refine ⟨(checkNodes_ok_iff _ _).mp ⟨fin, hck⟩, ?_⟩
    have hfin := checkNodes_final _ _ _ hck
    rw [hfin] at hmem
    simpa using hmem
  · rintro ⟨hsat, hgoal⟩
    obtain ⟨fin, hck⟩ := (checkNodes_ok_iff c.nodes.reverse []).mpr hsat
    refine ⟨fin, hck, ?_⟩
    rw [checkNodes_final _ _ _ hck]
    simpa using hgoal

end GHF

namespace GHF

/-! ## Seeded random stream model -/

/-- A 64-bit seed is identified with the output stream of the `StdRng` it
determines; `StdRng::seed_from_u64` on the same seed always restarts the
same stream. -/
def Seed := Nat → Nat

/-- One `StdRng`: its stream and the number of values already drawn. -/
structure Rng where
  stream : Seed
  idx : Nat

/-- `StdRng::seed_from_u64`. -/
def Rng.seed_from_u64 (s : Seed) : Rng := ⟨s, 0⟩

/-- `rng.random_range(lo..=hi)` on `i32` values: one draw mapped into
`[lo, hi]` (every in-range result is realised by some stream, so
quantifying over streams covers every real seed). -/
def Rng.randomRangeInt (r : Rng) (lo hi : Int) : Int × Rng :=
  (lo + Int.ofNat (r.stream r.idx % (hi + 1 - lo).toNat), ⟨r.stream, r.idx + 1⟩)

/-- `rng.random_range(lo..=hi)` on `usize` values. -/
def Rng.randomRangeNat (r : Rng) (lo hi : Nat) : Nat × Rng :=
  (lo + r.stream r.idx % (hi + 1 - lo), ⟨r.stream, r.idx + 1⟩)

/-- `rng.random_range(0..n)` on `usize` values (exclusive upper bound;
all call sites guard `n > 0`). -/
def Rng.randomBelow (r : Rng) (n : Nat) : Nat × Rng :=
  (r.stream r.idx % n, ⟨r.stream, r.idx + 1⟩)

/-- `rng.random_bool(p)`: one draw; only the Boolean outcome is modelled,
not the probability. -/
def Rng.randomBool (r : Rng) : Bool × Rng :=
  (r.stream r.idx % 2 == 1, ⟨r.stream, r.idx + 1⟩)

theorem Rng.randomRangeInt_le (r : Rng) (lo hi : Int) (h : lo ≤ hi) :
    lo ≤ (r.randomRangeInt lo hi).1 ∧ (r.randomRangeInt lo hi).1 ≤ hi := by
  unfold Rng.randomRangeInt
  have hpos : 0 < (hi + 1 - lo).toNat := by omega
  have hlt : r.stream r.idx % (hi + 1 - lo).toNat < (hi + 1 - lo).toNat :=
    Nat.mod_lt _ hpos
  have hc : (Int.ofNat (r.stream r.idx % (hi + 1 - lo).toNat)) <
      ((hi + 1 - lo).toNat : Int) := Int.ofNat_lt.mpr hlt
  have hnn : (0:Int) ≤ Int.ofNat (r.stream r.idx % (hi + 1 - lo).toNat) :=
    Int.ofNat_nonneg _
  constructor
  · simpa using hnn
  · simp only
    omega

theorem Rng.randomBelow_lt (r : Rng) (n : Nat) (h : 0 < n) :
    (r.randomBelow n).1 < n := Nat.mod_lt _ h

/-! ## Reachability (graph.rs `reachable_from` / `validate`) -/

/-- Inner `for edge in &node.edges` loop of `reachable_from`: push every
edge target whose `visited` entry is `false` (the last edge ends on top of
the stack, matching `Vec::push`/`Vec::pop`); `none` models the panic when
`visited[edge.to.0]` indexes out of range. -/
def pushUnvisited (visited : List Bool) :
    List Edge → List NodeId → Option (List NodeId)
  | [], stack => some stack
  | e :: rest, stack =>
    match visited[e.tgt.id]? with
    | none => none
    | some b => pushUnvisited visited rest (if b then stack else e.tgt :: stack)

/-- The `while let Some(current) = stack.pop()` loop of
`PlatformGraph::reachable_from` (graph.rs).  The Rust loop terminates
because every node is marked visited at most once; here that argument is
made explicit through a fuel parameter (`reachFuel` below is proven
sufficient), and `none` covers both the unreachable fuel exhaustion and the
out-of-range indexing panics. -/
def reachLoop (g : PlatformGraph) :
    Nat → List Bool → List NodeId → List NodeId → Option (List NodeId)
  | _, _, [], reachable => some reachable
  | 0, _, _ :: _, _ => none
  | fuel + 1, visited, current :: stack, reachable =>
    match visited[current.id]? with
    | none => none
    | some true => reachLoop g fuel visited stack reachable
    | some false =>
      let visited' := visited.set current.id true
      let reachable' := reachable ++ [current]
      match g.get_node current with
      | none => reachLoop g fuel visited' stack reachable'
      | some node =>
        match pushUnvisited visited' node.edges stack with
        | none => none
        | some stack' => reachLoop g fuel visited' stack' reachable'

/-- Out-degree of node `i`. -/
def degOf (g : PlatformGraph) (i : Nat) : Nat :=
  match g.nodes[i]? with
  | some node => node.edges.length
  | none => 0

/-- A fuel bound sufficient for `reachLoop` (each iteration strictly
decreases `stack length + Σ (1 + degree) over unvisited nodes`). -/
def reachFuel (g : PlatformGraph) : Nat :=
  g.nodes.length + (∑ i ∈ Finset.range g.nodes.length, degOf g i) + 2

/-- `PlatformGraph::reachable_from` (graph.rs). -/
def PlatformGraph.reachable_from (g : PlatformGraph) (node : NodeId) :
    Option (List NodeId) :=
  reachLoop g (reachFuel g) (List.replicate g.nodes.length false) [node] []

/-- `PlatformGraph::validate` (graph.rs). -/
def PlatformGraph.validateG (g : PlatformGraph) : Option (Except String Unit) :=
  match g.reachable_from g.start with
  | none => none
  | some reachable =>
    if g.goal ∈ reachable then some (.ok ())
    else some (.error "Goal is not reachable from start")

/-- One edge hop in the graph (the semantic counterpart of the traversal). -/
def StepRel (g : PlatformGraph) (a b : NodeId) : Prop :=
  ∃ node, g.get_node a = some node ∧ ∃ e ∈ node.edges, e.tgt = b

/-- Transitive-reflexive reachability along edges. -/
def Reach (g : PlatformGraph) : NodeId → NodeId → Prop :=
  Relation.ReflTransGen (StepRel g)

/-- Everything reachable from `s` is in range and has in-range edge
targets — exactly the condition under which the Rust traversal cannot
panic. -/
def Safe (g : PlatformGraph) (s : NodeId) : Prop :=
  s.id < g.nodes.length ∧
  ∀ v, Reach g s v → v.id < g.nodes.length ∧
    ∀ node, g.get_node v = some node →
      ∀ e ∈ node.edges, e.tgt.id < g.nodes.length

end GHF

namespace GHF

/-! ### Correctness of the stack-based traversal -/

theorem pushUnvisited_sup (visited : List Bool) :
    ∀ edges stack stack', pushUnvisited visited edges stack = some stack' →
    ∀ v ∈ stack, v ∈ stack' := by
  intro edges
  induction edges with
  | nil =>
    intro stack stack' h v hv
    simp only [pushUnvisited] at h
    exact Option.some.inj h ▸ hv
  | cons e rest ih =>
    intro stack stack' h v hv
    simp only [pushUnvisited] at h
    rcases hb : visited[e.tgt.id]? with _ | b <;> rw [hb] at h
    · exact absurd h (by simp)
    · cases b with
      | true => exact ih stack stack' (by simpa using h) v hv
      | false => exact ih _ stack' (by simpa using h) v (by simp [hv])

theorem pushUnvisited_sub (visited : List Bool) :
    ∀ edges stack stack', pushUnvisited visited edges stack = some stack' →
    ∀ v ∈ stack', v ∈ stack ∨ ∃ e ∈ edges, e.tgt = v := by
  intro edges
  induction edges with
  | nil =>
    intro stack stack' h v hv
    simp only [pushUnvisited] at h
    exact Or.inl (Option.some.inj h ▸ hv)
  | cons e rest ih =>
    intro stack stack' h v hv
    simp only [pushUnvisited] at h
    rcases hb : visited[e.tgt.id]? with _ | b <;> rw [hb] at h
    · exact absurd h (by simp)
    · cases b with
      | true =>
        rcases ih stack stack' (by simpa using h) v hv with hl | ⟨e', he', rfl⟩
        · exact Or.inl hl
        · exact Or.inr ⟨e', by simp [he'], rfl⟩
      | false =>
        rcases ih _ stack' (by simpa using h) v hv with hl | ⟨e', he', rfl⟩
        · rcases List.mem_cons.mp hl with hl' | hl'
          · exact Or.inr ⟨e, by simp, hl'.symm⟩
          · exact Or.inl hl'
        · exact Or.inr ⟨e', by simp [he'], rfl⟩

theorem pushUnvisited_covers (visited : List Bool) :
    ∀ edges stack stack', pushUnvisited visited edges stack = some stack' →
    ∀ e ∈ edges, visited[e.tgt.id]? = some true ∨ e.tgt ∈ stack' := by
  intro edges
  induction edges with
  | nil => intro stack stack' _ e he; exact absurd he (by simp)
  | cons e0 rest ih =>
    intro stack stack' h e he
    simp only [pushUnvisited] at h
    rcases hb : visited[e0.tgt.id]? with _ | b <;> rw [hb] at h
    · exact absurd h (by simp)
    · rcases List.mem_cons.mp he with rfl | he'
      · cases b with
        | true => exact Or.inl hb
        | false =>
          refine Or.inr (pushUnvisited_sup visited rest _ stack'
            (by simpa using h) e.tgt ?_)
          simp
      · cases b with
        | true => exact ih stack stack' (by simpa using h) e he'
        | false => exact ih _ stack' (by simpa using h) e he'

theorem pushUnvisited_inrange (visited : List Bool) :
    ∀ edges stack stack', pushUnvisited visited edges stack = some stack' →
    ∀ e ∈ edges, e.tgt.id < visited.length := by
  intro edges
  induction edges with
  | nil => intro stack stack' _ e he; exact absurd he (by simp)
  | cons e0 rest ih =>
    intro stack stack' h e he
    simp only [pushUnvisited] at h
    rcases hb : visited[e0.tgt.id]? with _ | b <;> rw [hb] at h
    · exact absurd h (by simp)
    · rcases List.mem_cons.mp he with rfl | he'
      · exact (List.getElem?_eq_some.mp hb).1
      · cases b with
        | true => exact ih stack stack' (by simpa using h) e he'
        | false => exact ih _ stack' (by simpa using h) e he'

theorem pushUnvisited_some (visited : List Bool) :
    ∀ edges stack, (∀ e ∈ edges, e.tgt.id < visited.length) →
    ∃ stack', pushUnvisited visited edges stack = some stack' ∧
      stack'.length ≤ edges.length + stack.length := by
  intro edges
  induction edges with
  | nil => intro stack _; exact ⟨stack, rfl, by simp⟩
  | cons e0 rest ih =>
    intro stack hlt
    have h0 : e0.tgt.id < visited.length := hlt e0 (by simp)
    rcases hb : visited[e0.tgt.id]? with _ | b
    · exact absurd hb (by simp [List.getElem?_eq_getElem h0])
    · cases b with
      | true =>
        obtain ⟨stack', hs, hl⟩ := ih stack (fun e he => hlt e (by simp [he]))
        refine ⟨stack', ?_, by simp at hl ⊢; omega⟩
        simp [pushUnvisited, hb, hs]
      | false =>
        obtain ⟨stack', hs, hl⟩ := ih (e0.tgt :: stack)
          (fun e he => hlt e (by simp [he]))
        refine ⟨stack', ?_, by simp at hl ⊢; omega⟩
        simp [pushUnvisited, hb, hs]

end GHF

namespace GHF

/-- Invariant-based characterization of the traversal loop: whenever the
loop completes, the output list is sound for `Reach`, contains `s`, is
closed under edges, and mentions only in-range nodes with in-range edge
targets. -/
theorem reachLoop_spec (g : PlatformGraph) (s : NodeId) :
    ∀ fuel visited stack reachable out,
    reachLoop g fuel visited stack reachable = some out →
    visited.length = g.nodes.length →
    (∀ i, visited[i]? = some true ↔ (⟨i⟩ : NodeId) ∈ reachable) →
    (∀ v ∈ reachable, Reach g s v) →
    (∀ v ∈ stack, Reach g s v) →
    (∀ v ∈ reachable, ∀ node, g.get_node v = some node →
      ∀ e ∈ node.edges, e.tgt ∈ reachable ∨ e.tgt ∈ stack) →
    (s ∈ reachable ∨ s ∈ stack) →
    (∀ v ∈ reachable, ∀ node, g.get_node v = some node →
      ∀ e ∈ node.edges, e.tgt.id < g.nodes.length) →
    ((∀ v ∈ out, Reach g s v) ∧ s ∈ out ∧
     (∀ v ∈ out, v.id < g.nodes.length) ∧
     (∀ v ∈ out, ∀ node, g.get_node v = some node →
       ∀ e ∈ node.edges, e.tgt ∈ out ∧ e.tgt.id < g.nodes.length)) := by
  intro fuel
  induction fuel with
  | zero =>
    intro visited stack reachable out h h1 h2 h3 h4 h5 h6 h7
    cases stack with
    | nil =>
      simp only [reachLoop] at h
      obtain rfl := Option.some.inj h
      refine ⟨h3, h6.resolve_right (by simp), ?_, ?_⟩
      · intro v hv
        have := (h2 v.id).mpr hv
        exact h1 ▸ (List.getElem?_eq_some.mp this).1
      · intro v hv node hn e he
        refine ⟨(h5 v hv node hn e he).resolve_right (by simp), h7 v hv node hn e he⟩
    | cons current rest => exact absurd h (by simp [reachLoop])
  | succ fuel ih =>
    intro visited stack reachable out h h1 h2 h3 h4 h5 h6 h7
    cases stack with
    | nil =>
      simp only [reachLoop] at h
      obtain rfl := Option.some.inj h
      refine ⟨h3, h6.resolve_right (by simp), ?_, ?_⟩
      · intro v hv
        have := (h2 v.id).mpr hv
        exact h1 ▸ (List.getElem?_eq_some.mp this).1
      · intro v hv node hn e he
        refine ⟨(h5 v hv node hn e he).resolve_right (by simp), h7 v hv node hn e he⟩
    | cons current rest =>
      simp only [reachLoop] at h
      rcases hb : visited[current.id]? with _ | b <;> rw [hb] at h
      · exact absurd h (by simp)
      · cases b with
        | true =>
          -- already visited: drop it from the stack
          refine ih visited rest reachable out (by simpa using h) h1 h2 h3
            (fun v hv => h4 v (by simp [hv])) ?_ ?_ h7
          · intro v hv node hn e he
            rcases h5 v hv node hn e he with hl | hr
            · exact Or.inl hl
            · rcases List.mem_cons.mp hr with rfl | hr'
              · exact Or.inl ((h2 e.tgt.id).mp hb)
              · exact Or.inr hr'
          · rcases h6 with hl | hr
            · exact Or.inl hl
            · rcases List.mem_cons.mp hr with rfl | hr'
              · exact Or.inl ((h2 s.id).mp hb)
              · exact Or.inr hr'
        | false =>
          have hcl : current.id < visited.length := (List.getElem?_eq_some.mp hb).1
          have hreachcur : Reach g s current := h4 current (by simp)
          -- common facts about the updated visited array / output list
          have h1' : (visited.set current.id true).length = g.nodes.length := by
            simpa using h1
          have h2' : ∀ i, (visited.set current.id true)[i]? = some true ↔
              (⟨i⟩ : NodeId) ∈ reachable ++ [current] := by
            intro i
            by_cases hi : current.id = i
            · subst hi
              rw [List.getElem?_set_self hcl]
              simp
            · rw [List.getElem?_set_ne hi]
              rw [h2 i]
              simp only [List.mem_append, List.mem_singleton]
              constructor
              · exact Or.inl
              · rintro (hh | hh)
                · exact hh
                · exfalso
                  apply hi
                  rw [← hh]
          have h3' : ∀ v ∈ reachable ++ [current], Reach g s v := by
            intro v hv
            rcases List.mem_append.mp hv with hv | hv
            · exact h3 v hv
            · obtain rfl := List.mem_singleton.mp hv
              exact hreachcur
          rcases hg : g.get_node current with _ | node <;> rw [hg] at h
          · -- get_node returned none (dead branch in well-formed runs)
            refine ih _ rest (reachable ++ [current]) out (by simpa using h) h1' h2' h3'
              (fun v hv => h4 v (by simp [hv])) ?_ ?_ ?_
            · intro v hv node' hn e he
              rcases List.mem_append.mp hv with hv' | hv'
              · rcases h5 v hv' node' hn e he with hl | hr
                · exact Or.inl (by simp [hl])
                · rcases List.mem_cons.mp hr with rfl | hr'
                  · exact Or.inl (by simp)
                  · exact Or.inr hr'
              · obtain rfl := List.mem_singleton.mp hv'
                exact absurd hn (by simp [hg])
            · rcases h6 with hl | hr
              · exact Or.inl (by simp [hl])
              · rcases List.mem_cons.mp hr with rfl | hr'
                · exact Or.inl (by simp)
                · exact Or.inr hr'
            · intro v hv node' hn e he
              rcases List.mem_append.mp hv with hv' | hv'
              · exact h7 v hv' node' hn e he
              · obtain rfl := List.mem_singleton.mp hv'
                exact absurd hn (by simp [hg])
          · dsimp only at h
            rcases hp : pushUnvisited (visited.set current.id true) node.edges rest
              with _ | stack' <;> rw [hp] at h
            · exact absurd h (by simp)
            · refine ih _ stack' (reachable ++ [current]) out (by simpa using h)
                h1' h2' h3' ?_ ?_ ?_ ?_
              · -- new stack elements are reachable
                intro v hv
                rcases pushUnvisited_sub _ _ _ _ hp v hv with hl | ⟨e, he, rfl⟩
                · exact h4 v (by simp [hl])
                · exact Relation.ReflTransGen.tail hreachcur ⟨node, hg, e, he, rfl⟩
              · -- closure of the enlarged output under edges
                intro v hv node' hn e he
                rcases List.mem_append.mp hv with hv' | hv'
                · rcases h5 v hv' node' hn e he with hl | hr
                  · exact Or.inl (by simp [hl])
                  · rcases List.mem_cons.mp hr with rfl | hr'
                    · exact Or.inl (by simp)
                    · exact Or.inr (pushUnvisited_sup _ _ _ _ hp _ hr')
                · obtain rfl := List.mem_singleton.mp hv'
                  obtain rfl : node = node' := by
                    rw [hg] at hn
                    exact Option.some.inj hn
                  rcases pushUnvisited_covers _ _ _ _ hp e he with hl | hr
                  · exact Or.inl ((h2' e.tgt.id).mp hl)
                  · exact Or.inr hr
              · rcases h6 with hl | hr
                · exact Or.inl (by simp [hl])
                · rcases List.mem_cons.mp hr with rfl | hr'
                  · exact Or.inl (by simp)
                  · exact Or.inr (pushUnvisited_sup _ _ _ _ hp _ hr')
              · intro v hv node' hn e he
                rcases List.mem_append.mp hv with hv' | hv'
                · exact h7 v hv' node' hn e he
                · obtain rfl := List.mem_singleton.mp hv'
                  obtain rfl : node = node' := by
                    rw [hg] at hn
                    exact Option.some.inj hn
                  have := pushUnvisited_inrange _ _ _ _ hp e he
                  simpa [h1] using this

end GHF

namespace GHF

/-- Loop measure: stack length plus `1 + degree` for every unvisited node. -/
def phi (g : PlatformGraph) (visited : List Bool) (stack : List NodeId) : Nat :=
  stack.length + ∑ i ∈ Finset.range g.nodes.length,
    (if visited[i]? = some false then 1 + degOf g i else 0)

theorem phi_set (g : PlatformGraph) (visited : List Bool) (j : Nat)
    (hlen : visited.length = g.nodes.length)
    (hj : visited[j]? = some false) :
    (∑ i ∈ Finset.range g.nodes.length,
        (if visited[i]? = some false then 1 + degOf g i else 0))
    = (∑ i ∈ Finset.range g.nodes.length,
        (if (visited.set j true)[i]? = some false then 1 + degOf g i else 0))
      + (1 + degOf g j) := by
  have hjl : j < visited.length := (List.getElem?_eq_some.mp hj).1
  have hjr : j ∈ Finset.range g.nodes.length := by
    rw [Finset.mem_range, ← hlen]
    exact hjl
  rw [Finset.sum_eq_sum_diff_singleton_add hjr
    (fun i => if visited[i]? = some false then 1 + degOf g i else 0)]
  rw [Finset.sum_eq_sum_diff_singleton_add hjr
    (fun i => if (visited.set j true)[i]? = some false then 1 + degOf g i else 0)]
  have hcongr : ∀ i ∈ Finset.range g.nodes.length \ {j},
      (if (visited.set j true)[i]? = some false then 1 + degOf g i else 0)
      = (if visited[i]? = some false then 1 + degOf g i else 0) := by
    intro i hi
    have hne : j ≠ i := fun hh => by
      apply Finset.not_mem_singleton.mp (Finset.mem_sdiff.mp hi).2
      exact hh.symm
    rw [List.getElem?_set_ne hne]
  rw [Finset.sum_congr rfl hcongr, hj, List.getElem?_set_self hjl]
  simp

/-- The traversal loop completes whenever everything reachable from `s` is
in range (`Safe`), the stack holds reachable nodes, and the fuel exceeds
the measure. -/
theorem reachLoop_isSome (g : PlatformGraph) (s : NodeId) (hsafe : Safe g s) :
    ∀ fuel visited stack reachable,
    visited.length = g.nodes.length →
    (∀ v ∈ stack, Reach g s v) →
    phi g visited stack < fuel →
    (reachLoop g fuel visited stack reachable).isSome := by
  intro fuel
  induction fuel with
  | zero =>
    intro visited stack reachable _ _ hfuel
    exact absurd hfuel (by simp)
  | succ fuel ih =>
    intro visited stack reachable h1 h4 hfuel
    cases stack with
    | nil => simp [reachLoop]
    | cons current rest =>
      have hreachcur : Reach g s current := h4 current (by simp)
      have hcn : current.id < g.nodes.length := (hsafe.2 current hreachcur).1
      have hcl : current.id < visited.length := by rw [h1]; exact hcn
      rcases hb : visited[current.id]? with _ | b
      · exact absurd hb (by simp [List.getElem?_eq_getElem hcl])
      · cases b with
        | true =>
          have : phi g visited rest < fuel := by
            have : phi g visited (current :: rest) = phi g visited rest + 1 := by
              simp only [phi, List.length_cons]
              omega
            omega
          simpa [reachLoop, hb] using ih visited rest reachable h1
            (fun v hv => h4 v (by simp [hv])) this
        | false =>
          have hnode : ∃ node, g.get_node current = some node := by
            unfold PlatformGraph.get_node
            exact ⟨_, List.getElem?_eq_getElem hcn⟩
          obtain ⟨node, hg⟩ := hnode
          have hdeg : degOf g current.id = node.edges.length := by
            unfold degOf
            unfold PlatformGraph.get_node at hg
            rw [hg]
          have htgts : ∀ e ∈ node.edges, e.tgt.id <
              (visited.set current.id true).length := by
            intro e he
            have := (hsafe.2 current hreachcur).2 node hg e he
            simpa [h1] using this
          obtain ⟨stack', hp, hlen'⟩ := pushUnvisited_some _ node.edges rest htgts
          have hsum := phi_set g visited current.id h1 hb
          have hphi' : phi g (visited.set current.id true) stack' < fuel := by
            have h0 : phi g visited (current :: rest)
                = rest.length + 1 + ∑ i ∈ Finset.range g.nodes.length,
                  (if visited[i]? = some false then 1 + degOf g i else 0) := by
              simp only [phi, List.length_cons]
            have h0' : phi g (visited.set current.id true) stack'
                = stack'.length + ∑ i ∈ Finset.range g.nodes.length,
                  (if (visited.set current.id true)[i]? = some false
                    then 1 + degOf g i else 0) := rfl
            rw [h0'] at *
            omega
          have := ih (visited.set current.id true) stack' (reachable ++ [current])
            (by simpa using h1) ?_ hphi'
          · simpa [reachLoop, hb, hg, hp] using this
          · intro v hv
            rcases pushUnvisited_sub _ _ _ _ hp v hv with hl | ⟨e, he, rfl⟩
            · exact h4 v (by simp [hl])
            · exact Relation.ReflTransGen.tail hreachcur ⟨node, hg, e, he, rfl⟩

end GHF

namespace GHF

/-- A list containing `s` and closed under edges contains everything
reachable from `s`. -/
theorem closed_complete (g : PlatformGraph) (s : NodeId) (out : List NodeId)
    (hs : s ∈ out)
    (hclosed : ∀ v ∈ out, ∀ node, g.get_node v = some node →
      ∀ e ∈ node.edges, e.tgt ∈ out) :
    ∀ b, Reach g s b → b ∈ out := by
  intro b h
  induction h with
  | refl => exact hs
  | tail hab hbc ih =>
    obtain ⟨node, hn, e, he, rfl⟩ := hbc
    exact hclosed _ ih node hn e he

/-- When `reachable_from` completes, its output is exactly the set of
reachable nodes, and the graph is `Safe` from `s`. -/
theorem reachable_from_characterization (g : PlatformGraph) (s : NodeId)
    (out : List NodeId) (h : g.reachable_from s = some out) :
    (∀ v, v ∈ out ↔ Reach g s v) ∧ Safe g s := by
  have hrepl : ∀ i, (List.replicate g.nodes.length false)[i]? = some true ↔
      (⟨i⟩ : NodeId) ∈ ([] : List NodeId) := by
    intro i
    simp only [List.not_mem_nil, iff_false]
    intro hh
    rcases Nat.lt_or_ge i g.nodes.length with hi | hi
    · rw [List.getElem?_replicate_of_lt hi] at hh
      exact absurd (Option.some.inj hh) (by simp)
    · rw [List.getElem?_eq_none (by simpa using hi)] at hh
      exact absurd hh (by simp)
  obtain ⟨hsound, hsmem, hrange, hclosed⟩ := reachLoop_spec g s (reachFuel g)
    (List.replicate g.nodes.length false) [s] [] out h (by simp) hrepl
    (by simp) (by intro v hv; obtain rfl := List.mem_singleton.mp hv; exact .refl)
    (by simp) (by simp) (by simp)
  have hcomp := closed_complete g s out hsmem
    (fun v hv node hn e he => (hclosed v hv node hn e he).1)
  refine ⟨fun v => ⟨hsound v, hcomp v⟩, hrange s hsmem, ?_⟩
  intro v hv
  exact ⟨hrange v (hcomp v hv),
    fun node hn e he => (hclosed v (hcomp v hv) node hn e he).2⟩

/-- Under `Safe`, the traversal completes (no panic, enough fuel). -/
theorem reachable_from_some (g : PlatformGraph) (s : NodeId) (hsafe : Safe g s) :
    ∃ out, g.reachable_from s = some out := by
  have hphi : phi g (List.replicate g.nodes.length false) [s] < reachFuel g := by
    unfold phi reachFuel
    have : ∀ i ∈ Finset.range g.nodes.length,
        (if (List.replicate g.nodes.length false)[i]? = some false
          then 1 + degOf g i else 0) = 1 + degOf g i := by
      intro i hi
      rw [List.getElem?_replicate_of_lt (Finset.mem_range.mp hi)]
      simp
    rw [Finset.sum_congr rfl this, Finset.sum_add_distrib]
    simp
    omega
  have := reachLoop_isSome g s hsafe (reachFuel g)
    (List.replicate g.nodes.length false) [s] []
    (by simp)
    (by intro v hv; obtain rfl := List.mem_singleton.mp hv; exact .refl)
    hphi
  unfold PlatformGraph.reachable_from
  exact Option.isSome_iff_exists.mp this

/-- `validate` succeeds exactly when the graph is safely traversable from
`start` and the goal is genuinely reachable. -/
theorem validateG_ok_iff (g : PlatformGraph) :
    g.validateG = some (.ok ()) ↔ (Safe g g.start ∧ Reach g g.start g.goal) := by
  unfold PlatformGraph.validateG
  constructor
  · intro h
    rcases hr : g.reachable_from g.start with _ | out <;> rw [hr] at h
    · exact absurd h (by simp)
    · dsimp only at h
      obtain ⟨hiff, hsafe⟩ := reachable_from_characterization g g.start out hr
      refine ⟨hsafe, ?_⟩
      by_cases hg : g.goal ∈ out
      · exact (hiff g.goal).mp hg
      · rw [if_neg hg] at h
        exact absurd (Option.some.inj h) (by simp)
  · rintro ⟨hsafe, hreach⟩
    obtain ⟨out, hr⟩ := reachable_from_some g g.start hsafe
    rw [hr]
    dsimp only
    obtain ⟨hiff, _⟩ := reachable_from_characterization g g.start out hr
    rw [if_pos ((hiff g.goal).mpr hreach)]

end GHF

namespace GHF

/-! ## Template library (templates.rs) -/

/-- One step of collecting `graph.add_node(p)` results. -/
def addNodesStep (acc : List NodeId × PlatformGraph) (p : PlatformNode) :
    List NodeId × PlatformGraph :=
  (acc.1 ++ [(acc.2.add_node p).1], (acc.2.add_node p).2)

/-- The `platforms.into_iter().map(|p| graph.add_node(p)).collect()`
pattern: add all nodes, collecting their ids in order. -/
def addNodes (g : PlatformGraph) (ps : List PlatformNode) :
    List NodeId × PlatformGraph :=
  ps.foldl addNodesStep ([], g)

/-- `ids[i]` on the collected id vector (never out of range at the template
call sites). -/
def idAt (ids : List NodeId) (i : Nat) : NodeId :=
  ids.getD i ⟨0⟩

/-- Shorthand for `graph.get_node_mut(a).unwrap().add_edge(b, Jump { direction })`. -/
def jumpEdge (g : PlatformGraph) (a b : NodeId) (d : LayoutDirection) :
    PlatformGraph :=
  g.modifyNode a (fun n => n.add_edge b (.Jump d))

/-- The `for i in 0..ids.len() - 1` loop of `create_linear_template`
(templates.rs), walking consecutive id pairs and threading the optional
direction rng. -/
def linkLinear (graph : PlatformGraph) (rng : Option Rng) :
    List NodeId → PlatformGraph × Option Rng
  | [] => (graph, rng)
  | [_] => (graph, rng)
  | a :: b :: rest =>
    let dr : LayoutDirection × Option Rng :=
      match rng with
      | some r =>
        let br := r.randomBool
        (if br.1 then LayoutDirection.RightUp else LayoutDirection.Right,
          some br.2)
      | none => (LayoutDirection.Right, none)
    let forward_direction := dr.1
    let backward_direction :=
      match forward_direction with
      | .RightUp => LayoutDirection.LeftDown
      | _ => LayoutDirection.Left
    let graph := jumpEdge graph a b forward_direction
    let graph := jumpEdge graph b a backward_direction
    linkLinear graph dr.2 (b :: rest)

/-- The platform count of `create_linear_template`: `count_rng.random_range(5..=8)`
on a fresh rng when seeded, else 5. -/
def linearCount (seed : Option Seed) : Nat :=
  match seed with
  | some s => ((Rng.seed_from_u64 s).randomRangeNat 5 8).1
  | none => 5

/-- The platform vector of `create_linear_template`: first node `Start`,
last node `Goal`, the rest plain. -/
def linearPlatforms (count : Nat) : List PlatformNode :=
  (List.range count).map (fun i =>
    if i = 0 then PlatformNode.with_type .Start
    else if i = count - 1 then PlatformNode.with_type .Goal
    else PlatformNode.new)

/-- `create_linear_template` (templates.rs): 5–8 nodes in sequence
(count seeded, else 5), bidirectional edges, first node `Start`, last node
`Goal`.  Both the count rng and the direction rng are freshly seeded from
the same seed, exactly as in the source. -/
def create_linear_template (seed : Option Seed) : PlatformGraph :=
  let count := linearCount seed
  let start_id : NodeId := ⟨0⟩
  let goal_id : NodeId := ⟨count - 1⟩
  let graph := PlatformGraph.new start_id goal_id
  let ig := addNodes graph (linearPlatforms count)
  let rng := seed.map Rng.seed_from_u64
  (linkLinear ig.2 rng ig.1).1

/-- `create_branching_template` (templates.rs): fixed 7-node graph with an
upper and a lower path. -/
def create_branching_template : PlatformGraph :=
  let graph := PlatformGraph.new ⟨0⟩ ⟨6⟩
  let platforms := [
    PlatformNode.with_type .Start,
    PlatformNode.new, PlatformNode.new,
    PlatformNode.new, PlatformNode.new,
    PlatformNode.new,
    PlatformNode.with_type .Goal]
  let ig := addNodes graph platforms
  let ids := ig.1
  let graph := ig.2
  let graph := jumpEdge graph (idAt ids 0) (idAt ids 1) .RightUp
  let graph := jumpEdge graph (idAt ids 0) (idAt ids 3) .RightDown
  let graph := jumpEdge graph (idAt ids 1) (idAt ids 2) .Right
  let graph := jumpEdge graph (idAt ids 2) (idAt ids 5) .Right
  let graph := jumpEdge graph (idAt ids 3) (idAt ids 4) .Right
  let graph := jumpEdge graph (idAt ids 4) (idAt ids 5) .RightUp
  let graph := jumpEdge graph (idAt ids 5) (idAt ids 6) .Right
  let graph := jumpEdge graph (idAt ids 1) (idAt ids 0) .LeftDown
  let graph := jumpEdge graph (idAt ids 3) (idAt ids 0) .LeftUp
  let graph := jumpEdge graph (idAt ids 5) (idAt ids 2) .Left
  let graph := jumpEdge graph (idAt ids 5) (idAt ids 4) .LeftDown
  graph

/-- `create_cul_de_sac_template` (templates.rs): main path with two
dead-end detours. -/
def create_cul_de_sac_template : PlatformGraph :=
  let graph := PlatformGraph.new ⟨0⟩ ⟨4⟩
  let platforms := [
    PlatformNode.with_type .Start,
    PlatformNode.new, PlatformNode.new, PlatformNode.new,
    PlatformNode.with_type .Goal,
    PlatformNode.new]
  let ig := addNodes graph platforms
  let ids := ig.1
  let graph := ig.2
  let graph := jumpEdge graph (idAt ids 0) (idAt ids 1) .Right
  let graph := jumpEdge graph (idAt ids 1) (idAt ids 3) .Right
  let graph := jumpEdge graph (idAt ids 3) (idAt ids 4) .Right
  let graph := jumpEdge graph (idAt ids 1) (idAt ids 2) .RightUp
  let graph := jumpEdge graph (idAt ids 2) (idAt ids 1) .LeftDown
  let graph := jumpEdge graph (idAt ids 3) (idAt ids 5) .RightUp
  let graph := jumpEdge graph (idAt ids 5) (idAt ids 3) .LeftDown
  let graph := jumpEdge graph (idAt ids 1) (idAt ids 0) .Left
  let graph := jumpEdge graph (idAt ids 3) (idAt ids 1) .Left
  graph

/-- The alternating-direction loop of `create_zigzag_template`. -/
def linkZigzag (graph : PlatformGraph) : Nat → List NodeId → PlatformGraph
  | _, [] => graph
  | _, [_] => graph
  | i, a :: b :: rest =>
    let direction :=
      if i % 2 = 0 then LayoutDirection.RightUp else LayoutDirection.RightDown
    let back_direction :=
      match direction with
      | .RightUp => LayoutDirection.LeftDown
      | .RightDown => LayoutDirection.LeftUp
      | _ => LayoutDirection.Left
    let graph := jumpEdge graph a b direction
    let graph := jumpEdge graph b a back_direction
    linkZigzag graph (i + 1) (b :: rest)

/-- `create_zigzag_template` (templates.rs): 8 nodes, alternating
up/down diagonal connections. -/
def create_zigzag_template : PlatformGraph :=
  let graph := PlatformGraph.new ⟨0⟩ ⟨7⟩
  let platforms := [
    PlatformNode.with_type .Start,
    PlatformNode.new, PlatformNode.new, PlatformNode.new,
    PlatformNode.new, PlatformNode.new, PlatformNode.new,
    PlatformNode.with_type .Goal]
  let ig := addNodes graph platforms
  linkZigzag ig.2 0 ig.1

/-- `create_ground_and_floating_template` (templates.rs). -/
def create_ground_and_floating_template : PlatformGraph :=
  let graph := PlatformGraph.new ⟨0⟩ ⟨7⟩
  let platforms := [
    PlatformNode.with_type .Start,
    PlatformNode.with_type .Grounded,
    PlatformNode.with_type .Grounded,
    PlatformNode.with_type .Floating,
    PlatformNode.with_type .Floating,
    PlatformNode.with_type .Floating,
    PlatformNode.with_type .Grounded,
    PlatformNode.with_type .Goal]
  let ig := addNodes graph platforms
  let ids := ig.1
  let graph := ig.2
  let graph := jumpEdge graph (idAt ids 0) (idAt ids 1) .Right
  let graph := jumpEdge graph (idAt ids 1) (idAt ids 0) .Left
  let graph := jumpEdge graph (idAt ids 1) (idAt ids 2) .Right
  let graph := jumpEdge graph (idAt ids 2) (idAt ids 1) .Left
  let graph := jumpEdge graph (idAt ids 2) (idAt ids 3) .RightUp
  let graph := jumpEdge graph (idAt ids 3) (idAt ids 2) .LeftDown
  let graph := jumpEdge graph (idAt ids 3) (idAt ids 4) .Right
  let graph := jumpEdge graph (idAt ids 4) (idAt ids 3) .Left
  let graph := jumpEdge graph (idAt ids 4) (idAt ids 5) .Right
  let graph := jumpEdge graph (idAt ids 5) (idAt ids 4) .Left
  let graph := jumpEdge graph (idAt ids 5) (idAt ids 6) .RightDown
  let graph := jumpEdge graph (idAt ids 6) (idAt ids 5) .LeftUp
  let graph := jumpEdge graph (idAt ids 6) (idAt ids 7) .Right
  let graph := jumpEdge graph (idAt ids 7) (idAt ids 6) .Left
  graph

/-! ## Graph merge (templates.rs `merge_graphs`) -/

/-- `get_node_mut(id).unwrap().add_edge(...)` in `merge_graphs`: `none`
models the unwrap panic on an out-of-range id. -/
def PlatformGraph.addEdgeChecked (g : PlatformGraph) (id tgt : NodeId)
    (ct : ConnectionType) : Option PlatformGraph :=
  match g.nodes[id.id]? with
  | none => none
  | some node => some { g with nodes := g.nodes.set id.id (node.add_edge tgt ct) }

/-- `node.platform_type = PlatformType::Floating` on a fetched node. -/
def toFloating (n : PlatformNode) : PlatformNode :=
  { n with platform_type := .Floating }

/-- The edge remap of `merge_graphs`: `NodeId(edge.to.0 + node_offset)`. -/
def remapEdge (off : Nat) (e : Edge) : Edge :=
  { e with tgt := ⟨e.tgt.id + off⟩ }

/-- Remapping every edge of a node, as done while re-adding the next
graph's nodes in `merge_graphs`. -/
def remapNode (off : Nat) (node : PlatformNode) : PlatformNode :=
  { node with edges := node.edges.map (remapEdge off) }

/-- One iteration of the `for mut next_graph in graphs` loop of
`merge_graphs` (templates.rs): downgrade the current goal and the next
start to `Floating`, append the next graph's nodes with edge targets
offset by the current node count (the `id_mapping` built from successive
`add_node` calls maps old index `i` to `i + node_offset`), connect old
goal and remapped start with a bidirectional Jump edge, and move the goal
pointer.  `none` models the panics on out-of-range ids (`unwrap` and
`id_mapping[..]`). -/
def mergeStep (merged next_graph : PlatformGraph) : Option PlatformGraph :=
  let merged := merged.modifyNode merged.goal toFloating
  let next_graph := next_graph.modifyNode next_graph.start toFloating
  let old_merged_goal := merged.goal
  let old_next_start := next_graph.start
  let node_offset := merged.nodes.length
  let remapped := next_graph.nodes.map (remapNode node_offset)
  let merged := { merged with nodes := merged.nodes ++ remapped }
  if old_next_start.id < next_graph.nodes.length then
    let remapped_next_start : NodeId := ⟨old_next_start.id + node_offset⟩
    match merged.addEdgeChecked old_merged_goal remapped_next_start
        (.Jump .Right) with
    | none => none
    | some merged =>
      match merged.addEdgeChecked remapped_next_start old_merged_goal
          (.Jump .Left) with
      | none => none
      | some merged =>
        if next_graph.goal.id < next_graph.nodes.length then
          some { merged with goal := ⟨next_graph.goal.id + node_offset⟩ }
        else none
  else none

/-- The loop of `merge_graphs` over the remaining graphs. -/
def mergeFold (merged : PlatformGraph) :
    List PlatformGraph → Option PlatformGraph
  | [] => some merged
  | next :: rest =>
    match mergeStep merged next with
    | none => none
    | some merged' => mergeFold merged' rest

/-- `merge_graphs` (templates.rs).  `none` on the empty list models
`panic!("Cannot merge empty list of graphs")`; a singleton list returns its
graph unchanged. -/
def merge_graphs (graphs : List PlatformGraph) : Option PlatformGraph :=
  match graphs with
  | [] => none
  | [g] => some g
  | first :: rest => mergeFold first rest

end GHF

namespace GHF

/-! ### Helper lemmas about graph construction -/

theorem modifyNode_length (g : PlatformGraph) (id : NodeId)
    (f : PlatformNode → PlatformNode) :
    (g.modifyNode id f).nodes.length = g.nodes.length := by
  unfold PlatformGraph.modifyNode
  rcases h : g.nodes[id.id]? with _ | node <;> simp

theorem modifyNode_start (g : PlatformGraph) (id : NodeId)
    (f : PlatformNode → PlatformNode) :
    (g.modifyNode id f).start = g.start := by
  unfold PlatformGraph.modifyNode
  rcases h : g.nodes[id.id]? with _ | node <;> simp

theorem modifyNode_goal (g : PlatformGraph) (id : NodeId)
    (f : PlatformNode → PlatformNode) :
    (g.modifyNode id f).goal = g.goal := by
  unfold PlatformGraph.modifyNode
  rcases h : g.nodes[id.id]? with _ | node <;> simp

theorem modifyNode_get_self (g : PlatformGraph) (id : NodeId)
    (f : PlatformNode → PlatformNode) (node : PlatformNode)
    (h : g.get_node id = some node) :
    (g.modifyNode id f).get_node id = some (f node) := by
  unfold PlatformGraph.get_node at *
  unfold PlatformGraph.modifyNode
  rw [h]
  simp only
  rw [List.getElem?_set_self]
  exact (List.getElem?_eq_some.mp h).1

theorem modifyNode_get_ne (g : PlatformGraph) (id : NodeId)
    (f : PlatformNode → PlatformNode) (j : NodeId) (hne : id.id ≠ j.id) :
    (g.modifyNode id f).get_node j = g.get_node j := by
  unfold PlatformGraph.get_node PlatformGraph.modifyNode
  rcases h : g.nodes[id.id]? with _ | node
  · rfl
  · simp only
    rw [List.getElem?_set_ne hne]

theorem modifyNode_get_none (g : PlatformGraph) (id : NodeId)
    (f : PlatformNode → PlatformNode) (h : g.get_node id = none) :
    g.modifyNode id f = g := by
  unfold PlatformGraph.get_node at h
  unfold PlatformGraph.modifyNode
  rw [h]

/-- Adding nodes appends them and hands back consecutive fresh ids. -/
theorem addNodes_spec (ps : List PlatformNode) :
    ∀ g : PlatformGraph,
    (addNodes g ps).2.nodes = g.nodes ++ ps ∧
    (addNodes g ps).2.start = g.start ∧
    (addNodes g ps).2.goal = g.goal ∧
    (addNodes g ps).1 = (List.range ps.length).map
      (fun i => (⟨g.nodes.length + i⟩ : NodeId)) := by
  have main : ∀ ps (g : PlatformGraph) (acc : List NodeId),
      (ps.foldl addNodesStep (acc, g)).2.nodes = g.nodes ++ ps ∧
      (ps.foldl addNodesStep (acc, g)).2.start = g.start ∧
      (ps.foldl addNodesStep (acc, g)).2.goal = g.goal ∧
      (ps.foldl addNodesStep (acc, g)).1 = acc ++ (List.range ps.length).map
        (fun i => (⟨g.nodes.length + i⟩ : NodeId)) := by
    intro ps
    induction ps with
    | nil => intro g acc; simp
    | cons p rest ih =>
      intro g acc
      simp only [List.foldl_cons]
      have hstep : addNodesStep (acc, g) p =
          (acc ++ [⟨g.nodes.length⟩], { g with nodes := g.nodes ++ [p] }) := rfl
      rw [hstep]
      obtain ⟨h1, h2, h3, h4⟩ := ih { g with nodes := g.nodes ++ [p] } (acc ++ [⟨g.nodes.length⟩])
      refine ⟨by simpa using h1, by simpa using h2, by simpa using h3, ?_⟩
      rw [h4]
      simp only [List.length_cons, List.length_append, List.length_singleton]
      rw [List.range_succ_eq_map]
      simp [List.map_map, Function.comp_def, List.append_assoc]
      intro a _
      omega
  intro g
  obtain ⟨h1, h2, h3, h4⟩ := main ps g []
  exact ⟨h1, h2, h3, by simpa using h4⟩

end GHF

namespace GHF

/-- The consecutive ids `⟨a⟩, ⟨a+1⟩, …, ⟨a+m-1⟩` (the shape of the id
vector of the linear template). -/
def consecIds (a m : Nat) : List NodeId :=
  (List.range m).map (fun i => ⟨a + i⟩)

theorem consecIds_succ (a m : Nat) :
    consecIds a (m + 1) = ⟨a⟩ :: consecIds (a + 1) m := by
  unfold consecIds
  rw [List.range_succ_eq_map]
  simp [List.map_map, Function.comp_def]
  intro i _
  omega

theorem jumpEdge_length (g : PlatformGraph) (x y : NodeId) (d : LayoutDirection) :
    (jumpEdge g x y d).nodes.length = g.nodes.length :=
  modifyNode_length g x _

theorem jumpEdge_start (g : PlatformGraph) (x y : NodeId) (d : LayoutDirection) :
    (jumpEdge g x y d).start = g.start :=
  modifyNode_start g x _

theorem jumpEdge_goal (g : PlatformGraph) (x y : NodeId) (d : LayoutDirection) :
    (jumpEdge g x y d).goal = g.goal :=
  modifyNode_goal g x _

theorem jumpEdge_get_cases (g : PlatformGraph) (x y : NodeId)
    (d : LayoutDirection) (v : NodeId) (node' : PlatformNode)
    (h : (jumpEdge g x y d).get_node v = some node') :
    g.get_node v = some node' ∨
    (v = x ∧ ∃ node, g.get_node v = some node ∧
      node' = node.add_edge y (.Jump d)) := by
  by_cases hv : x.id = v.id
  · have hxv : x = v := by
      cases x
      cases v
      simpa using hv
    subst hxv
    rcases hn : g.get_node x with _ | node
    · have heq : jumpEdge g x y d = g := by
        rw [jumpEdge]
        exact modifyNode_get_none g x _ hn
      rw [heq, hn] at h
      exact Or.inl h
    · rw [jumpEdge, modifyNode_get_self g x _ node hn] at h
      exact Or.inr ⟨rfl, node, rfl, (Option.some.inj h).symm⟩
  · rw [jumpEdge, modifyNode_get_ne g x _ v hv] at h
    exact Or.inl h

theorem jumpEdge_get_mono (g : PlatformGraph) (x y : NodeId)
    (d : LayoutDirection) (v : NodeId) (node : PlatformNode)
    (h : g.get_node v = some node) :
    ∃ node', (jumpEdge g x y d).get_node v = some node' ∧
      ∀ e ∈ node.edges, e ∈ node'.edges := by
  by_cases hv : x.id = v.id
  · have hxv : x = v := by
      cases x
      cases v
      simpa using hv
    subst hxv
    refine ⟨node.add_edge y (.Jump d), modifyNode_get_self g x _ node h, ?_⟩
    intro e he
    simp [PlatformNode.add_edge, he]
  · exact ⟨node, by rw [jumpEdge, modifyNode_get_ne g x _ v hv]; exact h,
      fun e he => he⟩

theorem jumpEdge_step (g : PlatformGraph) (x y : NodeId) (d : LayoutDirection)
    (hx : x.id < g.nodes.length) : StepRel (jumpEdge g x y d) x y := by
  have hn : ∃ node, g.get_node x = some node := by
    unfold PlatformGraph.get_node
    exact ⟨_, List.getElem?_eq_getElem hx⟩
  obtain ⟨node, hn⟩ := hn
  refine ⟨node.add_edge y (.Jump d), modifyNode_get_self g x _ node hn, ?_⟩
  refine ⟨{ tgt := y, connection_type := .Jump d }, ?_, rfl⟩
  simp [PlatformNode.add_edge]

theorem StepRel_mono_get (g g' : PlatformGraph)
    (hmono : ∀ v node, g.get_node v = some node →
      ∃ node', g'.get_node v = some node' ∧ ∀ e ∈ node.edges, e ∈ node'.edges) :
    ∀ a b, StepRel g a b → StepRel g' a b := by
  rintro a b ⟨node, hn, e, he, rfl⟩
  obtain ⟨node', hn', hsub⟩ := hmono a node hn
  exact ⟨node', hn', e, hsub e he, rfl⟩

end GHF

namespace GHF

/-- One unfolding of the linear-link loop: the two bidirectional edges are
added for the leading pair (for some directions and successor rng), then
the loop continues on the tail. -/
theorem linkLinear_cons_cons (graph : PlatformGraph) (rng : Option Rng)
    (x y : NodeId) (rest : List NodeId) :
    ∃ d1 d2 rng', linkLinear graph rng (x :: y :: rest) =
      linkLinear (jumpEdge (jumpEdge graph x y d1) y x d2) rng' (y :: rest) := by
  cases rng with
  | none => exact ⟨.Right, .Left, none, by simp [linkLinear]⟩
  | some r =>
    rcases hbr : r.randomBool with ⟨b, r'⟩
    cases b
    · exact ⟨.Right, .Left, some r', by simp [linkLinear, hbr]⟩
    · exact ⟨.RightUp, .LeftDown, some r', by simp [linkLinear, hbr]⟩

/-- Characterization of the fully linked linear chain on consecutive ids
`⟨a⟩ … ⟨a+m-1⟩`: sizes, start/goal and old edges are preserved, every new
edge stays between consecutive ids of the chain, and each consecutive
forward step exists. -/
theorem linkLinear_spec :
    ∀ m a (graph : PlatformGraph) (rng : Option Rng),
    (linkLinear graph rng (consecIds a m)).1.nodes.length = graph.nodes.length ∧
    (linkLinear graph rng (consecIds a m)).1.start = graph.start ∧
    (linkLinear graph rng (consecIds a m)).1.goal = graph.goal ∧
    (∀ v node, graph.get_node v = some node →
      ∃ node', (linkLinear graph rng (consecIds a m)).1.get_node v = some node' ∧
        ∀ e ∈ node.edges, e ∈ node'.edges) ∧
    (∀ v node', (linkLinear graph rng (consecIds a m)).1.get_node v = some node' →
      ∀ e ∈ node'.edges,
        (∃ node, graph.get_node v = some node ∧ e ∈ node.edges) ∨
        ∃ j, j + 1 < m ∧ (e.tgt = ⟨a + j⟩ ∨ e.tgt = ⟨a + j + 1⟩)) ∧
    (a + m ≤ graph.nodes.length →
      ∀ j, j + 1 < m →
        StepRel (linkLinear graph rng (consecIds a m)).1 ⟨a + j⟩ ⟨a + j + 1⟩) := by
  intro m
  induction m with
  | zero =>
    intro a graph rng
    simp only [consecIds, List.range_zero, List.map_nil, linkLinear]
    refine ⟨trivial, trivial, trivial, ?_, ?_, ?_⟩
    · intro v node h
      exact ⟨node, h, fun e he => he⟩
    · intro v node' h e he
      exact Or.inl ⟨node', h, he⟩
    · intro _ j hj
      omega
  | succ ν ih =>
    intro a graph rng
    cases ν with
    | zero =>
      rw [consecIds_succ]
      simp only [consecIds, List.range_zero, List.map_nil, linkLinear]
      refine ⟨trivial, trivial, trivial, ?_, ?_, ?_⟩
      · intro v node h
        exact ⟨node, h, fun e he => he⟩
      · intro v node' h e he
        exact Or.inl ⟨node', h, he⟩
      · intro _ j hj
        omega
    | succ κ =>
      rw [consecIds_succ, consecIds_succ]
      obtain ⟨d1, d2, rng', heq⟩ :=
        linkLinear_cons_cons graph rng ⟨a⟩ ⟨a + 1⟩ (consecIds (a + 2) κ)
      rw [heq, ← consecIds_succ]
      set g2 := jumpEdge (jumpEdge graph ⟨a⟩ ⟨a + 1⟩ d1) ⟨a + 1⟩ ⟨a⟩ d2 with hg2
      obtain ⟨ih1, ih2, ih3, ih4, ih5, ih6⟩ := ih (a + 1) g2 rng'
      have hlen2 : g2.nodes.length = graph.nodes.length := by
        rw [hg2, jumpEdge_length, jumpEdge_length]
      have hstart2 : g2.start = graph.start := by
        rw [hg2, jumpEdge_start, jumpEdge_start]
      have hgoal2 : g2.goal = graph.goal := by
        rw [hg2, jumpEdge_goal, jumpEdge_goal]
      have hmono2 : ∀ v node, graph.get_node v = some node →
          ∃ node', g2.get_node v = some node' ∧ ∀ e ∈ node.edges, e ∈ node'.edges := by
        intro v node h
        obtain ⟨n1, hn1, hs1⟩ := jumpEdge_get_mono graph ⟨a⟩ ⟨a + 1⟩ d1 v node h
        obtain ⟨n2, hn2, hs2⟩ := jumpEdge_get_mono _ ⟨a + 1⟩ ⟨a⟩ d2 v n1 hn1
        exact ⟨n2, hn2, fun e he => hs2 e (hs1 e he)⟩
      have hcases2 : ∀ v node', g2.get_node v = some node' →
          ∀ e ∈ node'.edges,
            (∃ node, graph.get_node v = some node ∧ e ∈ node.edges) ∨
            e.tgt = ⟨a⟩ ∨ e.tgt = ⟨a + 1⟩ := by
        intro v node' h e he
        rcases jumpEdge_get_cases _ _ _ _ _ _ h with h1 | ⟨rfl, n1, hn1, rfl⟩
        · rcases jumpEdge_get_cases _ _ _ _ _ _ h1 with h0 | ⟨rfl, n0, hn0, rfl⟩
          · exact Or.inl ⟨node', h0, he⟩
          · simp only [PlatformNode.add_edge, List.mem_append,
              List.mem_singleton] at he
            rcases he with he | rfl
            · exact Or.inl ⟨n0, hn0, he⟩
            · exact Or.inr (Or.inr rfl)
        · simp only [PlatformNode.add_edge, List.mem_append,
            List.mem_singleton] at he
          rcases he with he | rfl
          · rcases jumpEdge_get_cases _ _ _ _ _ _ hn1 with h0 | ⟨habs, _⟩
            · exact Or.inl ⟨n1, h0, he⟩
            · exfalso
              have : a + 1 = a := congrArg NodeId.id habs
              omega
          · exact Or.inr (Or.inl rfl)
      refine ⟨by rw [ih1, hlen2], by rw [ih2, hstart2], by rw [ih3, hgoal2],
        ?_, ?_, ?_⟩
      · intro v node h
        obtain ⟨n2, hn2, hs2⟩ := hmono2 v node h
        obtain ⟨n3, hn3, hs3⟩ := ih4 v n2 hn2
        exact ⟨n3, hn3, fun e he => hs3 e (hs2 e he)⟩
      · intro v node' h e he
        rcases ih5 v node' h e he with hbase | ⟨j, hj, htgt⟩
        · obtain ⟨n2, hn2, he2⟩ := hbase
          rcases hcases2 v n2 hn2 e he2 with hbase0 | htgt0
          · exact Or.inl hbase0
          · refine Or.inr ⟨0, by omega, ?_⟩
            simpa using htgt0
        · refine Or.inr ⟨j + 1, by omega, ?_⟩
          rcases htgt with h' | h'
          · refine Or.inl ?_
            rw [h']
            congr 1
            omega
          · refine Or.inr ?_
            rw [h']
            congr 1
            omega
      · intro hlen j hj
        cases j with
        | zero =>
          have hstep : StepRel g2 ⟨a⟩ ⟨a + 1⟩ := by
            rw [hg2]
            apply StepRel_mono_get
            · intro v node h
              exact jumpEdge_get_mono _ ⟨a + 1⟩ ⟨a⟩ d2 v node h
            · have hlt : a < graph.nodes.length := by omega
              apply jumpEdge_step
              simpa [jumpEdge_length] using hlt
          have := StepRel_mono_get g2 _ (fun v node h => ih4 v node h) _ _ hstep
          simpa using this
        | succ j' =>
          have hlen' : a + 1 + (κ + 1) ≤ g2.nodes.length := by
            rw [hlen2]
            omega
          have := ih6 hlen' j' (by omega)
          have e1 : a + 1 + j' = a + (j' + 1) := by omega
          rw [e1] at this
          exact this

end GHF

namespace GHF

theorem safe_of_targets (g : PlatformGraph) (s : NodeId)
    (hs : s.id < g.nodes.length)
    (htargets : ∀ v node, g.get_node v = some node →
      ∀ e ∈ node.edges, e.tgt.id < g.nodes.length) :
    Safe g s := by
  refine ⟨hs, ?_⟩
  intro v hreach
  refine ⟨?_, fun node hn e he => htargets v node hn e he⟩
  induction hreach with
  | refl => exact hs
  | tail hab hbc ih =>
    obtain ⟨node, hn, e, he, rfl⟩ := hbc
    exact htargets _ node hn e he

theorem reach_chain (g : PlatformGraph) (c : Nat)
    (hstep : ∀ j, j + 1 < c → StepRel g ⟨j⟩ ⟨j + 1⟩) :
    ∀ j, j < c → Reach g ⟨0⟩ ⟨j⟩ := by
  intro j
  induction j with
  | zero => intro _; exact .refl
  | succ j' ih =>
    intro hj
    exact Relation.ReflTransGen.tail (ih (by omega)) (hstep j' (by omega))

theorem linearCount_bounds (seed : Option Seed) :
    5 ≤ linearCount seed ∧ linearCount seed ≤ 8 := by
  rcases seed with _ | s
  · simp [linearCount]
  · unfold linearCount Rng.seed_from_u64 Rng.randomRangeNat
    simp only
    have := Nat.mod_lt (s 0) (y := 4) (by norm_num)
    omega

theorem linearPlatforms_edges (count : Nat) :
    ∀ node ∈ linearPlatforms count, node.edges = [] := by
  intro node hn
  unfold linearPlatforms at hn
  obtain ⟨i, _, rfl⟩ := List.mem_map.mp hn
  split_ifs <;> simp [PlatformNode.with_type, PlatformNode.new]

theorem linearPlatforms_length (count : Nat) :
    (linearPlatforms count).length = count := by
  simp [linearPlatforms]

/-- The linear template has 5–8 nodes and validates, for every seed. -/
theorem create_linear_template_props (seed : Option Seed) :
    5 ≤ (create_linear_template seed).nodes.length ∧
    (create_linear_template seed).nodes.length ≤ 8 ∧
    (create_linear_template seed).validateG = some (.ok ()) := by
  obtain ⟨h5, h8⟩ := linearCount_bounds seed
  set c := linearCount seed with hc
  set g0 := PlatformGraph.new ⟨0⟩ ⟨c - 1⟩ with hg0
  obtain ⟨hadd1, hadd2, hadd3, hadd4⟩ := addNodes_spec (linearPlatforms c) g0
  set ig := addNodes g0 (linearPlatforms c) with hig
  have hids : ig.1 = consecIds 0 c := by
    rw [hadd4]
    unfold consecIds
    rw [linearPlatforms_length]
    rfl
  have hlen0 : ig.2.nodes.length = c := by
    rw [hadd1, hg0]
    simp [PlatformGraph.new, linearPlatforms_length]
  have hstart0 : ig.2.start = ⟨0⟩ := by
    rw [hadd2, hg0]
    rfl
  have hgoal0 : ig.2.goal = ⟨c - 1⟩ := by
    rw [hadd3, hg0]
    rfl
  have hdef : create_linear_template seed =
      (linkLinear ig.2 (seed.map Rng.seed_from_u64) ig.1).1 := rfl
  rw [hdef, hids]
  obtain ⟨hl1, hl2, hl3, hl4, hl5, hl6⟩ :=
    linkLinear_spec c 0 ig.2 (seed.map Rng.seed_from_u64)
  refine ⟨by rw [hl1, hlen0]; exact h5, by rw [hl1, hlen0]; exact h8, ?_⟩
  rw [validateG_ok_iff]
  set fin := (linkLinear ig.2 (seed.map Rng.seed_from_u64) (consecIds 0 c)).1
  have hfinlen : fin.nodes.length = c := by rw [hl1, hlen0]
  have hfinstart : fin.start = ⟨0⟩ := by rw [hl2, hstart0]
  have hfingoal : fin.goal = ⟨c - 1⟩ := by rw [hl3, hgoal0]
  have htargets : ∀ v node, fin.get_node v = some node →
      ∀ e ∈ node.edges, e.tgt.id < fin.nodes.length := by
    intro v node hn e he
    rcases hl5 v node hn e he with ⟨node0, hn0, he0⟩ | ⟨j, hj, htgt⟩
    · exfalso
      have hmem : node0 ∈ ig.2.nodes := by
        unfold PlatformGraph.get_node at hn0
        exact List.getElem?_mem hn0
      rw [hadd1] at hmem
      have : node0.edges = [] := by
        apply linearPlatforms_edges c
        simpa [hg0, PlatformGraph.new] using hmem
      rw [this] at he0
      exact absurd he0 (by simp)
    · rcases htgt with h' | h'
      · rw [hfinlen, h']
        show 0 + j < c
        omega
      · rw [hfinlen, h']
        show 0 + j + 1 < c
        omega
  have hsafe : Safe fin fin.start := by
    apply safe_of_targets fin fin.start ?_ htargets
    rw [hfinstart, hfinlen]
    show 0 < c
    omega
  have hreach : Reach fin fin.start fin.goal := by
    rw [hfinstart, hfingoal]
    apply reach_chain
    · intro j hj
      have := hl6 (by omega) j hj
      simpa using this
    · omega
  exact ⟨hsafe, hreach⟩

end GHF

namespace GHF

theorem NodeId.eq_of_id (a b : NodeId) (h : a.id = b.id) : a = b := by
  cases a
  cases b
  simpa using h

theorem addEdgeChecked_some (g : PlatformGraph) (id tgt : NodeId)
    (ct : ConnectionType) (node : PlatformNode)
    (h : g.nodes[id.id]? = some node) :
    g.addEdgeChecked id tgt ct =
      some { g with nodes := g.nodes.set id.id (node.add_edge tgt ct) } := by
  unfold PlatformGraph.addEdgeChecked
  rw [h]

/-- Full characterization of one merge step, under in-range start/goal ids. -/
theorem mergeStep_spec (M N : PlatformGraph)
    (hMg : M.goal.id < M.nodes.length)
    (hNs : N.start.id < N.nodes.length)
    (hNg : N.goal.id < N.nodes.length) :
    ∃ m', mergeStep M N = some m' ∧
    m'.nodes.length = M.nodes.length + N.nodes.length ∧
    m'.start = M.start ∧
    m'.goal = ⟨N.goal.id + M.nodes.length⟩ ∧
    (∀ v node, M.get_node v = some node → ∃ node',
      m'.get_node v = some node' ∧
      (∀ e ∈ node.edges, e ∈ node'.edges) ∧
      (∀ e ∈ node'.edges, e ∈ node.edges ∨
        (v = M.goal ∧
          e = Edge.mk ⟨N.start.id + M.nodes.length⟩ (.Jump .Right))) ∧
      node'.platform_type =
        (if v = M.goal then .Floating else node.platform_type) ∧
      (v = M.goal →
        Edge.mk ⟨N.start.id + M.nodes.length⟩ (.Jump .Right) ∈ node'.edges)) ∧
    (∀ u unode, N.get_node u = some unode → ∃ node',
      m'.get_node ⟨u.id + M.nodes.length⟩ = some node' ∧
      (∀ e ∈ unode.edges, remapEdge M.nodes.length e ∈ node'.edges) ∧
      (∀ e' ∈ node'.edges,
        (∃ e ∈ unode.edges, e' = remapEdge M.nodes.length e) ∨
        (u = N.start ∧ e' = Edge.mk M.goal (.Jump .Left))) ∧
      node'.platform_type =
        (if u = N.start then .Floating else unode.platform_type) ∧
      (u = N.start → Edge.mk M.goal (.Jump .Left) ∈ node'.edges)) := by
  classical
  set off := M.nodes.length with hoff
  obtain ⟨gn, hgn⟩ : ∃ gn, M.get_node M.goal = some gn :=
    ⟨_, by unfold PlatformGraph.get_node; exact List.getElem?_eq_getElem hMg⟩
  obtain ⟨sn, hsn⟩ : ∃ sn, N.get_node N.start = some sn :=
    ⟨_, by unfold PlatformGraph.get_node; exact List.getElem?_eq_getElem hNs⟩
  set M1 := M.modifyNode M.goal toFloating with hM1
  set N1 := N.modifyNode N.start toFloating with hN1
  have hM1len : M1.nodes.length = M.nodes.length := modifyNode_length M M.goal _
  have hN1len : N1.nodes.length = N.nodes.length := modifyNode_length N N.start _
  have hM1start : M1.start = M.start := modifyNode_start M M.goal _
  have hM1goal : M1.goal = M.goal := modifyNode_goal M M.goal _
  have hN1start : N1.start = N.start := modifyNode_start N N.start _
  have hN1goal : N1.goal = N.goal := modifyNode_goal N N.start _
  have hM1get_goal : M1.get_node M.goal = some (toFloating gn) :=
    modifyNode_get_self M M.goal _ gn hgn
  have hN1get_start : N1.get_node N.start = some (toFloating sn) :=
    modifyNode_get_self N N.start _ sn hsn
  set rem := N1.nodes.map (remapNode off) with hrem
  have hremlen : rem.length = N.nodes.length := by
    rw [hrem, List.length_map, hN1len]
  set nodesA := M1.nodes ++ rem with hnodesA
  have hAlen : nodesA.length = off + N.nodes.length := by
    rw [hnodesA, List.length_append, hM1len, hremlen, hoff]
  have hA_goal : nodesA[M.goal.id]? = some (toFloating gn) := by
    rw [hnodesA, List.getElem?_append_left (by rw [hM1len]; exact hMg)]
    exact hM1get_goal
  have hA_low : ∀ i, i < off → nodesA[i]? = M1.nodes[i]? := by
    intro i hi
    rw [hnodesA, List.getElem?_append_left (by rw [hM1len]; omega)]
  have hA_high : ∀ u : Nat, nodesA[u + off]? = (N1.nodes[u]?).map (remapNode off) := by
    intro u
    rw [hnodesA, List.getElem?_append_right (by rw [hM1len]; omega)]
    rw [hM1len, ← hoff]
    have h2 : u + off - off = u := by omega
    rw [h2, hrem, List.getElem?_map]
  set nodesB := nodesA.set M.goal.id
    ((toFloating gn).add_edge ⟨N.start.id + off⟩ (.Jump .Right)) with hnodesB
  have hBlen : nodesB.length = nodesA.length := by
    rw [hnodesB, List.length_set]
  have hB_start : nodesB[N.start.id + off]? =
      some (remapNode off (toFloating sn)) := by
    rw [hnodesB, List.getElem?_set_ne (by omega), hA_high N.start.id]
    have hNs' : N1.nodes[N.start.id]? = some (toFloating sn) := hN1get_start
    rw [hNs']
    rfl
  set nodesC := nodesB.set (N.start.id + off)
    ((remapNode off (toFloating sn)).add_edge M.goal (.Jump .Left)) with hnodesC
  have hClen : nodesC.length = off + N.nodes.length := by
    rw [hnodesC, List.length_set, hBlen, hAlen]
  set E : PlatformGraph :=
    { nodes := nodesC, start := M.start, goal := ⟨N.goal.id + off⟩ } with hE
  have hstep : mergeStep M N = some E := by
    unfold mergeStep
    dsimp only
    rw [← hM1, ← hN1, hN1start, hN1len, if_pos hNs, hM1goal, hM1start, hM1len,
      ← hoff, ← hrem, ← hnodesA]
    rw [addEdgeChecked_some { nodes := nodesA, start := M.start, goal := M.goal }
      M.goal ⟨N.start.id + off⟩ (.Jump .Right) (toFloating gn) hA_goal]
    dsimp only
    rw [← hnodesB]
    rw [addEdgeChecked_some { nodes := nodesB, start := M.start, goal := M.goal }
      ⟨N.start.id + off⟩ M.goal (.Jump .Left) (remapNode off (toFloating sn))
      hB_start]
    dsimp only
    rw [← hnodesC, hN1goal, if_pos hNg]
  refine ⟨E, hstep, hClen, rfl, rfl, ?_, ?_⟩
  · intro v node hv
    have hvlt : v.id < off := by
      unfold PlatformGraph.get_node at hv
      have := (List.getElem?_eq_some.mp hv).1
      omega
    by_cases hveq : v = M.goal
    · subst hveq
      have hnode : node = gn := by
        rw [hgn] at hv
        exact (Option.some.inj hv).symm
      subst hnode
      refine ⟨(toFloating node).add_edge ⟨N.start.id + off⟩ (.Jump .Right),
        ?_, ?_, ?_, ?_, ?_⟩
      · show nodesC[M.goal.id]? = _
        rw [hnodesC, List.getElem?_set_ne (by omega), hnodesB,
          List.getElem?_set_self (by rw [hAlen]; omega)]
      · intro e he
        simp [PlatformNode.add_edge, toFloating, he]
      · intro e he
        simp only [PlatformNode.add_edge, toFloating, List.mem_append,
          List.mem_singleton] at he
        rcases he with he | rfl
        · exact Or.inl he
        · exact Or.inr ⟨rfl, rfl⟩
      · simp [PlatformNode.add_edge, toFloating]
      · intro _
        simp [PlatformNode.add_edge, toFloating]
    · have hvne : M.goal.id ≠ v.id := fun hh =>
        hveq (NodeId.eq_of_id v M.goal hh.symm)
      refine ⟨node, ?_, fun e he => he, fun e he => Or.inl he,
        by simp [hveq], fun hh => absurd hh hveq⟩
      show nodesC[v.id]? = some node
      rw [hnodesC, List.getElem?_set_ne (by omega), hnodesB,
        List.getElem?_set_ne hvne, hA_low v.id hvlt]
      show M1.get_node v = some node
      rw [hM1, modifyNode_get_ne M M.goal toFloating v hvne]
      exact hv
  · intro u unode hu
    have hult : u.id < N.nodes.length := by
      unfold PlatformGraph.get_node at hu
      exact (List.getElem?_eq_some.mp hu).1
    by_cases hueq : u = N.start
    · subst hueq
      have hnode : unode = sn := by
        rw [hsn] at hu
        exact (Option.some.inj hu).symm
      subst hnode
      refine ⟨(remapNode off (toFloating unode)).add_edge M.goal (.Jump .Left),
        ?_, ?_, ?_, ?_, ?_⟩
      · show nodesC[N.start.id + off]? = _
        rw [hnodesC, List.getElem?_set_self (by rw [hBlen, hAlen]; omega)]
      · intro e he
        simp only [PlatformNode.add_edge, remapNode, toFloating,
          List.mem_append]
        exact Or.inl (List.mem_map.mpr ⟨e, he, rfl⟩)
      · intro e' he'
        simp only [PlatformNode.add_edge, remapNode, toFloating,
          List.mem_append, List.mem_singleton] at he'
        rcases he' with he' | rfl
        · obtain ⟨e, he, rfl⟩ := List.mem_map.mp he'
          exact Or.inl ⟨e, he, rfl⟩
        · exact Or.inr ⟨rfl, rfl⟩
      · simp [PlatformNode.add_edge, remapNode, toFloating]
      · intro _
        simp [PlatformNode.add_edge, remapNode, toFloating]
    · have hune : u.id ≠ N.start.id := fun hh =>
        hueq (NodeId.eq_of_id u N.start hh)
      have hN1u : N1.get_node u = some unode := by
        rw [hN1, modifyNode_get_ne N N.start toFloating u (fun hh => hune hh.symm)]
        exact hu
      refine ⟨remapNode off unode, ?_, ?_, ?_,
        by simp [hueq, remapNode], fun hh => absurd hh hueq⟩
      · show nodesC[u.id + off]? = some (remapNode off unode)
        rw [hnodesC, List.getElem?_set_ne (by omega), hnodesB,
          List.getElem?_set_ne (by omega), hA_high u.id]
        have hN1u' : N1.nodes[u.id]? = some unode := hN1u
        rw [hN1u']
        rfl
      · intro e he
        simp only [remapNode]
        exact List.mem_map.mpr ⟨e, he, rfl⟩
      · intro e' he'
        simp only [remapNode] at he'
        obtain ⟨e, he, rfl⟩ := List.mem_map.mp he'
        exact Or.inl ⟨e, he, rfl⟩

end GHF

namespace GHF

/-- A graph is "good" when its traversal from start cannot panic and the
goal is genuinely reachable — equivalently (by `validateG_ok_iff`), when
`validate()` succeeds. -/
def GoodG (g : PlatformGraph) : Prop :=
  Safe g g.start ∧ Reach g g.start g.goal

/-- One merge step sends good graphs to a good graph. -/
theorem mergeStep_good (M N : PlatformGraph) (hM : GoodG M) (hN : GoodG N) :
    ∃ m', mergeStep M N = some m' ∧ GoodG m' := by
  have hMg : M.goal.id < M.nodes.length := (hM.1.2 M.goal hM.2).1
  have hNs : N.start.id < N.nodes.length := hN.1.1
  have hNg : N.goal.id < N.nodes.length := (hN.1.2 N.goal hN.2).1
  obtain ⟨m', hstep, hlen, hstart, hgoal, hold, hnew⟩ :=
    mergeStep_spec M N hMg hNs hNg
  have hlift1 : ∀ a b, Reach M a b → Reach m' a b := by
    intro a b h
    refine Relation.ReflTransGen.mono ?_ h
    intro x y hs
    obtain ⟨node, hn, e, he, rfl⟩ := hs
    obtain ⟨node', hn', hsub, _, _, _⟩ := hold x node hn
    exact ⟨node', hn', e, hsub e he, rfl⟩
  have hlift2 : ∀ a b, Reach N a b →
      Reach m' ⟨a.id + M.nodes.length⟩ ⟨b.id + M.nodes.length⟩ := by
    intro a b h
    induction h with
    | refl => exact .refl
    | tail hab hbc ih =>
      obtain ⟨unode, hn, e, he, rfl⟩ := hbc
      obtain ⟨node', hn', hsub, _, _, _⟩ := hnew _ unode hn
      exact Relation.ReflTransGen.tail ih ⟨node', hn', remapEdge M.nodes.length e,
        hsub e he, rfl⟩
  have hcross : StepRel m' M.goal ⟨N.start.id + M.nodes.length⟩ := by
    obtain ⟨gnode, hgnode⟩ : ∃ gnode, M.get_node M.goal = some gnode :=
      ⟨_, by unfold PlatformGraph.get_node; exact List.getElem?_eq_getElem hMg⟩
    obtain ⟨node', hn', _, _, _, hcrossmem⟩ := hold M.goal gnode hgnode
    exact ⟨node', hn', _, hcrossmem rfl, rfl⟩
  have hreach : Reach m' m'.start m'.goal := by
    rw [hstart, hgoal]
    have h1 : Reach m' M.start M.goal := hlift1 _ _ hM.2
    have h2 : Reach m' M.start ⟨N.start.id + M.nodes.length⟩ :=
      Relation.ReflTransGen.tail h1 hcross
    exact Relation.ReflTransGen.trans h2 (hlift2 _ _ hN.2)
  -- the invariant set of nodes reachable in the merged graph
  have hS : ∀ v, Reach m' m'.start v →
      (Reach M M.start v ∨
        ∃ u, Reach N N.start u ∧ v = ⟨u.id + M.nodes.length⟩) := by
    intro v h
    rw [hstart] at h
    induction h with
    | refl => exact Or.inl .refl
    | tail hab hbc ih =>
      rename_i x y
      obtain ⟨node'', hn'', e', he', rfl⟩ := hbc
      rcases ih with hx | ⟨u, hu, rfl⟩
      · obtain ⟨node, hn⟩ : ∃ node, M.get_node x = some node :=
          ⟨_, by
            unfold PlatformGraph.get_node
            exact List.getElem?_eq_getElem ((hM.1.2 x hx).1)⟩
        obtain ⟨node', hn', _, hexact, _, _⟩ := hold x node hn
        have hnodeeq : node'' = node' := by
          rw [hn'] at hn''
          exact (Option.some.inj hn'').symm
        subst hnodeeq
        rcases hexact e' he' with hin | ⟨rfl, rfl⟩
        · exact Or.inl (Relation.ReflTransGen.tail hx ⟨node, hn, e', hin, rfl⟩)
        · exact Or.inr ⟨N.start, .refl, rfl⟩
      · obtain ⟨unode, hn⟩ : ∃ unode, N.get_node u = some unode :=
          ⟨_, by
            unfold PlatformGraph.get_node
            exact List.getElem?_eq_getElem ((hN.1.2 u hu).1)⟩
        obtain ⟨node', hn', _, hexact, _, _⟩ := hnew u unode hn
        have hnodeeq : node'' = node' := by
          rw [hn'] at hn''
          exact (Option.some.inj hn'').symm
        subst hnodeeq
        rcases hexact e' he' with ⟨e, he, rfl⟩ | ⟨rfl, rfl⟩
        · exact Or.inr ⟨e.tgt,
            Relation.ReflTransGen.tail hu ⟨unode, hn, e, he, rfl⟩, rfl⟩
        · exact Or.inl hM.2
  have hsafe : Safe m' m'.start := by
    refine ⟨?_, ?_⟩
    · rw [hstart, hlen]
      have := hM.1.1
      omega
    · intro v hv
      rcases hS v hv with hx | ⟨u, hu, rfl⟩
      · have hvM : v.id < M.nodes.length := (hM.1.2 v hx).1
        obtain ⟨node, hn⟩ : ∃ node, M.get_node v = some node :=
          ⟨_, by unfold PlatformGraph.get_node; exact List.getElem?_eq_getElem hvM⟩
        obtain ⟨node', hn', _, hexact, _, _⟩ := hold v node hn
        refine ⟨by rw [hlen]; omega, ?_⟩
        intro node'' hn'' e' he'
        have : node'' = node' := by
          rw [hn'] at hn''
          exact (Option.some.inj hn'').symm
        subst this
        rcases hexact e' he' with hin | ⟨_, rfl⟩
        · have := (hM.1.2 v hx).2 node hn e' hin
          rw [hlen]
          omega
        · rw [hlen]
          show N.start.id + M.nodes.length < M.nodes.length + N.nodes.length
          omega
      · have huN : u.id < N.nodes.length := (hN.1.2 u hu).1
        obtain ⟨unode, hn⟩ : ∃ unode, N.get_node u = some unode :=
          ⟨_, by unfold PlatformGraph.get_node; exact List.getElem?_eq_getElem huN⟩
        obtain ⟨node', hn', _, hexact, _, _⟩ := hnew u unode hn
        refine ⟨by rw [hlen]; show u.id + M.nodes.length < _; omega, ?_⟩
        intro node'' hn'' e' he'
        have : node'' = node' := by
          rw [hn'] at hn''
          exact (Option.some.inj hn'').symm
        subst this
        rcases hexact e' he' with ⟨e, he, rfl⟩ | ⟨_, rfl⟩
        · have := (hN.1.2 u hu).2 unode hn e he
          rw [hlen]
          show e.tgt.id + M.nodes.length < M.nodes.length + N.nodes.length
          omega
        · rw [hlen]
          show M.goal.id < M.nodes.length + N.nodes.length
          omega
  exact ⟨m', hstep, hsafe, hreach⟩

/-- Folding merge steps over good graphs yields a good graph. -/
theorem mergeFold_good : ∀ (gs : List PlatformGraph) (merged : PlatformGraph),
    GoodG merged → (∀ g ∈ gs, GoodG g) →
    ∃ m, mergeFold merged gs = some m ∧ GoodG m := by
  intro gs
  induction gs with
  | nil => intro merged hm _; exact ⟨merged, rfl, hm⟩
  | cons next rest ih =>
    intro merged hm hall
    obtain ⟨m', hstep, hgood⟩ := mergeStep_good merged next hm
      (hall next (by simp))
    obtain ⟨m, hfold, hmg⟩ := ih m' hgood (fun g hg => hall g (by simp [hg]))
    refine ⟨m, ?_, hmg⟩
    unfold mergeFold
    rw [hstep]
    exact hfold

/-- C2.  Every template constructor yields a graph whose goal is reachable
from its start, i.e. `validate()` returns `Ok`: the linear template for
every seed (with 5–8 nodes), the four fixed templates, and every
`merge_graphs` combination of validating graphs. -/
theorem c2_templates_validate :
    (∀ seed, 5 ≤ (create_linear_template seed).nodes.length ∧
      (create_linear_template seed).nodes.length ≤ 8 ∧
      (create_linear_template seed).validateG = some (.ok ())) ∧
    create_branching_template.validateG = some (.ok ()) ∧
    create_cul_de_sac_template.validateG = some (.ok ()) ∧
    create_zigzag_template.validateG = some (.ok ()) ∧
    create_ground_and_floating_template.validateG = some (.ok ()) ∧
    (∀ graphs : List PlatformGraph, graphs ≠ [] →
      (∀ g ∈ graphs, g.validateG = some (.ok ())) →
      ∃ m, merge_graphs graphs = some m ∧ m.validateG = some (.ok ())) := by
  refine ⟨create_linear_template_props, rfl, rfl, rfl, rfl, ?_⟩
  intro graphs hne hall
  match graphs with
  | [] => exact absurd rfl hne
  | [g] => exact ⟨g, rfl, hall g (by simp)⟩
  | g1 :: g2 :: rest =>
    have hgood1 : GoodG g1 := (validateG_ok_iff g1).mp (hall g1 (by simp))
    obtain ⟨m, hfold, hmg⟩ := mergeFold_good (g2 :: rest) g1 hgood1
      (fun g hg => (validateG_ok_iff g).mp (hall g (by simp [hg])))
    exact ⟨m, hfold, (validateG_ok_iff m).mpr hmg⟩

/-- Witness for C2's merge clause at two concrete templates. -/
theorem c2_templates_validate_witness :
    ∃ m, merge_graphs [create_branching_template, create_zigzag_template]
      = some m ∧ m.validateG = some (.ok ()) := by
  refine c2_templates_validate.2.2.2.2.2
    [create_branching_template, create_zigzag_template] (by simp) ?_
  intro g hg
  rcases List.mem_cons.mp hg with rfl | hg'
  · exact rfl
  · rcases List.mem_cons.mp hg' with rfl | hg''
    · exact rfl
    · exact absurd hg'' (by simp)

end GHF

namespace GHF

/-- Placeholder graph used as `getD` default in statements. -/
def dfltGraph : PlatformGraph := PlatformGraph.new ⟨0⟩ ⟨0⟩

/-- The node at absolute index `p` exists and is `Floating`. -/
def FloatingAt (m : PlatformGraph) (p : Nat) : Prop :=
  ∃ node, m.get_node ⟨p⟩ = some node ∧ node.platform_type = .Floating

/-- The nodes at absolute indices `p` and `q` are joined by the
bidirectional Jump edge pair that `merge_graphs` inserts. -/
def JoinedAt (m : PlatformGraph) (p q : Nat) : Prop :=
  (∃ node, m.get_node ⟨p⟩ = some node ∧
    Edge.mk ⟨q⟩ (.Jump .Right) ∈ node.edges) ∧
  (∃ node, m.get_node ⟨q⟩ = some node ∧
    Edge.mk ⟨p⟩ (.Jump .Left) ∈ node.edges)

theorem getLast?_getD {α : Type} (l : List α) (d : α) (h : l ≠ []) :
    l.getLast? = some (l.getD (l.length - 1) d) := by
  have hlt : l.length - 1 < l.length := by
    cases l with
    | nil => exact absurd rfl h
    | cons a as => simp
  rw [List.getLast?_eq_getElem?, List.getD_eq_getElem?_getD,
    List.getElem?_eq_getElem hlt]
  rfl

theorem mergeStep_preserves_floating (M N m' : PlatformGraph)
    (hMg : M.goal.id < M.nodes.length)
    (hNs : N.start.id < N.nodes.length)
    (hNg : N.goal.id < N.nodes.length)
    (hstep : mergeStep M N = some m') (p : Nat)
    (hp : p < M.nodes.length) (hf : FloatingAt M p) : FloatingAt m' p := by
  obtain ⟨m'', hstep', _, _, _, hold, _⟩ := mergeStep_spec M N hMg hNs hNg
  have hm : m'' = m' := by
    rw [hstep] at hstep'
    exact (Option.some.inj hstep').symm
  subst hm
  obtain ⟨node, hn, htype⟩ := hf
  obtain ⟨node', hn', _, _, htype', _⟩ := hold ⟨p⟩ node hn
  refine ⟨node', hn', ?_⟩
  rw [htype']
  split <;> simp [htype]

theorem mergeStep_preserves_joined (M N m' : PlatformGraph)
    (hMg : M.goal.id < M.nodes.length)
    (hNs : N.start.id < N.nodes.length)
    (hNg : N.goal.id < N.nodes.length)
    (hstep : mergeStep M N = some m') (p q : Nat)
    (hp : p < M.nodes.length) (hq : q < M.nodes.length)
    (hj : JoinedAt M p q) : JoinedAt m' p q := by
  obtain ⟨m'', hstep', _, _, _, hold, _⟩ := mergeStep_spec M N hMg hNs hNg
  have hm : m'' = m' := by
    rw [hstep] at hstep'
    exact (Option.some.inj hstep').symm
  subst hm
  obtain ⟨⟨node1, hn1, he1⟩, ⟨node2, hn2, he2⟩⟩ := hj
  obtain ⟨node1', hn1', hsub1, _, _, _⟩ := hold ⟨p⟩ node1 hn1
  obtain ⟨node2', hn2', hsub2, _, _, _⟩ := hold ⟨q⟩ node2 hn2
  exact ⟨⟨node1', hn1', hsub1 _ he1⟩, ⟨node2', hn2', hsub2 _ he2⟩⟩

end GHF

namespace GHF

/-- Structure of the merge fold over graphs of uniform size `k`: node
count, start, final goal id, and the Floating/Jump-joined connection
points of every adjacent pair. -/
theorem mergeFold_uniform (k : Nat) :
    ∀ (rest : List PlatformGraph) (merged : PlatformGraph) (j gg : Nat),
    merged.nodes.length = (j + 1) * k →
    merged.goal.id = j * k + gg →
    gg < k →
    (∀ g ∈ rest, g.nodes.length = k ∧ g.start.id < k ∧ g.goal.id < k) →
    ∃ m, mergeFold merged rest = some m ∧
      m.nodes.length = (j + 1 + rest.length) * k ∧
      m.start = merged.start ∧
      (rest = [] → m = merged) ∧
      (∀ glast, rest.getLast? = some glast →
        m.goal = ⟨(j + rest.length) * k + glast.goal.id⟩) ∧
      (∀ p, p < merged.nodes.length → FloatingAt merged p → FloatingAt m p) ∧
      (∀ p q, p < merged.nodes.length → q < merged.nodes.length →
        JoinedAt merged p q → JoinedAt m p q) ∧
      (∀ i, i < rest.length →
        FloatingAt m ((j + i) * k +
          (if i = 0 then gg else (rest.getD (i - 1) dfltGraph).goal.id)) ∧
        FloatingAt m ((j + 1 + i) * k + (rest.getD i dfltGraph).start.id) ∧
        JoinedAt m ((j + i) * k +
          (if i = 0 then gg else (rest.getD (i - 1) dfltGraph).goal.id))
          ((j + 1 + i) * k + (rest.getD i dfltGraph).start.id)) := by
  intro rest
  induction rest with
  | nil =>
    intro merged j gg h1 h2 h3 _
    refine ⟨merged, rfl, by simpa using h1, rfl, fun _ => rfl, by simp,
      fun p _ hp => hp, fun p q _ _ h => h, by simp⟩
  | cons next rest' ih =>
    intro merged j gg h1 h2 h3 hall
    obtain ⟨hnl, hns, hng⟩ := hall next (by simp)
    have hexp : (j + 1) * k = j * k + k := by ring
    have hMg : merged.goal.id < merged.nodes.length := by
      rw [h1, h2, hexp]
      omega
    have hns' : next.start.id < next.nodes.length := by rw [hnl]; exact hns
    have hng' : next.goal.id < next.nodes.length := by rw [hnl]; exact hng
    obtain ⟨m', hstep, hlen', hstart', hgoal', hold, hnew⟩ :=
      mergeStep_spec merged next hMg hns' hng'
    have hm'len : m'.nodes.length = (j + 1 + 1) * k := by
      rw [hlen', h1, hnl]
      ring
    have hm'goal : m'.goal.id = (j + 1) * k + next.goal.id := by
      rw [hgoal']
      show next.goal.id + merged.nodes.length = (j + 1) * k + next.goal.id
      rw [h1]
      omega
    -- the connection pair created by this step
    have hgoalid : merged.goal = ⟨j * k + gg⟩ := NodeId.eq_of_id _ _ h2
    obtain ⟨mgnode, hmgnode⟩ : ∃ node, merged.get_node merged.goal = some node :=
      ⟨_, by unfold PlatformGraph.get_node; exact List.getElem?_eq_getElem hMg⟩
    obtain ⟨snode, hsnode⟩ : ∃ node, next.get_node next.start = some node :=
      ⟨_, by unfold PlatformGraph.get_node; exact List.getElem?_eq_getElem hns'⟩
    obtain ⟨gnode', hgnode', _, _, htypeg, hcrossg⟩ :=
      hold merged.goal mgnode hmgnode
    obtain ⟨snode', hsnode', _, _, htypes, hcrosss⟩ :=
      hnew next.start snode hsnode
    have hposstart : (⟨next.start.id + merged.nodes.length⟩ : NodeId) =
        ⟨(j + 1) * k + next.start.id⟩ := by
      apply NodeId.eq_of_id
      show next.start.id + merged.nodes.length = (j + 1) * k + next.start.id
      rw [h1]
      omega
    have hpairA : FloatingAt m' (j * k + gg) := by
      refine ⟨gnode', by rw [← hgoalid]; exact hgnode', ?_⟩
      rw [htypeg, if_pos rfl]
    have hpairB : FloatingAt m' ((j + 1) * k + next.start.id) := by
      refine ⟨snode', by rw [← hposstart]; exact hsnode', ?_⟩
      rw [htypes, if_pos rfl]
    have hpairJ : JoinedAt m' (j * k + gg) ((j + 1) * k + next.start.id) := by
      constructor
      · refine ⟨gnode', by rw [← hgoalid]; exact hgnode', ?_⟩
        have hcmem := hcrossg rfl
        rwa [hposstart] at hcmem
      · refine ⟨snode', by rw [← hposstart]; exact hsnode', ?_⟩
        have hcmem := hcrosss rfl
        rwa [hgoalid] at hcmem
    obtain ⟨m, hfold, hmlen, hmstart, hnilcase, hlast, hFpres, hJpres, hpairs⟩ :=
      ih m' (j + 1) next.goal.id hm'len hm'goal hng
        (fun g hg => hall g (by simp [hg]))
    have hstepfold : mergeFold merged (next :: rest') = some m := by
      unfold mergeFold
      rw [hstep]
      exact hfold
    have hm'ge : ∀ p, p < merged.nodes.length → p < m'.nodes.length := by
      intro p hp
      rw [h1] at hp
      rw [hm'len]
      have hx : (j + 1 + 1) * k = (j + 1) * k + k := by ring
      omega
    have hFpres2 : ∀ p, p < merged.nodes.length → FloatingAt merged p →
        FloatingAt m p := by
      intro p hp hf
      exact hFpres p (hm'ge p hp)
        (mergeStep_preserves_floating merged next m' hMg hns' hng' hstep p hp hf)
    have hJpres2 : ∀ p q, p < merged.nodes.length → q < merged.nodes.length →
        JoinedAt merged p q → JoinedAt m p q := by
      intro p q hp hq hj
      exact hJpres p q (hm'ge p hp) (hm'ge q hq)
        (mergeStep_preserves_joined merged next m' hMg hns' hng' hstep p q hp hq hj)
    refine ⟨m, hstepfold, ?_, by rw [hmstart, hstart'], ?_, ?_,
      hFpres2, hJpres2, ?_⟩
    · rw [hmlen]
      have hx : j + 1 + 1 + rest'.length = j + 1 + (next :: rest').length := by
        simp [List.length_cons]
        omega
      rw [hx]
    · intro h
      exact absurd h (by simp)
    · intro glast hglast
      cases rest' with
      | nil =>
        have hgl : next = glast := by simpa using hglast
        subst hgl
        have hmm' : m = m' := hnilcase rfl
        subst hmm'
        apply NodeId.eq_of_id
        rw [hm'goal]
        show (j + 1) * k + next.goal.id =
          (⟨(j + List.length [next]) * k + next.goal.id⟩ : NodeId).id
        simp
      | cons r rs =>
        have hgl2 : (next :: r :: rs).getLast? = (r :: rs).getLast? := rfl
        rw [hgl2] at hglast
        have hmg2 := hlast glast hglast
        rw [hmg2]
        apply NodeId.eq_of_id
        show (j + 1 + (r :: rs).length) * k + glast.goal.id =
          (⟨(j + (next :: r :: rs).length) * k + glast.goal.id⟩ : NodeId).id
        simp only [List.length_cons]
        ring_nf
    · intro i hi
      cases i with
      | zero =>
        have hlt1 : j * k + gg < m'.nodes.length := by
          rw [hm'len]
          have hx : (j + 1 + 1) * k = j * k + k + k := by ring
          omega
        have hlt2 : (j + 1) * k + next.start.id < m'.nodes.length := by
          rw [hm'len]
          have hx : (j + 1 + 1) * k = (j + 1) * k + k := by ring
          omega
        refine ⟨?_, ?_, ?_⟩
        · simpa using hFpres _ hlt1 hpairA
        · simpa using hFpres _ hlt2 hpairB
        · simpa using hJpres _ _ hlt1 hlt2 hpairJ
      | succ i' =>
        obtain ⟨hF1, hF2, hJ⟩ := hpairs i' (by simpa using hi)
        have hidx1 : (j + 1 + i') * k = (j + (i' + 1)) * k := by ring
        have hidx2 : (j + 1 + 1 + i') * k = (j + 1 + (i' + 1)) * k := by ring
        have hgoalsel : (if i' = 0 then next.goal.id
            else (rest'.getD (i' - 1) dfltGraph).goal.id) =
            ((next :: rest').getD i' dfltGraph).goal.id := by
          cases i' with
          | zero => simp
          | succ i'' => simp
        have hstartsel : (rest'.getD i' dfltGraph).start.id =
            ((next :: rest').getD (i' + 1) dfltGraph).start.id := by
          simp
        refine ⟨?_, ?_, ?_⟩
        · have h := hF1
          rw [hidx1, hgoalsel] at h
          simpa using h
        · have h := hF2
          rw [hidx2, hstartsel] at h
          simpa using h
        · have h := hJ
          rw [hidx1, hidx2, hgoalsel, hstartsel] at h
          simpa using h

end GHF

namespace GHF

/-- C3.  `merge_graphs` panics (models as `none`) on the empty list,
returns a single graph unchanged, and for `n ≥ 2` graphs of `k` nodes each
(with in-range start/goal ids) yields exactly `n·k` nodes, keeps the first
graph's start, sets the goal to (sum of preceding node counts) + (local
goal index of the last graph), and reclassifies each adjacent pair's
connection nodes to `Floating`, joined by a bidirectional Jump edge. -/
theorem c3_merge_graphs :
    merge_graphs [] = none ∧
    (∀ g, merge_graphs [g] = some g) ∧
    (∀ (gs : List PlatformGraph) (k : Nat), 2 ≤ gs.length →
      (∀ g ∈ gs, g.nodes.length = k ∧ g.start.id < k ∧ g.goal.id < k) →
      ∃ m, merge_graphs gs = some m ∧
        m.nodes.length = gs.length * k ∧
        m.start = (gs.getD 0 dfltGraph).start ∧
        m.goal = ⟨(gs.length - 1) * k +
          (gs.getD (gs.length - 1) dfltGraph).goal.id⟩ ∧
        (∀ i, i + 1 < gs.length →
          FloatingAt m (i * k + (gs.getD i dfltGraph).goal.id) ∧
          FloatingAt m ((i + 1) * k + (gs.getD (i + 1) dfltGraph).start.id) ∧
          JoinedAt m (i * k + (gs.getD i dfltGraph).goal.id)
            ((i + 1) * k + (gs.getD (i + 1) dfltGraph).start.id))) := by
  refine ⟨rfl, fun g => rfl, ?_⟩
  intro gs k hlen hall
  match gs, hlen with
  | g1 :: g2 :: rest, _ =>
    obtain ⟨h1l, h1s, h1g⟩ := hall g1 (by simp)
    obtain ⟨m, hfold, hmlen, hmstart, _, hlast, _, _, hpairs⟩ :=
      mergeFold_uniform k (g2 :: rest) g1 0 g1.goal.id
        (by rw [h1l]; ring) (by simp) h1g
        (fun g hg => hall g (by simp [hg]))
    have hmg : merge_graphs (g1 :: g2 :: rest) = some m := hfold
    refine ⟨m, hmg, ?_, by simpa using hmstart, ?_, ?_⟩
    · rw [hmlen]
      have hx : 0 + 1 + (g2 :: rest).length = (g1 :: g2 :: rest).length := by
        simp
        omega
      rw [hx]
    · have hgl := getLast?_getD (g2 :: rest) dfltGraph (by simp)
      have := hlast _ hgl
      rw [this]
      apply NodeId.eq_of_id
      show (0 + (g2 :: rest).length) * k +
          ((g2 :: rest).getD ((g2 :: rest).length - 1) dfltGraph).goal.id =
        ((⟨((g1 :: g2 :: rest).length - 1) * k +
          ((g1 :: g2 :: rest).getD ((g1 :: g2 :: rest).length - 1)
            dfltGraph).goal.id⟩ : NodeId)).id
      simp only [List.length_cons]
      have hx1 : rest.length + 1 + 1 - 1 = rest.length + 1 := by omega
      have hx2 : rest.length + 1 - 1 = rest.length := by omega
      rw [hx1, hx2]
      have hx3 : (g1 :: g2 :: rest).getD (rest.length + 1) dfltGraph =
          (g2 :: rest).getD rest.length dfltGraph := by
        simp
      rw [hx3]
      simp
    · intro i hi
      obtain ⟨hF1, hF2, hJ⟩ := hpairs i (by simpa using hi)
      have hsel1 : (if i = 0 then g1.goal.id
          else ((g2 :: rest).getD (i - 1) dfltGraph).goal.id) =
          ((g1 :: g2 :: rest).getD i dfltGraph).goal.id := by
        cases i with
        | zero => simp
        | succ i'' => simp
      have hsel2 : ((g2 :: rest).getD i dfltGraph).start.id =
          ((g1 :: g2 :: rest).getD (i + 1) dfltGraph).start.id := by
        simp
      refine ⟨?_, ?_, ?_⟩
      · have h := hF1
        rw [hsel1] at h
        simpa using h
      · have h := hF2
        rw [hsel2] at h
        have hx : (0 + 1 + i) * k = (i + 1) * k := by ring
        rw [hx] at h
        simpa using h
      · have h := hJ
        rw [hsel1, hsel2] at h
        have hx : (0 + 1 + i) * k = (i + 1) * k := by ring
        have hx0 : (0 + i) * k = i * k := by ring
        rw [hx, hx0] at h
        simpa using h

/-- Witness for C3's `n ≥ 2` clause: merging two 5-node linear templates
yields 10 nodes, start `NodeId(0)`, goal `NodeId(9)`, with the pair
(4, 5) reclassified to Floating and joined. -/
theorem c3_merge_graphs_witness :
    ∃ m, merge_graphs [create_linear_template none, create_linear_template none]
        = some m ∧
      m.nodes.length = 2 * 5 ∧
      m.start = ([create_linear_template none,
        create_linear_template none].getD 0 dfltGraph).start ∧
      m.goal = ⟨(2 - 1) * 5 + ([create_linear_template none,
        create_linear_template none].getD (2 - 1) dfltGraph).goal.id⟩ ∧
      (∀ i, i + 1 < 2 →
        FloatingAt m (i * 5 + ([create_linear_template none,
          create_linear_template none].getD i dfltGraph).goal.id) ∧
        FloatingAt m ((i + 1) * 5 + ([create_linear_template none,
          create_linear_template none].getD (i + 1) dfltGraph).start.id) ∧
        JoinedAt m (i * 5 + ([create_linear_template none,
          create_linear_template none].getD i dfltGraph).goal.id)
          ((i + 1) * 5 + ([create_linear_template none,
            create_linear_template none].getD (i + 1) dfltGraph).start.id)) := by
  have h := c3_merge_graphs.2.2
    [create_linear_template none, create_linear_template none] 5
    (by simp) ?_
  · simpa using h
  · intro g hg
    have hprops : (create_linear_template none).nodes.length = 5 ∧
        (create_linear_template none).start.id < 5 ∧
        (create_linear_template none).goal.id < 5 := by
      refine ⟨rfl, ?_, ?_⟩ <;> decide
    rcases List.mem_cons.mp hg with rfl | hg'
    · exact hprops
    · rcases List.mem_cons.mp hg' with rfl | hg''
      · exact hprops
      · exact absurd hg'' (by simp)

end GHF

namespace GHF

/-! ## Layout engine (graph.rs `generate_layout`) -/

def MIN_HORIZONTAL_SPACING_TILES : Int := 2

def MAX_HORIZONTAL_SPACING_TILES : Int := 4

def MIN_HEIGHT_DELTA_TILES : Int := -2

def MAX_HEIGHT_DELTA_TILES : Int := 2

def MAX_JUMP_HEIGHT_TILES : Int := 3

def MAX_JUMP_DISTANCE_TILES : Int := 6

/-- Ghost record of one placement made by the layout loop: the source
node's layout at placement time and the placed neighbour's layout.  The
Rust code does not return this; it is instrumentation for stating
per-placement properties. -/
structure Placement where
  srcLayout : PlatformLayout
  dstLayout : PlatformLayout
deriving DecidableEq, Repr

/-- Association-list lookup for the `HashMap<NodeId, PlatformLayout>`. -/
def lookupL (m : List (NodeId × PlatformLayout)) (k : NodeId) :
    Option PlatformLayout :=
  match m with
  | [] => none
  | (k', v) :: rest => if k' = k then some v else lookupL rest k

/-- The row logic of one placement (graph.rs `generate_layout` edge body):
clamp `currentRow + δ` to a non-negative row, then pull the vertical
placement back toward the source height (`currentRow +
(MAX_HEIGHT_DELTA_TILES - 1)`, clamped) when the jump-capability check on
the drawn position fails. -/
def clampRow (currentRow δ nx cx : Int) : Int :=
  let next_grid_y0 := max (currentRow + δ) 0
  if MAX_JUMP_DISTANCE_TILES < |nx - cx| ∨
      MAX_JUMP_HEIGHT_TILES < next_grid_y0 - currentRow then
    max (currentRow + (MAX_HEIGHT_DELTA_TILES - 1)) 0
  else next_grid_y0

/-- One placement of `generate_layout`'s edge loop (graph.rs): draw the
horizontal gap, place left or right of the source, draw the vertical
delta (biased upward or downward for the diagonal directions), and place
the row with `clampRow`.  Returns the new neighbour layout and the
advanced generator. -/
def placeNext (next_node : PlatformNode) (currentLayout : PlatformLayout)
    (direction : LayoutDirection) (rng : Rng) : PlatformLayout × Rng :=
  let next_width_tiles : Int := (next_node.calculate_width / 32 : Nat)
  let next_height_tiles : Int := (next_node.calculate_height : Nat)
  let xy : Int × Int :=
    match direction with
    | .Right => (1, 0)
    | .Left => (-1, 0)
    | .RightUp => (1, 1)
    | .LeftUp => (-1, 1)
    | .RightDown => (1, -1)
    | .LeftDown => (-1, -1)
  let gr := rng.randomRangeInt MIN_HORIZONTAL_SPACING_TILES
    MAX_HORIZONTAL_SPACING_TILES
  let next_grid_x :=
    if 0 < xy.1 then
      currentLayout.grid_x + currentLayout.width_tiles + gr.1
    else
      currentLayout.grid_x - gr.1 - next_width_tiles
  let yr :=
    if xy.2 ≠ 0 then
      let r0 := gr.2.randomRangeInt 0 MAX_HEIGHT_DELTA_TILES
      (r0.1 * xy.2, r0.2)
    else
      gr.2.randomRangeInt MIN_HEIGHT_DELTA_TILES MAX_HEIGHT_DELTA_TILES
  let next_grid_y :=
    clampRow currentLayout.grid_y yr.1 next_grid_x currentLayout.grid_x
  ({ grid_x := next_grid_x, grid_y := next_grid_y,
     width_tiles := next_width_tiles, height_tiles := next_height_tiles },
   yr.2)

/-- The `for edge in &current_node.edges` body of `generate_layout`
(graph.rs): skip already-positioned targets, otherwise place the
neighbour with `placeNext`, insert its layout and enqueue it.  `none`
models the `get_node(..).unwrap()` panic. -/
def layoutEdges (g : PlatformGraph) (currentLayout : PlatformLayout) :
    List Edge → List (NodeId × PlatformLayout) → List NodeId → Rng →
    List Placement →
    Option (List (NodeId × PlatformLayout) × List NodeId × Rng × List Placement)
  | [], layouts, queue, rng, trace => some (layouts, queue, rng, trace)
  | edge :: restEdges, layouts, queue, rng, trace =>
    match lookupL layouts edge.tgt with
    | some _ => layoutEdges g currentLayout restEdges layouts queue rng trace
    | none =>
      match g.get_node edge.tgt with
      | none => none
      | some next_node =>
        let pr := placeNext next_node currentLayout
          edge.connection_type.direction rng
        layoutEdges g currentLayout restEdges
          (layouts ++ [(edge.tgt, pr.1)]) (queue ++ [edge.tgt]) pr.2
          (trace ++ [⟨currentLayout, pr.1⟩])

/-- The BFS loop of `generate_layout` (graph.rs), fuelled like the
traversal loop.  `visited` models the `HashSet`; `none` covers the
indexing/unwrap panics and the unreachable fuel exhaustion. -/
def layoutLoop (g : PlatformGraph) :
    Nat → List (NodeId × PlatformLayout) → List NodeId → List NodeId → Rng →
    List Placement →
    Option (List (NodeId × PlatformLayout) × List Placement)
  | _, layouts, _, [], _, trace => some (layouts, trace)
  | 0, _, _, _ :: _, _, _ => none
  | fuel + 1, layouts, visited, current :: queue, rng, trace =>
    if current ∈ visited then
      layoutLoop g fuel layouts visited queue rng trace
    else
      match lookupL layouts current with
      | none => none
      | some current_layout =>
        match g.get_node current with
        | none => none
        | some current_node =>
          match layoutEdges g current_layout current_node.edges layouts queue
              rng trace with
          | none => none
          | some (layouts', queue', rng', trace') =>
            layoutLoop g fuel layouts' (visited ++ [current]) queue' rng' trace'

/-- `PlatformGraph::generate_layout` (graph.rs), also returning the ghost
placement trace. -/
def PlatformGraph.generate_layout (g : PlatformGraph) (seed : Seed) :
    Option (List (NodeId × PlatformLayout) × List Placement) :=
  let rng := Rng.seed_from_u64 seed
  match g.get_node g.start with
  | none => none
  | some start_node =>
    let start_width_tiles : Int := (start_node.calculate_width / 32 : Nat)
    let start_height_tiles : Int := (start_node.calculate_height : Nat)
    let layouts := [(g.start,
      { grid_x := 2, grid_y := 0, width_tiles := start_width_tiles,
        height_tiles := start_height_tiles : PlatformLayout })]
    layoutLoop g (reachFuel g) layouts [] [g.start] rng []

end GHF

namespace GHF

/-! ## Layout invariants -/

theorem lookupL_append_some {m : List (NodeId × PlatformLayout)}
    {k : NodeId} {v : PlatformLayout} (l : List (NodeId × PlatformLayout))
    (h : lookupL m k = some v) : lookupL (m ++ l) k = some v := by
  induction m with
  | nil => simp [lookupL] at h
  | cons kv rest ih =>
    obtain ⟨k', v'⟩ := kv
    rw [lookupL] at h
    rw [List.cons_append, lookupL]
    by_cases hk : k' = k
    · rw [if_pos hk] at h ⊢; exact h
    · rw [if_neg hk] at h ⊢; exact ih h

theorem lookupL_mem {m : List (NodeId × PlatformLayout)} {k : NodeId}
    {v : PlatformLayout} (h : lookupL m k = some v) : (k, v) ∈ m := by
  induction m with
  | nil => simp [lookupL] at h
  | cons kv rest ih =>
    obtain ⟨k', v'⟩ := kv
    rw [lookupL] at h
    by_cases hk : k' = k
    · rw [if_pos hk] at h
      subst hk
      have := Option.some.inj h
      subst this
      exact List.mem_cons_self _ _
    · rw [if_neg hk] at h
      exact List.mem_cons_of_mem _ (ih h)

/-- Every layout `placeNext` produces sits on a non-negative row, and its
rise over a non-negatively placed source is at most `MAX_JUMP_HEIGHT_TILES`:
in the pull-back branch the rise is exactly `MAX_HEIGHT_DELTA_TILES - 1 = 1`
(clamped), and otherwise the guard itself bounds the rise. -/
theorem clampRow_spec (a δ nx cx : Int) :
    0 ≤ clampRow a δ nx cx ∧
      (0 ≤ a → clampRow a δ nx cx - a ≤ MAX_JUMP_HEIGHT_TILES) := by
  unfold clampRow
  dsimp only
  split
  · unfold MAX_HEIGHT_DELTA_TILES MAX_JUMP_HEIGHT_TILES
    omega
  · rename_i hguard
    push_neg at hguard
    exact ⟨by omega, fun _ => hguard.2⟩

theorem placeNext_spec (n : PlatformNode) (cl : PlatformLayout)
    (d : LayoutDirection) (r : Rng) :
    0 ≤ (placeNext n cl d r).1.grid_y ∧
      (0 ≤ cl.grid_y →
        (placeNext n cl d r).1.grid_y - cl.grid_y ≤ MAX_JUMP_HEIGHT_TILES) := by
  unfold placeNext
  dsimp only
  exact clampRow_spec _ _ _ _

/-- Invariant preservation through the edge loop: starting from a
non-negatively placed source and invariant-respecting state, a successful
pass keeps every stored row non-negative, keeps every trace entry within
the vertical jump limit with non-negative endpoints, and preserves every
existing map binding. -/
theorem layoutEdges_spec (g : PlatformGraph) (curL : PlatformLayout)
    (hcl : 0 ≤ curL.grid_y) :
    ∀ (edges : List Edge) layouts queue rng trace out,
      layoutEdges g curL edges layouts queue rng trace = some out →
      (∀ kv ∈ layouts, 0 ≤ (kv.2 : PlatformLayout).grid_y) →
      (∀ p ∈ trace,
        (p : Placement).dstLayout.grid_y - p.srcLayout.grid_y ≤
            MAX_JUMP_HEIGHT_TILES ∧
          0 ≤ p.srcLayout.grid_y ∧ 0 ≤ p.dstLayout.grid_y) →
      (∀ kv ∈ out.1, 0 ≤ (kv.2 : PlatformLayout).grid_y) ∧
        (∀ p ∈ out.2.2.2,
          (p : Placement).dstLayout.grid_y - p.srcLayout.grid_y ≤
              MAX_JUMP_HEIGHT_TILES ∧
            0 ≤ p.srcLayout.grid_y ∧ 0 ≤ p.dstLayout.grid_y) ∧
        (∀ k v, lookupL layouts k = some v → lookupL out.1 k = some v) := by
  intro edges
  induction edges with
  | nil =>
    intro layouts queue rng trace out h hL hT
    rw [layoutEdges] at h
    have := Option.some.inj h
    subst this
    exact ⟨hL, hT, fun k v hv => hv⟩
  | cons edge restEdges ih =>
    intro layouts queue rng trace out h hL hT
    rw [layoutEdges] at h
    cases hlk : lookupL layouts edge.tgt with
    | some l0 =>
      rw [hlk] at h
      dsimp only at h
      exact ih layouts queue rng trace out h hL hT
    | none =>
      rw [hlk] at h
      dsimp only at h
      cases hgn : g.get_node edge.tgt with
      | none => rw [hgn] at h; exact absurd h (by simp)
      | some next_node =>
        rw [hgn] at h
        dsimp only at h
        have hps := placeNext_spec next_node curL
          edge.connection_type.direction rng
        have hL' : ∀ kv ∈ layouts ++
            [(edge.tgt,
              (placeNext next_node curL edge.connection_type.direction
                rng).1)],
            0 ≤ (kv.2 : PlatformLayout).grid_y := by
          intro kv hkv
          rcases List.mem_append.mp hkv with hkv | hkv
          · exact hL kv hkv
          · have := List.mem_singleton.mp hkv
            subst this
            exact hps.1
        have hT' : ∀ p ∈ trace ++
            [⟨curL,
              (placeNext next_node curL edge.connection_type.direction
                rng).1⟩],
            (p : Placement).dstLayout.grid_y - p.srcLayout.grid_y ≤
                MAX_JUMP_HEIGHT_TILES ∧
              0 ≤ p.srcLayout.grid_y ∧ 0 ≤ p.dstLayout.grid_y := by
          intro p hp
          rcases List.mem_append.mp hp with hp | hp
          · exact hT p hp
          · have := List.mem_singleton.mp hp
            subst this
            exact ⟨hps.2 hcl, hcl, hps.1⟩
        obtain ⟨c1, c2, c3⟩ := ih _ _ _ _ out h hL' hT'
        exact ⟨c1, c2, fun k v hv =>
          c3 k v (lookupL_append_some _ hv)⟩

/-- Invariant preservation through the BFS loop of `generate_layout`. -/
theorem layoutLoop_spec (g : PlatformGraph) :
    ∀ fuel layouts visited queue rng trace res,
      layoutLoop g fuel layouts visited queue rng trace = some res →
      (∀ kv ∈ layouts, 0 ≤ (kv.2 : PlatformLayout).grid_y) →
      (∀ p ∈ trace,
        (p : Placement).dstLayout.grid_y - p.srcLayout.grid_y ≤
            MAX_JUMP_HEIGHT_TILES ∧
          0 ≤ p.srcLayout.grid_y ∧ 0 ≤ p.dstLayout.grid_y) →
      (∀ kv ∈ res.1, 0 ≤ (kv.2 : PlatformLayout).grid_y) ∧
        (∀ p ∈ res.2,
          (p : Placement).dstLayout.grid_y - p.srcLayout.grid_y ≤
              MAX_JUMP_HEIGHT_TILES ∧
            0 ≤ p.srcLayout.grid_y ∧ 0 ≤ p.dstLayout.grid_y) ∧
        (∀ k v, lookupL layouts k = some v → lookupL res.1 k = some v) := by
  intro fuel
  induction fuel with
  | zero =>
    intro layouts visited queue rng trace res h hL hT
    cases queue with
    | nil =>
      rw [layoutLoop] at h
      have := Option.some.inj h
      subst this
      exact ⟨hL, hT, fun k v hv => hv⟩
    | cons current queue' => rw [layoutLoop] at h; exact absurd h (by simp)
  | succ fuel ih =>
    intro layouts visited queue rng trace res h hL hT
    cases queue with
    | nil =>
      rw [layoutLoop] at h
      have := Option.some.inj h
      subst this
      exact ⟨hL, hT, fun k v hv => hv⟩
    | cons current queue' =>
      rw [layoutLoop] at h
      split at h
      · exact ih _ _ _ _ _ res h hL hT
      · cases hlk : lookupL layouts current with
        | none => rw [hlk] at h; exact absurd h (by simp)
        | some current_layout =>
          rw [hlk] at h
          dsimp only at h
          cases hgn : g.get_node current with
          | none => rw [hgn] at h; exact absurd h (by simp)
          | some current_node =>
            rw [hgn] at h
            dsimp only at h
            have hcl : 0 ≤ current_layout.grid_y :=
              hL (current, current_layout) (lookupL_mem hlk)
            cases hle : layoutEdges g current_layout current_node.edges
                layouts queue' rng trace with
            | none => rw [hle] at h; exact absurd h (by simp)
            | some out =>
              rw [hle] at h
              obtain ⟨l', q', r', t'⟩ := out
              dsimp only at h
              obtain ⟨e1, e2, e3⟩ := layoutEdges_spec g current_layout hcl
                current_node.edges layouts queue' rng trace (l', q', r', t')
                hle hL hT
              obtain ⟨c1, c2, c3⟩ := ih _ _ _ _ _ res h e1 e2
              exact ⟨c1, c2, fun k v hv => c3 k v (e3 k v hv)⟩

end GHF

namespace GHF

/-- Top-level layout spec: on success, every stored row is non-negative,
every placement's vertical rise is within `MAX_JUMP_HEIGHT_TILES` with
non-negative endpoint rows, and the start node keeps its pinned
`(2, 0)` origin layout. -/
theorem generate_layout_spec (g : PlatformGraph) (seed : Seed)
    (res : List (NodeId × PlatformLayout) × List Placement)
    (h : g.generate_layout seed = some res) :
    (∀ kv ∈ res.1, 0 ≤ (kv.2 : PlatformLayout).grid_y) ∧
      (∀ p ∈ res.2,
        (p : Placement).dstLayout.grid_y - p.srcLayout.grid_y ≤
            MAX_JUMP_HEIGHT_TILES ∧
          0 ≤ p.srcLayout.grid_y ∧ 0 ≤ p.dstLayout.grid_y) ∧
      (∃ start_node, g.get_node g.start = some start_node ∧
        lookupL res.1 g.start = some
          { grid_x := 2, grid_y := 0,
            width_tiles := ((start_node.calculate_width / 32 : Nat) : Int),
            height_tiles := ((start_node.calculate_height : Nat) : Int) }) := by
  unfold PlatformGraph.generate_layout at h
  cases hgn : g.get_node g.start with
  | none => rw [hgn] at h; exact absurd h (by simp)
  | some start_node =>
    rw [hgn] at h
    dsimp only at h
    obtain ⟨c1, c2, c3⟩ := layoutLoop_spec g (reachFuel g) _ _ _ _ _ res h
      (by intro kv hkv; simp at hkv; subst hkv; simp)
      (by intro p hp; simp at hp)
    refine ⟨c1, c2, start_node, hgn ▸ rfl, ?_⟩
    exact c3 g.start _ (by rw [lookupL]; simp)

/-- The all-zero random stream (one realisable `StdRng` output). -/
def zeroStream : Seed := fun _ => 0

/-- A two-node demonstration graph: a Start platform with one `Jump Right`
edge to a plain floating platform. -/
def layoutDemoGraph : PlatformGraph :=
  { nodes := [PlatformNode.add_edge (PlatformNode.with_type .Start) ⟨1⟩
      (.Jump .Right), PlatformNode.new],
    start := ⟨0⟩, goal := ⟨1⟩ }

/-- What `generate_layout` computes on `layoutDemoGraph` with the all-zero
stream: the Start is 9 tiles wide at (2, 0), the gap draw is 2, so the
neighbour lands at grid_x 13 — horizontal distance 11 — and the failed
jump check only pulls the row back to 1. -/
def layoutDemoRes : List (NodeId × PlatformLayout) × List Placement :=
  ([(⟨0⟩, ⟨2, 0, 9, 2⟩), (⟨1⟩, ⟨13, 1, 4, 1⟩)],
   [⟨⟨2, 0, 9, 2⟩, ⟨13, 1, 4, 1⟩⟩])

theorem layoutDemo_eval :
    layoutDemoGraph.generate_layout zeroStream = some layoutDemoRes := rfl

/-- **C4 (counterexample).** It is not the case that every placement
respects both jump-capability limits: on `layoutDemoGraph` with the
all-zero stream, the placed neighbour sits at horizontal grid distance 11
from its source, exceeding `MAX_JUMP_DISTANCE_TILES = 6` — the failed
check adjusts only the vertical placement and never re-checks the
horizontal distance. -/
theorem c4_counterexample :
    ¬ ∀ (g : PlatformGraph) (seed : Seed)
        (res : List (NodeId × PlatformLayout) × List Placement),
        g.generate_layout seed = some res →
        ∀ p ∈ res.2,
          |p.dstLayout.grid_x - p.srcLayout.grid_x| ≤
              MAX_JUMP_DISTANCE_TILES ∧
            p.dstLayout.grid_y - p.srcLayout.grid_y ≤
              MAX_JUMP_HEIGHT_TILES := by
  intro hAll
  have h := hAll layoutDemoGraph zeroStream layoutDemoRes rfl
    ⟨⟨2, 0, 9, 2⟩, ⟨13, 1, 4, 1⟩⟩ (by decide)
  have hx : ¬ (|(13 : Int) - 2| ≤ MAX_JUMP_DISTANCE_TILES) := by decide
  exact hx h.1

/-- **C4 (amended).** For every graph and every random stream, every
placement `generate_layout` makes keeps the vertical rise within
`MAX_JUMP_HEIGHT_TILES`; when a draw would exceed the limits, only the
vertical placement is pulled back toward the source node's height (the
horizontal distance is not re-checked and may exceed
`MAX_JUMP_DISTANCE_TILES`). -/
theorem c4_layout_vertical_limit (g : PlatformGraph) (seed : Seed)
    (res : List (NodeId × PlatformLayout) × List Placement)
    (h : g.generate_layout seed = some res) :
    ∀ p ∈ res.2,
      (p : Placement).dstLayout.grid_y - p.srcLayout.grid_y ≤
        MAX_JUMP_HEIGHT_TILES :=
  fun p hp => ((generate_layout_spec g seed res h).2.1 p hp).1

theorem c4_layout_vertical_limit_witness :
    layoutDemoGraph.generate_layout zeroStream = some layoutDemoRes ∧
      (⟨⟨2, 0, 9, 2⟩, ⟨13, 1, 4, 1⟩⟩ : Placement).dstLayout.grid_y -
          (⟨⟨2, 0, 9, 2⟩, ⟨13, 1, 4, 1⟩⟩ : Placement).srcLayout.grid_y ≤
        MAX_JUMP_HEIGHT_TILES :=
  ⟨rfl, c4_layout_vertical_limit layoutDemoGraph zeroStream layoutDemoRes rfl
    ⟨⟨2, 0, 9, 2⟩, ⟨13, 1, 4, 1⟩⟩ (by decide)⟩

/-- **C5.** For every graph and every random stream, a successful
`generate_layout` stores the start node at the pinned origin
`(grid_x = 2, grid_y = 0)` and assigns no negative grid row to any node. -/
theorem c5_layout_start_origin_nonneg (g : PlatformGraph) (seed : Seed)
    (res : List (NodeId × PlatformLayout) × List Placement)
    (h : g.generate_layout seed = some res) :
    (∃ w ht, lookupL res.1 g.start = some
        { grid_x := 2, grid_y := 0, width_tiles := w, height_tiles := ht }) ∧
      ∀ kv ∈ res.1, 0 ≤ (kv.2 : PlatformLayout).grid_y := by
  obtain ⟨c1, _, sn, _, hpin⟩ := generate_layout_spec g seed res h
  exact ⟨⟨_, _, hpin⟩, c1⟩

theorem c5_layout_start_origin_nonneg_witness :
    (∃ w ht, lookupL layoutDemoRes.1 layoutDemoGraph.start = some
        { grid_x := 2, grid_y := 0, width_tiles := w, height_tiles := ht }) ∧
      ∀ kv ∈ layoutDemoRes.1, 0 ≤ (kv.2 : PlatformLayout).grid_y :=
  c5_layout_start_origin_nonneg layoutDemoGraph zeroStream layoutDemoRes rfl

end GHF

namespace GHF

/-! ## Generator (generator.rs) -/

/-- `Difficulty` (generator.rs). -/
inductive Difficulty where
  | Easy
  | Medium
  | Hard
deriving DecidableEq, Repr

/-- `Difficulty::chain_length_range` (generator.rs). -/
def Difficulty.chain_length_range : Difficulty → Nat × Nat
  | .Easy => (2, 4)
  | .Medium => (4, 7)
  | .Hard => (7, 12)

/-- `Difficulty::max_fires` (generator.rs). -/
def Difficulty.max_fires : Difficulty → Nat
  | .Easy => 1
  | .Medium => 2
  | .Hard => 4

/-- `GeneratorConfig` (generator.rs); the `u64` seed is identified with
its `StdRng` output stream. -/
structure GeneratorConfig where
  difficulty : Difficulty
  seed : Seed

/-- `CausalityGenerator` (generator.rs). -/
structure CausalityGenerator where
  config : GeneratorConfig
  rng : Rng

/-- `CausalityGenerator::new` (generator.rs). -/
def CausalityGenerator.new (config : GeneratorConfig) : CausalityGenerator :=
  { config := config, rng := Rng.seed_from_u64 config.seed }

/-- The container-fill node `generate_chain` pushes for the second
(`idx = 1`) and first (`idx = 0`) fills (generator.rs). -/
def goalFillNode (goal_node : NodeId) (idx : Nat) : CausalityNode :=
  { effect := .ContainerFilled idx,
    cause := .BucketAt .Water goal_node,
    terrain := .GoalContainer 0 2,
    location := goal_node }

/-- The simple water-pickup node (generator.rs `add_simple_water_source`). -/
def waterSourceNode (loc : NodeId) : CausalityNode :=
  { effect := .WaterBucket, cause := .Player,
    terrain := .WaterSource true, location := loc }

/-- The snow-pickup node (generator.rs `add_fire_conversion_step`). -/
def snowSourceNode (loc : NodeId) : CausalityNode :=
  { effect := .SnowBucket, cause := .Player,
    terrain := .SnowSource, location := loc }

/-- The snow-to-water conversion node (generator.rs
`add_fire_conversion_step`). -/
def fireConversionNode (loc : NodeId) : CausalityNode :=
  { effect := .WaterBucket, cause := .BucketAt .Snow loc,
    terrain := .Fire false, location := loc }

/-- The reachable-from-start, non-goal candidate list both placement
helpers build (generator.rs). -/
def availableNodes (reach : List NodeId) (graph : PlatformGraph) :
    List NodeId :=
  reach.filter (fun n => decide (n ≠ graph.goal))

/-- `CausalityGenerator::add_simple_water_source` (generator.rs).  The
outer `none` models the panics of `reachable_from` (and the unreachable
out-of-range index); `Err` is the generation failure. -/
def add_simple_water_source (gen : CausalityGenerator)
    (chain : CausalityChain) (graph : PlatformGraph) :
    Option (Except String (CausalityChain × CausalityGenerator)) :=
  match graph.reachable_from graph.start with
  | none => none
  | some reach =>
    let available_nodes := availableNodes reach graph
    if available_nodes.isEmpty then
      some (.error "No available nodes for water source")
    else
      let dr := gen.rng.randomBelow available_nodes.length
      match available_nodes[dr.1]? with
      | none => none
      | some node =>
        some (.ok (chain.add_node (waterSourceNode node),
          { gen with rng := dr.2 }))

/-- The `while fire_node == snow_node && available_nodes.len() > 1` redraw
loop of `add_fire_conversion_step` (generator.rs), fuelled: a real RNG
leaves the loop with probability 1, and an execution that exhausts the
fuel (a stream that keeps hitting the snow index) is modelled as `none`
alongside the panics. -/
def redrawFire (available_nodes : List NodeId) (snow_node : NodeId) :
    Nat → NodeId → Rng → Option (NodeId × Rng)
  | fuel, fire_node, rng =>
    if fire_node = snow_node ∧ 1 < available_nodes.length then
      match fuel with
      | 0 => none
      | fuel + 1 =>
        let dr := rng.randomBelow available_nodes.length
        match available_nodes[dr.1]? with
        | none => none
        | some fire_node' =>
          redrawFire available_nodes snow_node fuel fire_node' dr.2
    else some (fire_node, rng)

/-- Fuel for `redrawFire`; any positive bound yields the same set of
successful outcomes up to stream choice. -/
def FIRE_REDRAW_FUEL : Nat := 64

/-- `CausalityGenerator::add_fire_conversion_step` (generator.rs). -/
def add_fire_conversion_step (gen : CausalityGenerator)
    (chain : CausalityChain) (graph : PlatformGraph) :
    Option (Except String (CausalityChain × CausalityGenerator)) :=
  match graph.reachable_from graph.start with
  | none => none
  | some reach =>
    let available_nodes := availableNodes reach graph
    if available_nodes.length < 2 then
      some (.error "Not enough nodes for fire conversion")
    else
      let dr1 := gen.rng.randomBelow available_nodes.length
      match available_nodes[dr1.1]? with
      | none => none
      | some snow_node =>
        let dr2 := dr1.2.randomBelow available_nodes.length
        match available_nodes[dr2.1]? with
        | none => none
        | some fire0 =>
          match redrawFire available_nodes snow_node FIRE_REDRAW_FUEL fire0
              dr2.2 with
          | none => none
          | some (fire_node, rng') =>
            some (.ok
              (((chain.add_node (snowSourceNode snow_node)).add_node
                (fireConversionNode fire_node)),
               { gen with rng := rng' }))

/-- `CausalityGenerator::add_water_source_step` (generator.rs): the
`random_bool(0.3)` draw happens before the difficulty test, so it is
consumed on Easy too. -/
def add_water_source_step (gen : CausalityGenerator)
    (chain : CausalityChain) (graph : PlatformGraph) :
    Option (Except String (CausalityChain × CausalityGenerator)) :=
  let db := gen.rng.randomBool
  let gen := { gen with rng := db.2 }
  if db.1 = true ∧ gen.config.difficulty ≠ Difficulty.Easy then
    add_fire_conversion_step gen chain graph
  else
    add_simple_water_source gen chain graph

/-- `CausalityGenerator::generate_chain` (generator.rs). -/
def CausalityGenerator.generate_chain (gen : CausalityGenerator)
    (graph : PlatformGraph) :
    Option (Except String (CausalityChain × CausalityGenerator)) :=
  let chain := CausalityChain.new (.ContainerFilled 1)
  let goal_node := graph.goal
  let chain := chain.add_node (goalFillNode goal_node 1)
  match add_water_source_step gen chain graph with
  | none => none
  | some (.error e) => some (.error e)
  | some (.ok (chain, gen)) =>
    let chain := chain.add_node (goalFillNode goal_node 0)
    match add_water_source_step gen chain graph with
    | none => none
    | some (.error e) => some (.error e)
    | some (.ok (chain, gen)) => some (.ok (chain, gen))

/-- The footprint fix-up of `apply_chain_to_graph` (generator.rs): a node
receiving a water source gets the minimum 2-tile height and 9-tile width
(written to the write-only `width`/`height` fields). -/
def applyWaterFootprint (node : PlatformNode)
    (terrain_objects : List SmartTerrain) : PlatformNode :=
  if terrain_objects.any SmartTerrain.isWaterSource then
    let node := { node with height := 2 }
    if node.width < 9 * TILE_SIZE then { node with width := 9 * TILE_SIZE }
    else node
  else node

/-- The inner terrain-placement loop of `apply_chain_to_graph`
(generator.rs): goal containers are added only if the node does not
already hold one. -/
def applyTerrainStep (node : PlatformNode) (terrain : SmartTerrain) :
    PlatformNode :=
  if terrain.isGoalContainer then
    if node.terrain_objects.any SmartTerrain.isGoalContainer then node
    else node.add_terrain terrain
  else node.add_terrain terrain

/-- The per-node mutation of `apply_chain_to_graph` (generator.rs). -/
def applyTerrainToNode (node : PlatformNode)
    (terrain_objects : List SmartTerrain) : PlatformNode :=
  terrain_objects.foldl applyTerrainStep
    (applyWaterFootprint node terrain_objects)

/-- The entry loop of `apply_chain_to_graph` (generator.rs): a missing
node id is a recoverable `Err` naming the id (Rust `{:?}` format). -/
def applyEntries (graph : PlatformGraph) :
    List (NodeId × List SmartTerrain) → Except String PlatformGraph
  | [] => .ok graph
  | (node_id, terrain_objects) :: rest =>
    match graph.get_node node_id with
    | none => .error ("Node " ++ node_id.debugStr ++ " not found in graph")
    | some node =>
      applyEntries
        { graph with
          nodes := graph.nodes.set node_id.id
            (applyTerrainToNode node terrain_objects) }
        rest

/-- `CausalityGenerator::apply_chain_to_graph` (generator.rs); `&self` is
unused, so the generator is not a parameter. -/
def CausalityGenerator.apply_chain_to_graph (chain : CausalityChain)
    (graph : PlatformGraph) : Except String PlatformGraph :=
  applyEntries graph chain.terrain_by_location

end GHF

namespace GHF

/-! ## Generator chain structure -/

/-- One water-fetch step materialised as a direct pickup: a single
`waterSourceNode` on a start-reachable non-goal node. -/
def SimpleFetch (graph : PlatformGraph) (w : List CausalityNode) : Prop :=
  ∃ reach loc, graph.reachable_from graph.start = some reach ∧
    loc ∈ reach ∧ loc ≠ graph.goal ∧ w = [waterSourceNode loc]

/-- One water-fetch step materialised as the snow-to-fire conversion: a
snow pickup and a fire melt, both on start-reachable non-goal nodes. -/
def FireFetch (graph : PlatformGraph) (w : List CausalityNode) : Prop :=
  ∃ reach snow fire, graph.reachable_from graph.start = some reach ∧
    snow ∈ reach ∧ snow ≠ graph.goal ∧
    fire ∈ reach ∧ fire ≠ graph.goal ∧
    w = [snowSourceNode snow, fireConversionNode fire]

/-- What one `add_water_source_step` appends: a simple fetch, or — only
off Easy difficulty — a fire conversion. -/
def Fetch (graph : PlatformGraph) (cfg : GeneratorConfig)
    (w : List CausalityNode) : Prop :=
  SimpleFetch graph w ∨
    (cfg.difficulty ≠ Difficulty.Easy ∧ FireFetch graph w)

theorem mem_availableNodes {reach : List NodeId} {graph : PlatformGraph}
    {n : NodeId} :
    n ∈ availableNodes reach graph ↔ n ∈ reach ∧ n ≠ graph.goal := by
  simp [availableNodes]

theorem add_simple_water_source_ok {gen : CausalityGenerator}
    {chain : CausalityChain} {graph : PlatformGraph}
    {chain' : CausalityChain} {gen' : CausalityGenerator}
    (h : add_simple_water_source gen chain graph = some (.ok (chain', gen'))) :
    gen'.config = gen.config ∧
      ∃ loc, SimpleFetch graph [waterSourceNode loc] ∧
        chain' = chain.add_node (waterSourceNode loc) := by
  unfold add_simple_water_source at h
  cases hr : graph.reachable_from graph.start with
  | none => rw [hr] at h; exact absurd h (by simp)
  | some reach =>
    rw [hr] at h
    dsimp only at h
    split at h
    · exact absurd h (by simp)
    · cases hidx : (availableNodes reach graph)[
          (gen.rng.randomBelow (availableNodes reach graph).length).1]? with
      | none => rw [hidx] at h; exact absurd h (by simp)
      | some node =>
        rw [hidx] at h
        simp only [Option.some.injEq, Except.ok.injEq, Prod.mk.injEq] at h
        obtain ⟨hc, hg⟩ := h
        have hmem := mem_availableNodes.mp (List.getElem?_mem hidx)
        exact ⟨hg ▸ rfl, node,
          ⟨reach, node, hr, hmem.1, hmem.2, rfl⟩, hc.symm⟩

theorem add_simple_water_source_err {gen : CausalityGenerator}
    {chain : CausalityChain} {graph : PlatformGraph} {reach : List NodeId}
    (hr : graph.reachable_from graph.start = some reach)
    (he : availableNodes reach graph = []) :
    add_simple_water_source gen chain graph =
      some (.error "No available nodes for water source") := by
  unfold add_simple_water_source
  rw [hr]
  dsimp only
  rw [he]
  rfl

theorem redrawFire_mem {available : List NodeId} {snow : NodeId} :
    ∀ {fuel : Nat} {fire : NodeId} {rng : Rng} {fire' : NodeId} {rng' : Rng},
      fire ∈ available →
      redrawFire available snow fuel fire rng = some (fire', rng') →
      fire' ∈ available := by
  intro fuel
  induction fuel with
  | zero =>
    intro fire rng fire' rng' hm h
    rw [redrawFire] at h
    split at h
    · exact absurd h (by simp)
    · simp only [Option.some.injEq, Prod.mk.injEq] at h
      exact h.1 ▸ hm
  | succ fuel ih =>
    intro fire rng fire' rng' hm h
    rw [redrawFire] at h
    split at h
    · dsimp only at h
      cases hidx : available[(rng.randomBelow available.length).1]? with
      | none => rw [hidx] at h; exact absurd h (by simp)
      | some f1 =>
        rw [hidx] at h
        exact ih (List.getElem?_mem hidx) h
    · simp only [Option.some.injEq, Prod.mk.injEq] at h
      exact h.1 ▸ hm

theorem add_fire_conversion_step_ok {gen : CausalityGenerator}
    {chain : CausalityChain} {graph : PlatformGraph}
    {chain' : CausalityChain} {gen' : CausalityGenerator}
    (h : add_fire_conversion_step gen chain graph = some (.ok (chain', gen'))) :
    gen'.config = gen.config ∧
      ∃ snow fire,
        FireFetch graph [snowSourceNode snow, fireConversionNode fire] ∧
        chain' = (chain.add_node (snowSourceNode snow)).add_node
          (fireConversionNode fire) := by
  unfold add_fire_conversion_step at h
  cases hr : graph.reachable_from graph.start with
  | none => rw [hr] at h; exact absurd h (by simp)
  | some reach =>
    rw [hr] at h
    dsimp only at h
    split at h
    · exact absurd h (by simp)
    · cases hidx1 : (availableNodes reach graph)[
          (gen.rng.randomBelow (availableNodes reach graph).length).1]? with
      | none => rw [hidx1] at h; exact absurd h (by simp)
      | some snow_node =>
        rw [hidx1] at h
        dsimp only at h
        cases hidx2 : (availableNodes reach graph)[
            ((gen.rng.randomBelow (availableNodes reach graph).length).2.randomBelow
              (availableNodes reach graph).length).1]? with
        | none => rw [hidx2] at h; exact absurd h (by simp)
        | some fire0 =>
          rw [hidx2] at h
          dsimp only at h
          cases hrd : redrawFire (availableNodes reach graph) snow_node
              FIRE_REDRAW_FUEL fire0
              ((gen.rng.randomBelow
                (availableNodes reach graph).length).2.randomBelow
                (availableNodes reach graph).length).2 with
          | none => rw [hrd] at h; exact absurd h (by simp)
          | some pr =>
            rw [hrd] at h
            obtain ⟨fire_node, rng'⟩ := pr
            simp only [Option.some.injEq, Except.ok.injEq,
              Prod.mk.injEq] at h
            obtain ⟨hc, hg⟩ := h
            have hsnow := mem_availableNodes.mp (List.getElem?_mem hidx1)
            have hfire := mem_availableNodes.mp
              (redrawFire_mem (List.getElem?_mem hidx2) hrd)
            exact ⟨hg ▸ rfl, snow_node, fire_node,
              ⟨reach, snow_node, fire_node, hr, hsnow.1, hsnow.2,
                hfire.1, hfire.2, rfl⟩, hc.symm⟩

theorem add_fire_conversion_step_err {gen : CausalityGenerator}
    {chain : CausalityChain} {graph : PlatformGraph} {reach : List NodeId}
    (hr : graph.reachable_from graph.start = some reach)
    (hlt : (availableNodes reach graph).length < 2) :
    add_fire_conversion_step gen chain graph =
      some (.error "Not enough nodes for fire conversion") := by
  unfold add_fire_conversion_step
  rw [hr]
  dsimp only
  rw [if_pos hlt]

end GHF

namespace GHF

theorem add_water_source_step_ok {gen : CausalityGenerator}
    {chain : CausalityChain} {graph : PlatformGraph}
    {chain' : CausalityChain} {gen' : CausalityGenerator}
    (h : add_water_source_step gen chain graph = some (.ok (chain', gen'))) :
    gen'.config = gen.config ∧ chain'.goal = chain.goal ∧
      ∃ w, chain'.nodes = chain.nodes ++ w ∧ Fetch graph gen.config w := by
  unfold add_water_source_step at h
  dsimp only at h
  split at h
  · rename_i hcond
    obtain ⟨hcfg, snow, fire, hff, hc⟩ := add_fire_conversion_step_ok h
    refine ⟨hcfg, ?_, [snowSourceNode snow, fireConversionNode fire], ?_, ?_⟩
    · rw [hc]; rfl
    · rw [hc]; simp [CausalityChain.add_node]
    · exact Or.inr ⟨hcond.2, hff⟩
  · obtain ⟨hcfg, loc, hsf, hc⟩ := add_simple_water_source_ok h
    refine ⟨hcfg, ?_, [waterSourceNode loc], ?_, Or.inl hsf⟩
    · rw [hc]; rfl
    · rw [hc]; simp [CausalityChain.add_node]

theorem add_water_source_step_err {gen : CausalityGenerator}
    {chain : CausalityChain} {graph : PlatformGraph} {reach : List NodeId}
    (hr : graph.reachable_from graph.start = some reach)
    (he : availableNodes reach graph = []) :
    ∃ msg, add_water_source_step gen chain graph = some (.error msg) := by
  unfold add_water_source_step
  dsimp only
  split
  · exact ⟨_, add_fire_conversion_step_err hr (by rw [he]; decide)⟩
  · exact ⟨_, add_simple_water_source_err hr he⟩

/-- Structure of every successful `generate_chain` result: the goal effect
is the second fill, and the node list is the second-fill container node,
one fetch, the first-fill container node, and one more fetch. -/
theorem generate_chain_ok {gen : CausalityGenerator} {graph : PlatformGraph}
    {chain : CausalityChain} {gen' : CausalityGenerator}
    (h : gen.generate_chain graph = some (.ok (chain, gen'))) :
    gen'.config = gen.config ∧ chain.goal = Effect.ContainerFilled 1 ∧
      ∃ w1 w2, chain.nodes =
          goalFillNode graph.goal 1 :: (w1 ++ goalFillNode graph.goal 0 :: w2) ∧
        Fetch graph gen.config w1 ∧ Fetch graph gen.config w2 := by
  unfold CausalityGenerator.generate_chain at h
  dsimp only at h
  cases h1 : add_water_source_step gen
      ((CausalityChain.new (Effect.ContainerFilled 1)).add_node
        (goalFillNode graph.goal 1)) graph with
  | none => rw [h1] at h; exact absurd h (by simp)
  | some r1 =>
    rw [h1] at h
    cases r1 with
    | error e => exact absurd h (by simp)
    | ok p1 =>
      obtain ⟨c1, g1⟩ := p1
      dsimp only at h
      cases h2 : add_water_source_step g1
          (c1.add_node (goalFillNode graph.goal 0)) graph with
      | none => rw [h2] at h; exact absurd h (by simp)
      | some r2 =>
        rw [h2] at h
        cases r2 with
        | error e => exact absurd h (by simp)
        | ok p2 =>
          obtain ⟨c2, g2⟩ := p2
          simp only [Option.some.injEq, Except.ok.injEq,
            Prod.mk.injEq] at h
          obtain ⟨hc, hg⟩ := h
          subst hc; subst hg
          obtain ⟨hcfg1, hgoal1, w1, hn1, hf1⟩ := add_water_source_step_ok h1
          obtain ⟨hcfg2, hgoal2, w2, hn2, hf2⟩ := add_water_source_step_ok h2
          refine ⟨hcfg2.trans hcfg1, ?_, w1, w2, ?_, hf1, ?_⟩
          · rw [hgoal2]
            simp only [CausalityChain.add_node] at hgoal1 ⊢
            rw [hgoal1]
            rfl
          · rw [hn2]
            simp only [CausalityChain.add_node]
            rw [hn1]
            simp [CausalityChain.new, CausalityChain.add_node]
          · rw [hcfg1] at hf2
            exact hf2

/-- When no start-reachable non-goal node exists, `generate_chain` fails
with a recoverable error (either helper's message, depending on the
mechanic draw). -/
theorem generate_chain_err {gen : CausalityGenerator} {graph : PlatformGraph}
    {reach : List NodeId}
    (hr : graph.reachable_from graph.start = some reach)
    (he : availableNodes reach graph = []) :
    ∃ msg, gen.generate_chain graph = some (.error msg) := by
  unfold CausalityGenerator.generate_chain
  dsimp only
  obtain ⟨msg, hm⟩ := @add_water_source_step_err gen
    ((CausalityChain.new (Effect.ContainerFilled 1)).add_node
      (goalFillNode graph.goal 1)) graph reach hr he
  rw [hm]
  exact ⟨msg, rfl⟩

end GHF

namespace GHF

theorem Fetch_length {graph : PlatformGraph} {cfg : GeneratorConfig}
    {w : List CausalityNode} (h : Fetch graph cfg w) :
    w.length = 1 ∨ w.length = 2 := by
  rcases h with ⟨_, _, _, _, _, hw⟩ | ⟨_, _, _, _, _, _, _, _, _, hw⟩
  · exact Or.inl (by rw [hw]; rfl)
  · exact Or.inr (by rw [hw]; rfl)

theorem Fetch_easy {graph : PlatformGraph} {cfg : GeneratorConfig}
    {w : List CausalityNode} (hd : cfg.difficulty = Difficulty.Easy)
    (h : Fetch graph cfg w) :
    ∃ loc, loc ≠ graph.goal ∧ w = [waterSourceNode loc] := by
  rcases h with ⟨_, loc, _, _, hg, hw⟩ | ⟨hne, _⟩
  · exact ⟨loc, hg, hw⟩
  · exact absurd hd hne

/-- **C7.** On Easy difficulty every successful chain is fire-free: no
snow-source node, no fire node, and the chain is exactly two container
fills interleaved with two direct water pickups (whose cause is
`Player`) at non-goal nodes. -/
theorem c7_easy_no_fire (gen : CausalityGenerator) (graph : PlatformGraph)
    (chain : CausalityChain) (gen' : CausalityGenerator)
    (hd : gen.config.difficulty = Difficulty.Easy)
    (h : gen.generate_chain graph = some (.ok (chain, gen'))) :
    (∀ n ∈ chain.nodes, n.terrain ≠ SmartTerrain.SnowSource ∧
      ∀ b, n.terrain ≠ SmartTerrain.Fire b) ∧
      ∃ l1 l2, l1 ≠ graph.goal ∧ l2 ≠ graph.goal ∧
        chain.nodes = [goalFillNode graph.goal 1, waterSourceNode l1,
          goalFillNode graph.goal 0, waterSourceNode l2] := by
  obtain ⟨_, _, w1, w2, hn, hf1, hf2⟩ := generate_chain_ok h
  obtain ⟨l1, hl1, hw1⟩ := Fetch_easy hd hf1
  obtain ⟨l2, hl2, hw2⟩ := Fetch_easy hd hf2
  subst hw1; subst hw2
  have hlist : chain.nodes = [goalFillNode graph.goal 1, waterSourceNode l1,
      goalFillNode graph.goal 0, waterSourceNode l2] := by
    rw [hn]; rfl
  refine ⟨?_, l1, l2, hl1, hl2, hlist⟩
  intro n hn'
  rw [hlist] at hn'
  simp only [List.mem_cons, List.not_mem_nil, or_false] at hn'
  rcases hn' with hn' | hn' | hn' | hn' <;> subst hn' <;>
    exact ⟨by simp [goalFillNode, waterSourceNode],
      fun b => by simp [goalFillNode, waterSourceNode]⟩

/-- Forget the generator's configuration, keeping the chain and the
generator stream position: the observable part of a `generate_chain`
result that the configuration could influence. -/
def chainResult
    (r : Option (Except String (CausalityChain × CausalityGenerator))) :
    Option (Except String (CausalityChain × Rng)) :=
  r.map (Except.map (fun p => (p.1, p.2.rng)))

theorem chainResult_eq_cases
    {r1 r2 : Option (Except String (CausalityChain × CausalityGenerator))}
    (h : chainResult r1 = chainResult r2) :
    (r1 = none ∧ r2 = none) ∨
      (∃ e, r1 = some (.error e) ∧ r2 = some (.error e)) ∨
      ∃ c g1 g2, r1 = some (.ok (c, g1)) ∧ r2 = some (.ok (c, g2)) ∧
        g1.rng = g2.rng := by
  unfold chainResult Except.map at h
  match r1, r2 with
  | none, none => exact Or.inl ⟨rfl, rfl⟩
  | none, some v => simp at h
  | some v, none => simp at h
  | some (.error e1), some (.error e2) =>
    simp only [Option.map_some', Option.some.injEq] at h
    cases h
    exact Or.inr (Or.inl ⟨e1, rfl, rfl⟩)
  | some (.error e1), some (.ok p2) =>
    simp at h
  | some (.ok p1), some (.error e2) =>
    simp at h
  | some (.ok (c1, g1)), some (.ok (c2, g2)) =>
    simp only [Option.map_some', Option.some.injEq, Except.ok.injEq,
      Prod.mk.injEq] at h
    exact Or.inr (Or.inr ⟨c1, g1, g2, rfl, by rw [h.1], h.2⟩)

end GHF

namespace GHF

/-- `add_simple_water_source` reads only the stream, the chain and the
graph; the configuration passes through untouched. -/
theorem add_simple_rng_congr (gen1 gen2 : CausalityGenerator)
    (chain : CausalityChain) (graph : PlatformGraph)
    (hr : gen1.rng = gen2.rng) :
    chainResult (add_simple_water_source gen1 chain graph) =
      chainResult (add_simple_water_source gen2 chain graph) := by
  unfold add_simple_water_source
  rw [hr]
  cases hrf : graph.reachable_from graph.start with
  | none => rfl
  | some reach =>
    dsimp only
    split
    · rfl
    · cases hidx : (availableNodes reach graph)[
          (gen2.rng.randomBelow (availableNodes reach graph).length).1]? with
      | none => rfl
      | some node => rfl

/-- `add_fire_conversion_step` likewise never reads the configuration. -/
theorem add_fire_rng_congr (gen1 gen2 : CausalityGenerator)
    (chain : CausalityChain) (graph : PlatformGraph)
    (hr : gen1.rng = gen2.rng) :
    chainResult (add_fire_conversion_step gen1 chain graph) =
      chainResult (add_fire_conversion_step gen2 chain graph) := by
  unfold add_fire_conversion_step
  rw [hr]
  cases hrf : graph.reachable_from graph.start with
  | none => rfl
  | some reach =>
    dsimp only
    split
    · rfl
    · cases hidx : (availableNodes reach graph)[
          (gen2.rng.randomBelow (availableNodes reach graph).length).1]? with
      | none => rfl
      | some snow_node =>
        dsimp only
        cases hidx2 : (availableNodes reach graph)[
            ((gen2.rng.randomBelow
              (availableNodes reach graph).length).2.randomBelow
              (availableNodes reach graph).length).1]? with
        | none => rfl
        | some fire0 =>
          dsimp only
          cases hrd : redrawFire (availableNodes reach graph) snow_node
              FIRE_REDRAW_FUEL fire0
              ((gen2.rng.randomBelow
                (availableNodes reach graph).length).2.randomBelow
                (availableNodes reach graph).length).2 with
          | none => rfl
          | some pr => rfl

/-- Off Easy difficulty, `add_water_source_step`'s only configuration
read — the Easy test — is constant, so results agree stream-for-stream. -/
theorem add_water_rng_congr (gen1 gen2 : CausalityGenerator)
    (chain : CausalityChain) (graph : PlatformGraph)
    (hr : gen1.rng = gen2.rng)
    (h1 : gen1.config.difficulty ≠ Difficulty.Easy)
    (h2 : gen2.config.difficulty ≠ Difficulty.Easy) :
    chainResult (add_water_source_step gen1 chain graph) =
      chainResult (add_water_source_step gen2 chain graph) := by
  unfold add_water_source_step
  dsimp only
  rw [hr]
  by_cases hb : (gen2.rng.randomBool).1 = true
  · rw [if_pos ⟨hb, h1⟩, if_pos ⟨hb, h2⟩]
    exact add_fire_rng_congr _ _ _ _ rfl
  · rw [if_neg (fun hc => hb hc.1), if_neg (fun hc => hb hc.1)]
    exact add_simple_rng_congr _ _ _ _ rfl

/-- Medium and Hard configurations drive `generate_chain` identically:
the difficulty is consulted only for the Easy test, and
`chain_length_range`/`max_fires` are never consulted. -/
theorem generate_chain_medium_hard (s : Seed) (graph : PlatformGraph) :
    chainResult ((CausalityGenerator.new
        { difficulty := .Medium, seed := s }).generate_chain graph) =
      chainResult ((CausalityGenerator.new
        { difficulty := .Hard, seed := s }).generate_chain graph) := by
  unfold CausalityGenerator.generate_chain
  dsimp only
  have hs1 := add_water_rng_congr
    (CausalityGenerator.new { difficulty := .Medium, seed := s })
    (CausalityGenerator.new { difficulty := .Hard, seed := s })
    ((CausalityChain.new (Effect.ContainerFilled 1)).add_node
      (goalFillNode graph.goal 1)) graph rfl (fun hh => nomatch hh)
    (fun hh => nomatch hh)
  rcases chainResult_eq_cases hs1 with ⟨hn1, hn2⟩ | ⟨e, he1, he2⟩ |
    ⟨c, g1, g2, ho1, ho2, hrg⟩
  · rw [hn1, hn2]
  · rw [he1, he2]
  · rw [ho1, ho2]
    dsimp only
    have hc1 := (add_water_source_step_ok ho1).1
    have hc2 := (add_water_source_step_ok ho2).1
    have hs2 := add_water_rng_congr g1 g2
      (c.add_node (goalFillNode graph.goal 0)) graph hrg
      (by rw [hc1]; exact fun hh => nomatch hh)
      (by rw [hc2]; exact fun hh => nomatch hh)
    rcases chainResult_eq_cases hs2 with ⟨hn1, hn2⟩ | ⟨e, he1, he2⟩ |
      ⟨c2, g1', g2', ho1', ho2', hrg'⟩
    · rw [hn1, hn2]
    · rw [he1, he2]
    · rw [ho1', ho2']
      unfold chainResult Except.map
      simp only [Option.map_some', Option.some.injEq, Except.ok.injEq,
        Prod.mk.injEq]
      exact ⟨trivial, hrg'⟩

end GHF

namespace GHF

/-- The linear template seeded with the all-zero stream (5 nodes, goal
`NodeId(4)`). -/
def linearDemoGraph : PlatformGraph := create_linear_template (some zeroStream)

/-- An Easy generator over the all-zero stream. -/
def easyDemoGen : CausalityGenerator :=
  CausalityGenerator.new { difficulty := .Easy, seed := zeroStream }

/-- The chain `easyDemoGen` generates on `linearDemoGraph`: both fetches
resolve to direct water pickups at the start node. -/
def easyDemoChain : CausalityChain :=
  { nodes := [goalFillNode ⟨4⟩ 1, waterSourceNode ⟨0⟩,
      goalFillNode ⟨4⟩ 0, waterSourceNode ⟨0⟩],
    goal := .ContainerFilled 1 }

/-- The generator state after `easyDemoChain`: four draws consumed. -/
def easyDemoGen' : CausalityGenerator :=
  { config := { difficulty := .Easy, seed := zeroStream },
    rng := { stream := zeroStream, idx := 4 } }

theorem easyDemo_eval :
    easyDemoGen.generate_chain linearDemoGraph =
      some (.ok (easyDemoChain, easyDemoGen')) := rfl

theorem c7_easy_no_fire_witness :
    (∀ n ∈ easyDemoChain.nodes, n.terrain ≠ SmartTerrain.SnowSource ∧
      ∀ b, n.terrain ≠ SmartTerrain.Fire b) ∧
      ∃ l1 l2, l1 ≠ linearDemoGraph.goal ∧ l2 ≠ linearDemoGraph.goal ∧
        easyDemoChain.nodes = [goalFillNode linearDemoGraph.goal 1,
          waterSourceNode l1, goalFillNode linearDemoGraph.goal 0,
          waterSourceNode l2] :=
  c7_easy_no_fire easyDemoGen linearDemoGraph easyDemoChain easyDemoGen'
    rfl rfl

/-- **C10.** Every successful chain has exactly 4, 5 or 6 nodes for every
difficulty and stream (4 on Easy), always below Hard's declared
`chain_length_range` lower bound of 7 — and Medium and Hard configurations
produce identical results stream-for-stream, because the declared ranges
and fire caps are never consulted. -/
theorem c10_chain_length_and_ranges :
    (∀ (gen : CausalityGenerator) (graph : PlatformGraph)
        (chain : CausalityChain) (gen' : CausalityGenerator),
        gen.generate_chain graph = some (.ok (chain, gen')) →
        (chain.nodes.length = 4 ∨ chain.nodes.length = 5 ∨
            chain.nodes.length = 6) ∧
          (gen.config.difficulty = Difficulty.Easy →
            chain.nodes.length = 4) ∧
          chain.nodes.length < (Difficulty.chain_length_range .Hard).1) ∧
      ∀ (s : Seed) (graph : PlatformGraph),
        chainResult ((CausalityGenerator.new
            { difficulty := .Medium, seed := s }).generate_chain graph) =
          chainResult ((CausalityGenerator.new
            { difficulty := .Hard, seed := s }).generate_chain graph) := by
  refine ⟨?_, generate_chain_medium_hard⟩
  intro gen graph chain gen' h
  obtain ⟨_, _, w1, w2, hn, hf1, hf2⟩ := generate_chain_ok h
  have hlen : chain.nodes.length = 2 + w1.length + w2.length := by
    rw [hn]
    simp [List.length_append]
    omega
  have hr : (Difficulty.chain_length_range .Hard).1 = 7 := rfl
  have h1 := Fetch_length hf1
  have h2 := Fetch_length hf2
  refine ⟨by omega, ?_, by omega⟩
  intro hd
  obtain ⟨l1, _, hw1⟩ := Fetch_easy hd hf1
  obtain ⟨l2, _, hw2⟩ := Fetch_easy hd hf2
  subst hw1; subst hw2
  simp at hlen
  omega

theorem c10_chain_length_and_ranges_witness :
    easyDemoChain.nodes.length = 4 ∧
      easyDemoChain.nodes.length <
        (Difficulty.chain_length_range Difficulty.Hard).1 :=
  ⟨(c10_chain_length_and_ranges.1 easyDemoGen linearDemoGraph easyDemoChain
      easyDemoGen' rfl).2.1 rfl,
   (c10_chain_length_and_ranges.1 easyDemoGen linearDemoGraph easyDemoChain
      easyDemoGen' rfl).2.2⟩

end GHF

namespace GHF

/-! ## Goal-container accounting for `apply_chain_to_graph` -/

/-- Number of goal containers among a node's terrain objects. -/
def countGC (node : PlatformNode) : Nat :=
  (node.terrain_objects.filter SmartTerrain.isGoalContainer).length

theorem countGC_eq_zero_iff {node : PlatformNode} :
    countGC node = 0 ↔
      node.terrain_objects.any SmartTerrain.isGoalContainer = false := by
  simp [countGC, List.length_eq_zero, List.filter_eq_nil_iff,
    List.any_eq_false]

theorem countGC_add_terrain (node : PlatformNode) (t : SmartTerrain) :
    countGC (node.add_terrain t) =
      countGC node + (if t.isGoalContainer then 1 else 0) := by
  simp only [countGC, PlatformNode.add_terrain, List.filter_append]
  cases h : t.isGoalContainer <;> simp [h]

theorem countGC_applyTerrainStep (node : PlatformNode) (t : SmartTerrain) :
    countGC (applyTerrainStep node t) =
      if t.isGoalContainer = true ∧ countGC node = 0 then 1
      else countGC node := by
  unfold applyTerrainStep
  by_cases hgc : t.isGoalContainer = true
  · rw [if_pos hgc]
    by_cases hany : node.terrain_objects.any SmartTerrain.isGoalContainer =
        true
    · have h0 : countGC node ≠ 0 := by
        intro hc
        rw [countGC_eq_zero_iff] at hc
        rw [hc] at hany
        exact absurd hany (by decide)
      rw [if_pos hany, if_neg (fun hc => h0 hc.2)]
    · have hany2 : node.terrain_objects.any SmartTerrain.isGoalContainer =
          false := by simpa using hany
      have h0 : countGC node = 0 := countGC_eq_zero_iff.mpr hany2
      rw [if_neg hany, countGC_add_terrain, if_pos hgc,
        if_pos ⟨hgc, h0⟩, h0]
  · rw [if_neg hgc, countGC_add_terrain, if_neg hgc,
      if_neg (fun hc => hgc hc.1)]
    omega

theorem countGC_foldl :
    ∀ (ts : List SmartTerrain) (node : PlatformNode),
      countGC (ts.foldl applyTerrainStep node) =
        if ts.any SmartTerrain.isGoalContainer = true ∧ countGC node = 0
        then 1 else countGC node := by
  intro ts
  induction ts with
  | nil => intro node; simp
  | cons t ts ih =>
    intro node
    rw [List.foldl_cons, ih]
    by_cases h1 : t.isGoalContainer = true
    · by_cases h2 : countGC node = 0
      · simp [countGC_applyTerrainStep, h1, h2, List.any_cons]
      · simp [countGC_applyTerrainStep, h1, h2, List.any_cons]
    · by_cases h2 : countGC node = 0
      · simp [countGC_applyTerrainStep, h1, h2, List.any_cons]
      · simp [countGC_applyTerrainStep, h1, h2, List.any_cons]

theorem countGC_applyWaterFootprint (node : PlatformNode)
    (ts : List SmartTerrain) :
    countGC (applyWaterFootprint node ts) = countGC node := by
  unfold applyWaterFootprint
  split
  · dsimp only
    split <;> rfl
  · rfl

theorem countGC_applyTerrainToNode (node : PlatformNode)
    (ts : List SmartTerrain) :
    countGC (applyTerrainToNode node ts) =
      if ts.any SmartTerrain.isGoalContainer = true ∧ countGC node = 0
      then 1 else countGC node := by
  unfold applyTerrainToNode
  rw [countGC_foldl, countGC_applyWaterFootprint]

end GHF

namespace GHF

/-! ## `apply_chain_to_graph` entry processing -/

theorem get_node_set_none_iff (g : PlatformGraph) (i : Nat)
    (n : PlatformNode) (id : NodeId) :
    ({ g with nodes := g.nodes.set i n } : PlatformGraph).get_node id =
        none ↔
      g.get_node id = none := by
  unfold PlatformGraph.get_node
  simp [List.getElem?_eq_none_iff]

/-- Entries whose keys avoid `id` leave the node at `id` untouched. -/
theorem applyEntries_get_other :
    ∀ (entries : List (NodeId × List SmartTerrain))
      (graph graph' : PlatformGraph),
      applyEntries graph entries = .ok graph' →
      ∀ id : NodeId, (∀ kv ∈ entries, kv.1 ≠ id) →
        graph'.get_node id = graph.get_node id := by
  intro entries
  induction entries with
  | nil =>
    intro graph graph' h id _
    rw [applyEntries] at h
    cases h
    rfl
  | cons kv rest ih =>
    intro graph graph' h id hne
    obtain ⟨k, ts⟩ := kv
    rw [applyEntries] at h
    cases hg : graph.get_node k with
    | none => rw [hg] at h; exact absurd h (by simp)
    | some node =>
      rw [hg] at h
      dsimp only at h
      have hk : k ≠ id := hne (k, ts) (List.mem_cons_self _ _)
      have hrest := ih _ _ h id
        (fun kv hkv => hne kv (List.mem_cons_of_mem _ hkv))
      rw [hrest]
      unfold PlatformGraph.get_node
      dsimp only
      rw [List.getElem?_set_ne (fun hc => hk (NodeId.eq_of_id _ _ hc))]

/-- With pairwise-distinct keys, each entry's node ends up exactly as
`applyTerrainToNode` leaves it, starting from the original graph's node. -/
theorem applyEntries_get_entry :
    ∀ (entries : List (NodeId × List SmartTerrain))
      (graph graph' : PlatformGraph),
      applyEntries graph entries = .ok graph' →
      (entries.map Prod.fst).Nodup →
      ∀ k ts, (k, ts) ∈ entries →
        ∃ node, graph.get_node k = some node ∧
          graph'.get_node k = some (applyTerrainToNode node ts) := by
  intro entries
  induction entries with
  | nil =>
    intro graph graph' h _ k ts hmem
    simp at hmem
  | cons kv rest ih =>
    intro graph graph' h hnd k ts hmem
    obtain ⟨k0, ts0⟩ := kv
    rw [applyEntries] at h
    cases hg : graph.get_node k0 with
    | none => rw [hg] at h; exact absurd h (by simp)
    | some node0 =>
      rw [hg] at h
      dsimp only at h
      simp only [List.map_cons, List.nodup_cons, List.mem_map] at hnd
      rcases List.mem_cons.mp hmem with heq | htail
      · obtain ⟨hk, hts⟩ := Prod.mk.injEq .. ▸ heq
        subst hk; subst hts
        refine ⟨node0, hg, ?_⟩
        have hother := applyEntries_get_other rest _ _ h k
          (fun kv hkv hc => hnd.1 ⟨kv, hkv, hc⟩)
        rw [hother]
        unfold PlatformGraph.get_node
        dsimp only
        have hlt : k.id < graph.nodes.length := by
          have := hg
          unfold PlatformGraph.get_node at this
          exact (List.getElem?_eq_some.mp this).1
        rw [List.getElem?_set_self hlt]
      · have hk0 : k0 ≠ k := by
          intro hc
          subst hc
          exact hnd.1 ⟨(k0, ts), htail, rfl⟩
        obtain ⟨node, hget, hget'⟩ := ih _ _ h hnd.2 k ts htail
        refine ⟨node, ?_, hget'⟩
        unfold PlatformGraph.get_node at hget ⊢
        dsimp only at hget
        rw [List.getElem?_set_ne
          (fun hc => hk0 (NodeId.eq_of_id _ _ hc))] at hget
        exact hget

/-- A failing `applyEntries` names a chain node id missing from the
graph. -/
theorem applyEntries_err :
    ∀ (entries : List (NodeId × List SmartTerrain))
      (graph : PlatformGraph) (msg : String),
      applyEntries graph entries = .error msg →
      ∃ id ts, (id, ts) ∈ entries ∧ graph.get_node id = none ∧
        msg = "Node " ++ id.debugStr ++ " not found in graph" := by
  intro entries
  induction entries with
  | nil =>
    intro graph msg h
    rw [applyEntries] at h
    exact absurd h (by simp)
  | cons kv rest ih =>
    intro graph msg h
    obtain ⟨k, ts⟩ := kv
    rw [applyEntries] at h
    cases hg : graph.get_node k with
    | none =>
      rw [hg] at h
      simp only [Except.error.injEq] at h
      exact ⟨k, ts, List.mem_cons_self _ _, hg, h.symm⟩
    | some node =>
      rw [hg] at h
      dsimp only at h
      obtain ⟨id, ts', hmem, hnone, hmsg⟩ := ih _ _ h
      exact ⟨id, ts', List.mem_cons_of_mem _ hmem,
        (get_node_set_none_iff _ _ _ _).mp hnone, hmsg⟩

/-- Conversely, a chain referencing a missing node id makes
`applyEntries` fail with the message naming such an id. -/
theorem applyEntries_missing :
    ∀ (entries : List (NodeId × List SmartTerrain))
      (graph : PlatformGraph),
      (∃ kv ∈ entries, graph.get_node kv.1 = none) →
      ∃ id, graph.get_node id = none ∧ (∃ ts, (id, ts) ∈ entries) ∧
        applyEntries graph entries =
          .error ("Node " ++ id.debugStr ++ " not found in graph") := by
  intro entries
  induction entries with
  | nil =>
    intro graph h
    simp at h
  | cons kv rest ih =>
    intro graph h
    obtain ⟨k, ts⟩ := kv
    cases hg : graph.get_node k with
    | none =>
      refine ⟨k, hg, ⟨ts, List.mem_cons_self _ _⟩, ?_⟩
      rw [applyEntries, hg]
    | some node =>
      obtain ⟨kv', hkv', hnone'⟩ := h
      rcases List.mem_cons.mp hkv' with heq | htail
      · rw [heq] at hnone'
        rw [hnone'] at hg
        exact absurd hg (by simp)
      · obtain ⟨id, hidnone, ⟨ts', hts'⟩, herr⟩ := ih
          { graph with
            nodes := graph.nodes.set k.id (applyTerrainToNode node ts) }
          ⟨kv', htail, (get_node_set_none_iff _ _ _ _).mpr hnone'⟩
        refine ⟨id, (get_node_set_none_iff _ _ _ _).mp hidnone,
          ⟨ts', List.mem_cons_of_mem _ hts'⟩, ?_⟩
        rw [applyEntries, hg]
        exact herr

end GHF

namespace GHF

/-! ## `terrain_by_location` contents -/

/-- Keys of the grouped terrain map, in insertion order. -/
def keysOf (m : List (NodeId × List SmartTerrain)) : List NodeId :=
  m.map Prod.fst

/-- First-match lookup of a key's terrain list (`[]` when absent). -/
def entryList (m : List (NodeId × List SmartTerrain)) (k : NodeId) :
    List SmartTerrain :=
  match m with
  | [] => []
  | (k', ts) :: rest => if k' = k then ts else entryList rest k

theorem entryList_terrainGroupInsert
    (m : List (NodeId × List SmartTerrain)) (loc : NodeId)
    (t : SmartTerrain) (k : NodeId) :
    entryList (terrainGroupInsert m loc t) k =
      if loc = k then entryList m k ++ [t] else entryList m k := by
  induction m with
  | nil =>
    by_cases hl : loc = k <;> simp [terrainGroupInsert, entryList, hl]
  | cons kv rest ih =>
    obtain ⟨k0, ts0⟩ := kv
    rw [terrainGroupInsert]
    by_cases h0 : k0 = loc
    · subst h0
      by_cases hl : k0 = k
      · subst hl
        simp [entryList]
      · simp [entryList, hl]
    · rw [if_neg h0]
      by_cases hl : k0 = k
      · subst hl
        have hne : ¬ loc = k0 := fun hc => h0 hc.symm
        simp [entryList, hne]
      · simp only [entryList, if_neg hl, ih]

theorem keysOf_terrainGroupInsert
    (m : List (NodeId × List SmartTerrain)) (loc : NodeId)
    (t : SmartTerrain) :
    keysOf (terrainGroupInsert m loc t) =
      if loc ∈ keysOf m then keysOf m else keysOf m ++ [loc] := by
  induction m with
  | nil => simp [terrainGroupInsert, keysOf]
  | cons kv rest ih =>
    obtain ⟨k0, ts0⟩ := kv
    rw [terrainGroupInsert]
    by_cases h0 : k0 = loc
    · subst h0
      simp [keysOf]
    · rw [if_neg h0]
      have hne : loc ≠ k0 := fun hc => h0 hc.symm
      simp only [keysOf, List.map_cons, List.mem_cons] at ih ⊢
      rw [ih]
      by_cases hm : loc ∈ List.map Prod.fst rest
      · simp [hm, hne]
      · simp [hm, hne]

theorem keysOf_nodup_terrainGroupInsert
    {m : List (NodeId × List SmartTerrain)} {loc : NodeId}
    {t : SmartTerrain} (h : (keysOf m).Nodup) :
    (keysOf (terrainGroupInsert m loc t)).Nodup := by
  rw [keysOf_terrainGroupInsert]
  split
  · exact h
  · rename_i hm
    simp [List.nodup_append, h, hm]

theorem terrain_by_location_keys_nodup (c : CausalityChain) :
    (keysOf c.terrain_by_location).Nodup := by
  unfold CausalityChain.terrain_by_location
  have : ∀ (nodes : List CausalityNode)
      (m : List (NodeId × List SmartTerrain)), (keysOf m).Nodup →
      (keysOf (nodes.foldl
        (fun m node => terrainGroupInsert m node.location node.terrain)
        m)).Nodup := by
    intro nodes
    induction nodes with
    | nil => intro m hm; exact hm
    | cons n nodes ih =>
      intro m hm
      rw [List.foldl_cons]
      exact ih _ (keysOf_nodup_terrainGroupInsert hm)
  exact this c.nodes [] (by simp [keysOf])

theorem entryList_foldl (nodes : List CausalityNode) :
    ∀ (m : List (NodeId × List SmartTerrain)) (k : NodeId),
      entryList (nodes.foldl
          (fun m node => terrainGroupInsert m node.location node.terrain)
          m) k =
        entryList m k ++
          (nodes.filter (fun n => decide (n.location = k))).map
            (fun n => n.terrain) := by
  induction nodes with
  | nil => intro m k; simp
  | cons n nodes ih =>
    intro m k
    rw [List.foldl_cons]
    rw [ih, entryList_terrainGroupInsert]
    by_cases hl : n.location = k
    · simp [List.filter_cons, hl]
    · simp [List.filter_cons, hl]

/-- The terrain placed at node `k` is exactly the chain's terrain at
location `k`, in storage order. -/
theorem terrain_by_location_entryList (c : CausalityChain) (k : NodeId) :
    entryList c.terrain_by_location k =
      (c.nodes.filter (fun n => decide (n.location = k))).map
        (fun n => n.terrain) := by
  unfold CausalityChain.terrain_by_location
  rw [entryList_foldl]
  rfl

theorem mem_keysOf_of_entryList_ne
    {m : List (NodeId × List SmartTerrain)} {k : NodeId}
    (h : entryList m k ≠ []) : k ∈ keysOf m := by
  induction m with
  | nil => exact absurd rfl h
  | cons kv rest ih =>
    obtain ⟨k0, ts0⟩ := kv
    rw [entryList] at h
    by_cases h0 : k0 = k
    · subst h0
      exact List.mem_cons_self _ _
    · rw [if_neg h0] at h
      exact List.mem_cons_of_mem _ (ih h)

theorem entry_mem_of_mem_keysOf
    {m : List (NodeId × List SmartTerrain)} {k : NodeId}
    (h : k ∈ keysOf m) : (k, entryList m k) ∈ m := by
  induction m with
  | nil => simp [keysOf] at h
  | cons kv rest ih =>
    obtain ⟨k0, ts0⟩ := kv
    by_cases h0 : k0 = k
    · subst h0
      rw [entryList, if_pos rfl]
      exact List.mem_cons_self _ _
    · rw [entryList, if_neg h0]
      simp only [keysOf, List.map_cons, List.mem_cons] at h
      rcases h with h | h
      · exact absurd h.symm h0
      · exact List.mem_cons_of_mem _ (ih h)

end GHF

namespace GHF

theorem Fetch_nodes {graph : PlatformGraph} {cfg : GeneratorConfig}
    {w : List CausalityNode} (h : Fetch graph cfg w) :
    ∀ n ∈ w,
      (∃ reach, graph.reachable_from graph.start = some reach ∧
        n.location ∈ reach ∧ n.location ≠ graph.goal) ∧
        n.terrain.isGoalContainer = false := by
  rcases h with ⟨reach, loc, hr, hm, hg, hw⟩ |
    ⟨_, reach, snow, fire, hr, hm1, hg1, hm2, hg2, hw⟩
  · subst hw
    intro n hn
    simp only [List.mem_singleton] at hn
    subst hn
    exact ⟨⟨reach, hr, hm, hg⟩, rfl⟩
  · subst hw
    intro n hn
    simp only [List.mem_cons, List.not_mem_nil, or_false] at hn
    rcases hn with hn | hn <;> subst hn
    · exact ⟨⟨reach, hr, hm1, hg1⟩, rfl⟩
    · exact ⟨⟨reach, hr, hm2, hg2⟩, rfl⟩

/-- Every fetch node is a water, snow or fire step. -/
theorem Fetch_nodes_terrain {graph : PlatformGraph} {cfg : GeneratorConfig}
    {w : List CausalityNode} (h : Fetch graph cfg w) :
    ∀ n ∈ w,
      n.terrain = SmartTerrain.WaterSource true ∨
        n.terrain = SmartTerrain.SnowSource ∨
        n.terrain = SmartTerrain.Fire false := by
  rcases h with ⟨reach, loc, hr, hm, hg, hw⟩ |
    ⟨_, reach, snow, fire, hr, hm1, hg1, hm2, hg2, hw⟩
  · subst hw
    intro n hn
    simp only [List.mem_singleton] at hn
    subst hn
    exact Or.inl rfl
  · subst hw
    intro n hn
    simp only [List.mem_cons, List.not_mem_nil, or_false] at hn
    rcases hn with hn | hn <;> subst hn
    · exact Or.inr (Or.inl rfl)
    · exact Or.inr (Or.inr rfl)

/-- **C9.** Every chain node is either a container-fill step at the goal,
or a water/snow/fire placement whose location is start-reachable and not
the goal; an empty candidate set ends `generate_chain` in a recoverable
error; under two candidates the fire mechanic errors; and
`apply_chain_to_graph` fails exactly on chain node ids missing from the
graph, naming the id in the message. -/
theorem c9_error_handling :
    (∀ (gen : CausalityGenerator) (graph : PlatformGraph)
        (chain : CausalityChain) (gen' : CausalityGenerator)
        (node : CausalityNode),
        gen.generate_chain graph = some (.ok (chain, gen')) →
        node ∈ chain.nodes →
        (node.terrain = SmartTerrain.GoalContainer 0 2 ∧
          node.location = graph.goal) ∨
          ((node.terrain = SmartTerrain.WaterSource true ∨
            node.terrain = SmartTerrain.SnowSource ∨
            node.terrain = SmartTerrain.Fire false) ∧
            ∃ reach, graph.reachable_from graph.start = some reach ∧
              node.location ∈ reach ∧ node.location ≠ graph.goal)) ∧
      (∀ (gen : CausalityGenerator) (graph : PlatformGraph)
          (reach : List NodeId),
          graph.reachable_from graph.start = some reach →
          availableNodes reach graph = [] →
          ∃ msg, gen.generate_chain graph = some (.error msg)) ∧
      (∀ (gen : CausalityGenerator) (chain : CausalityChain)
          (graph : PlatformGraph) (reach : List NodeId),
          graph.reachable_from graph.start = some reach →
          (availableNodes reach graph).length < 2 →
          add_fire_conversion_step gen chain graph =
            some (.error "Not enough nodes for fire conversion")) ∧
      (∀ (chain : CausalityChain) (graph : PlatformGraph) (msg : String),
          CausalityGenerator.apply_chain_to_graph chain graph =
            .error msg →
          ∃ id ts, (id, ts) ∈ chain.terrain_by_location ∧
            graph.get_node id = none ∧
            msg = "Node " ++ id.debugStr ++ " not found in graph") ∧
      ∀ (chain : CausalityChain) (graph : PlatformGraph),
        (∃ kv ∈ chain.terrain_by_location, graph.get_node kv.1 = none) →
        ∃ id, graph.get_node id = none ∧
          CausalityGenerator.apply_chain_to_graph chain graph =
            .error ("Node " ++ id.debugStr ++ " not found in graph") := by
  refine ⟨?_, fun gen graph reach hr he => generate_chain_err hr he,
    fun gen chain graph reach hr hlt =>
      add_fire_conversion_step_err hr hlt,
    fun chain graph msg h => applyEntries_err _ _ _ h, ?_⟩
  · intro gen graph chain gen' node h hmem
    obtain ⟨_, _, w1, w2, hn, hf1, hf2⟩ := generate_chain_ok h
    rw [hn] at hmem
    rcases List.mem_cons.mp hmem with heq | hmem
    · subst heq; exact Or.inl ⟨rfl, rfl⟩
    · rcases List.mem_append.mp hmem with hw | hmem2
      · exact Or.inr ⟨Fetch_nodes_terrain hf1 node hw,
          (Fetch_nodes hf1 node hw).1⟩
      · rcases List.mem_cons.mp hmem2 with heq | hw
        · subst heq; exact Or.inl ⟨rfl, rfl⟩
        · exact Or.inr ⟨Fetch_nodes_terrain hf2 node hw,
            (Fetch_nodes hf2 node hw).1⟩
  · intro chain graph hex
    obtain ⟨id, hnone, _, herr⟩ := applyEntries_missing _ _ hex
    exact ⟨id, hnone, herr⟩

/-- A one-node graph whose single node is both start and goal: no
candidate placement nodes exist. -/
def oneNodeGraph : PlatformGraph :=
  { nodes := [PlatformNode.new], start := ⟨0⟩, goal := ⟨0⟩ }

theorem c9_error_handling_witness :
    add_fire_conversion_step easyDemoGen
        (CausalityChain.new (.ContainerFilled 1)) oneNodeGraph =
      some (.error "Not enough nodes for fire conversion") :=
  c9_error_handling.2.2.1 easyDemoGen
    (CausalityChain.new (.ContainerFilled 1)) oneNodeGraph [⟨0⟩] rfl
    (by decide)

end GHF

namespace GHF

/-- **C8.** When the graph holds no prior goal container, a generated
chain carries exactly two container-fill steps (both at the goal), yet a
successful `apply_chain_to_graph` leaves exactly one `GoalContainer` in
the goal node's terrain objects — the duplicate insertion is skipped. -/
theorem c8_single_goal_container (gen : CausalityGenerator)
    (graph : PlatformGraph) (chain : CausalityChain)
    (gen' : CausalityGenerator) (graph' : PlatformGraph)
    (hclean : ∀ node ∈ graph.nodes, countGC node = 0)
    (hchain : gen.generate_chain graph = some (.ok (chain, gen')))
    (happly : CausalityGenerator.apply_chain_to_graph chain graph =
      .ok graph') :
    (chain.nodes.filter
        (fun n => n.terrain.isGoalContainer)).length = 2 ∧
      ∃ node, graph'.get_node graph.goal = some node ∧
        countGC node = 1 := by
  obtain ⟨_, _, w1, w2, hn, hf1, hf2⟩ := generate_chain_ok hchain
  have hw1 := Fetch_nodes hf1
  have hw2 := Fetch_nodes hf2
  have hfil1 : w1.filter (fun n => n.terrain.isGoalContainer) = [] :=
    List.filter_eq_nil_iff.mpr (fun n hn => by simp [(hw1 n hn).2])
  have hfil2 : w2.filter (fun n => n.terrain.isGoalContainer) = [] :=
    List.filter_eq_nil_iff.mpr (fun n hn => by simp [(hw2 n hn).2])
  have hloc1 : w1.filter (fun n => decide (n.location = graph.goal)) = [] :=
    List.filter_eq_nil_iff.mpr (fun n hn => by
      obtain ⟨⟨reach, _, _, hgol⟩, _⟩ := hw1 n hn
      simp [hgol])
  have hloc2 : w2.filter (fun n => decide (n.location = graph.goal)) = [] :=
    List.filter_eq_nil_iff.mpr (fun n hn => by
      obtain ⟨⟨reach, _, _, hgol⟩, _⟩ := hw2 n hn
      simp [hgol])
  constructor
  · rw [hn]
    rw [List.filter_cons, List.filter_append, List.filter_cons,
      hfil1, hfil2]
    simp [goalFillNode, SmartTerrain.isGoalContainer]
  · have hEL : entryList chain.terrain_by_location graph.goal =
        [SmartTerrain.GoalContainer 0 2, SmartTerrain.GoalContainer 0 2] := by
      rw [terrain_by_location_entryList, hn]
      rw [List.filter_cons, List.filter_append, List.filter_cons,
        hloc1, hloc2]
      simp [goalFillNode]
    have hmemk : graph.goal ∈ keysOf chain.terrain_by_location :=
      mem_keysOf_of_entryList_ne (by rw [hEL]; simp)
    have hentry := entry_mem_of_mem_keysOf hmemk
    rw [hEL] at hentry
    obtain ⟨node, hget, hget'⟩ := applyEntries_get_entry _ _ _ happly
      (terrain_by_location_keys_nodup chain) _ _ hentry
    refine ⟨_, hget', ?_⟩
    have h0 : countGC node = 0 := hclean node (List.getElem?_mem hget)
    rw [countGC_applyTerrainToNode]
    rw [if_pos ⟨by decide, h0⟩]

/-- `linearDemoGraph` after applying `easyDemoChain` (total function via
the error fallback, which the evaluation does not hit). -/
def appliedDemoGraph : PlatformGraph :=
  match CausalityGenerator.apply_chain_to_graph easyDemoChain
      linearDemoGraph with
  | .ok g => g
  | .error _ => PlatformGraph.new ⟨0⟩ ⟨0⟩

theorem c8_single_goal_container_witness :
    ∃ node, appliedDemoGraph.get_node linearDemoGraph.goal = some node ∧
      countGC node = 1 :=
  (c8_single_goal_container easyDemoGen linearDemoGraph easyDemoChain
    easyDemoGen' appliedDemoGraph (by decide) rfl rfl).2

end GHF

namespace GHF

/-! ## Generation pipeline (mod.rs `generate_procedural_level`, one
retry-loop attempt) -/

/-- The three-template table Easy non-first levels draw from (mod.rs);
only the linear template consumes the seed. -/
def easyTemplateAt (i : Nat) (s : Seed) : PlatformGraph :=
  match i with
  | 0 => create_linear_template (some s)
  | 1 => create_zigzag_template
  | _ => create_ground_and_floating_template

/-- The five-template table Medium and Hard levels draw from (mod.rs). -/
def templateAt (i : Nat) (s : Seed) : PlatformGraph :=
  match i with
  | 0 => create_linear_template (some s)
  | 1 => create_branching_template
  | 2 => create_cul_de_sac_template
  | 3 => create_zigzag_template
  | _ => create_ground_and_floating_template

/-- One attempt's graph construction (mod.rs): Easy builds a single
template, Medium merges two, Hard merges three.  `fam k` is the output
stream of `StdRng::seed_from_u64` on `attempt_seed.wrapping_add(k)`, and
`fam 0` that of `attempt_seed` itself, mirroring the derived-seed calls;
re-seeding from the same value restarts the same stream. -/
def buildGraph (difficulty : Difficulty) (is_first_level : Bool)
    (fam : Nat → Seed) : Option PlatformGraph :=
  match difficulty with
  | .Easy =>
    if is_first_level then some (create_linear_template (some (fam 0)))
    else
      let rng := Rng.seed_from_u64 (fam 0)
      let dr := rng.randomBelow 3
      some (easyTemplateAt dr.1 (fam 0))
  | .Medium =>
    let rng := Rng.seed_from_u64 (fam 0)
    let d1 := rng.randomBelow 5
    let d2 := d1.2.randomBelow 5
    merge_graphs [templateAt d1.1 (fam 1), templateAt d2.1 (fam 2)]
  | .Hard =>
    let rng := Rng.seed_from_u64 (fam 0)
    let d1 := rng.randomBelow 5
    let d2 := d1.2.randomBelow 5
    let d3 := d2.2.randomBelow 5
    merge_graphs [templateAt d1.1 (fam 1), templateAt d2.1 (fam 2),
      templateAt d3.1 (fam 3)]

/-- One retry-loop attempt of `generate_procedural_level` (mod.rs): build
the graph, generate a chain with a generator freshly seeded from the
attempt seed, validate it, apply it, and generate the layout from the
same attempt seed.  The outer `none` models panics; the inner `none` an
attempt the loop would retry. -/
def runAttempt (difficulty : Difficulty) (is_first_level : Bool)
    (fam : Nat → Seed) :
    Option (Option (PlatformGraph ×
      (List (NodeId × PlatformLayout) × List Placement))) :=
  match buildGraph difficulty is_first_level fam with
  | none => none
  | some graph =>
    let gen := CausalityGenerator.new
      { difficulty := difficulty, seed := fam 0 }
    match gen.generate_chain graph with
    | none => none
    | some (.error _) => some none
    | some (.ok (chain, _)) =>
      match chain.validate with
      | .error _ => some none
      | .ok _ =>
        match CausalityGenerator.apply_chain_to_graph chain graph with
        | .error _ => some none
        | .ok graph2 =>
          match graph2.generate_layout (fam 0) with
          | none => none
          | some layouts => some (some (graph2, layouts))

/-- **C6.** The whole attempt pipeline — template construction,
`generate_chain`, chain validation, `apply_chain_to_graph`,
`generate_layout` — is a pure function of the difficulty, the first-level
flag and the seed-derived stream family: all randomness is drawn from
generators freshly seeded from those inputs and no other state enters, so
two runs with identical inputs return identical graphs and identical
layout mappings. -/
theorem c6_pipeline_deterministic (difficulty : Difficulty)
    (is_first_level : Bool) (fam : Nat → Seed)
    (r1 r2 : Option (Option (PlatformGraph ×
      (List (NodeId × PlatformLayout) × List Placement))))
    (h1 : runAttempt difficulty is_first_level fam = r1)
    (h2 : runAttempt difficulty is_first_level fam = r2) : r1 = r2 :=
  h1.symm.trans h2

theorem c6_pipeline_deterministic_witness :
    (runAttempt .Easy true (fun _ => zeroStream)).map
        (Option.map (fun p => p.1.nodes.length)) = some (some 5) ∧
      runAttempt .Easy true (fun _ => zeroStream) =
        runAttempt .Easy true (fun _ => zeroStream) :=
  ⟨rfl, c6_pipeline_deterministic .Easy true (fun _ => zeroStream) _ _
    rfl rfl⟩

end GHF
